import Mathlib

/-
Verification of the deterministic skip list from `src/SkipList.hpp`
(`itsFreddys/ds-skip-list`).

The C++ class `SkipList<Key, Value>` is a pointer-based grid of `Node`
objects.  We embed it shallowly: the heap is an arena `List Node`, a C++
`Node*` is an arena index, and a possibly-null pointer is `Option Nat`.
The claims are stated for `Key = Value = unsigned`, modelled as `Nat`
(all key comparisons in the source are `==`, `>`, `<`, which agree with
`Nat` order on the unsigned range; the folding in `flipCoin` masks to
32 bits exactly as the C++ bit operations do).

Every C++ `while` loop becomes a fuel-indexed recursion; exhausted fuel,
a null-pointer dereference, or control flowing off the end of a non-void
function (undefined behaviour in C++) produce `Res.ub`, and
`throw RuntimeException(msg)` produces `Res.exn msg`.
-/

namespace SkipVerify

/-- Result of running a member function: normal return, a thrown
`RuntimeException` carrying its message, or undefined behaviour
(null dereference / control off the end of a non-void function);
`ub` is also produced by fuel exhaustion of the loop encodings. -/
inductive Res (α : Type) where
  | ok : α → Res α
  | exn : String → Res α
  | ub : Res α
deriving DecidableEq, Repr

/-- `SkipList<K,V>::Node`.  The C++ default constructor leaves `height`,
`key`, `val` uninitialized on sentinels; we fix them to `0` (no claim
reads them on a well-formed path). -/
structure Node where
  sentinel : Bool
  height : Nat
  key : Nat
  val : Nat
  next : Option Nat
  prev : Option Nat
  up : Option Nat
  down : Option Nat
deriving DecidableEq, Repr

/-- `Node()` : sentinel := true, all four links null. -/
def sentinelNode : Node := ⟨true, 0, 0, 0, none, none, none, none⟩

/-- `Node(k, v)` : sentinel := false, height 0, all four links null. -/
def dataNode (k v : Nat) : Node := ⟨false, 0, k, v, none, none, none, none⟩

/-- The private state of a `SkipList` object: the arena of all allocated
nodes plus the four sentinel pointers and the two counters. -/
structure SkipState where
  nodes : List Node
  top_l : Nat
  top_tail : Nat
  bottom_l : Nat
  bottom_tail : Nat
  sl_size : Nat
  sl_layers : Nat
deriving DecidableEq, Repr

/-- Dereference an arena index (`*p` for non-null `p`). -/
def getN (s : SkipState) (i : Nat) : Node := s.nodes.getD i sentinelNode

/-- Overwrite one node of the arena. -/
def updN (s : SkipState) (i : Nat) (f : Node → Node) : SkipState :=
  { s with nodes := s.nodes.set i (f (getN s i)) }

def setNext (s : SkipState) (i : Nat) (x : Option Nat) : SkipState :=
  updN s i (fun n => { n with next := x })

def setPrev (s : SkipState) (i : Nat) (x : Option Nat) : SkipState :=
  updN s i (fun n => { n with prev := x })

def setUp (s : SkipState) (i : Nat) (x : Option Nat) : SkipState :=
  updN s i (fun n => { n with up := x })

def setHeight (s : SkipState) (i : Nat) (h : Nat) : SkipState :=
  updN s i (fun n => { n with height := h })

/-- `SkipList::SkipList()`: the four sentinels are allocated in member
declaration order (`top_l`, `top_tail`, `bottom_l`, `bottom_tail`,
indices 0..3) and the constructor body links them. -/
def mkSkipList : SkipState :=
  { nodes :=
      [ { sentinelNode with next := some 1, down := some 2 },
        { sentinelNode with prev := some 0, down := some 3 },
        { sentinelNode with next := some 3, up := some 0 },
        { sentinelNode with prev := some 2, up := some 1 } ],
    top_l := 0, top_tail := 1, bottom_l := 2, bottom_tail := 3,
    sl_size := 0, sl_layers := 2 }

/-- XOR-fold of the four bytes of the 32-bit form of `key`, the value
the C++ `flipCoin(unsigned, unsigned)` stores in its local `char c`
(as a bit pattern; the sign of `char` does not affect the tested bits). -/
def byteFold (key : Nat) : Nat :=
  let first8Bits := (key % 4294967296) / 16777216
  let next8Bits := (key % 16777216) / 65536
  let andThen := (key % 65536) / 256
  let lastBits := key % 256
  ((first8Bits ^^^ next8Bits) ^^^ andThen) ^^^ lastBits

/-- `flipCoin(unsigned key, unsigned previousFlips)`. -/
def flipCoin (key : Nat) (previousFlips : Nat) : Bool :=
  let c := byteFold key
  let pf := previousFlips % 8
  (c &&& (1 <<< pf)) != 0

/-- XOR of all characters of a `std::string`, the value the string
overload stores in `c` (for the empty string `key[0]` is the null
character, so the fold starts from 0 either way). -/
def strFold (key : List Nat) : Nat := key.foldl (fun a b => a ^^^ b) 0

/-- `flipCoin(std::string key, unsigned previousFlips)`; the string is
modelled as its list of character bytes. -/
def flipCoinStr (key : List Nat) (previousFlips : Nat) : Bool :=
  let c := strFold key
  let pf := previousFlips % 8
  (c &&& (1 <<< pf)) != 0

/-- `SkipList::bottomMost`: follow `down` links to the bottom copy. -/
def bottomMostLoop (s : SkipState) : Nat → Nat → Res Nat
  | 0, _ => .ub
  | fuel + 1, t =>
    match (getN s t).down with
    | none => .ok t
    | some d => bottomMostLoop s fuel d

/-- The code after `SkipList::search`'s main loop: compute the out
parameter `n` from `no_null` and return false. -/
def searchPost (s : SkipState) (k : Nat) (no_null : Nat) : Res (Bool × Nat) :=
  let nn := getN s no_null
  if nn.sentinel then .ok (false, no_null)
  else if nn.key < k then .ok (false, no_null)
  else
    match nn.prev with
    | none => .ub
    | some p => .ok (false, p)

/-- The main loop of `SkipList::search` (`while (temp != bottom_tail &&
temp != nullptr)`), one fuel unit per iteration. -/
def searchLoop (s : SkipState) (k : Nat) : Nat → Option Nat → Nat → Res (Bool × Nat)
  | 0, _, _ => .ub
  | fuel + 1, temp, no_null =>
    match temp with
    | none => searchPost s k no_null
    | some t =>
      if t = s.bottom_tail then searchPost s k no_null
      else
        let tn := getN s t
        if tn.sentinel then
          match tn.next with
          | none => .ub
          | some nx =>
            if (getN s nx).sentinel then searchLoop s k fuel tn.down no_null
            else searchLoop s k fuel (some nx) no_null
        else
          if tn.key = k then
            match bottomMostLoop s (s.nodes.length + 1) t with
            | .ok b => .ok (true, b)
            | .exn m => .exn m
            | .ub => .ub
          else if tn.key > k then
            match tn.prev with
            | none => .ub
            | some p => searchLoop s k fuel ((getN s p).down) t
          else
            match tn.next with
            | none => .ub
            | some nx =>
              if (getN s nx).sentinel then
                if t = s.bottom_tail then searchLoop s k fuel (some nx) t
                else searchLoop s k fuel tn.down t
              else searchLoop s k fuel (some nx) t

/-- `SkipList::search(k, n)`: start at `top_l` with `no_null = temp`.
The fuel `nodes.length + 1` dominates the loop's step count on any
well-formed state (each grid node is visited at most once). -/
def search (s : SkipState) (k : Nat) : Res (Bool × Nat) :=
  searchLoop s k (s.nodes.length + 1) (some s.top_l) s.top_l

/-- `SkipList::height(k)`. -/
def height (s : SkipState) (k : Nat) : Res Nat :=
  match search s k with
  | .ok (true, n) => .ok (getN s n).height
  | .ok (false, _) => .exn "No key."
  | .exn m => .exn m
  | .ub => .ub

/-- `SkipList::nextKey(k)`.  When `search` fails the C++ function ends
without returning or throwing (the comment says "no key found, throw
exception" but there is no throw): control flows off the end of a
non-void function, which is undefined behaviour — `Res.ub`. -/
def nextKey (s : SkipState) (k : Nat) : Res Nat :=
  match search s k with
  | .ok (true, n) =>
    match (getN s n).next with
    | some nx =>
      if (getN s nx).sentinel ≠ true then .ok (getN s nx).key
      else .exn "failed to get next key."
    | none => .exn "failed to get next key."
  | .ok (false, _) => .ub
  | .exn m => .exn m
  | .ub => .ub

/-- `SkipList::previousKey(k)` (this one does throw on a missing key). -/
def previousKey (s : SkipState) (k : Nat) : Res Nat :=
  match search s k with
  | .ok (true, n) =>
    match (getN s n).prev with
    | some p =>
      if (getN s p).sentinel ≠ true then .ok (getN s p).key
      else .exn "No previous key"
    | none => .exn "No previous key"
  | .ok (false, _) => .exn "No previous key"
  | .exn m => .exn m
  | .ub => .ub

/-- `SkipList::find(k)` (const and non-const overloads have the same
body; only the message of the first throw differs from `height`). -/
def find (s : SkipState) (k : Nat) : Res Nat :=
  match search s k with
  | .ok (true, n) => .ok (getN s n).val
  | .ok (false, _) => .exn "find failed."
  | .exn m => .exn m
  | .ub => .ub

/-- The `if (currLayer + 1 >= sl_layers - 1)` block of `insert`:
allocate a fresh empty top layer and hook it above the current one. -/
def grow (s : SkipState) : SkipState :=
  let newTop := s.nodes.length
  let newTail := s.nodes.length + 1
  let s1 := { s with nodes := s.nodes ++
      [ { sentinelNode with next := some newTail, down := some s.top_l },
        { sentinelNode with prev := some newTop, down := some s.top_tail } ] }
  let s2 := setUp s1 s.top_l (some newTop)
  let s3 := setUp s2 s.top_tail (some newTail)
  { s3 with top_l := newTop, top_tail := newTail, sl_layers := s.sl_layers + 1 }

/-- The `while (position->up == nullptr) position = position->prev;`
walk of `insert`; returns the first node at or left of `position`
whose `up` link is non-null. -/
def walkLeft (s : SkipState) : Nat → Nat → Res Nat
  | 0, _ => .ub
  | fuel + 1, pos =>
    match (getN s pos).up with
    | some _ => .ok pos
    | none =>
      match (getN s pos).prev with
      | none => .ub
      | some p => walkLeft s fuel p

/-- The promotion loop of `SkipList::insert`
(`while (flipCoin(k, currLayer) && sl_layers < max)`), one fuel unit
per iteration.  `nn` is the index of the bottom-layer node whose
`height` field the loop keeps updating. -/
def insLoop (k v maxL nn : Nat) : Nat → SkipState → Nat → Nat → Res SkipState
  | 0, _, _, _ => .ub
  | fuel + 1, s, position, currLayer =>
    if flipCoin k currLayer ∧ s.sl_layers < maxL then
      let s1 := if currLayer + 1 ≥ s.sl_layers - 1 then grow s else s
      match (getN s1 position).next with
      | none => .ub
      | some temp =>
        match walkLeft s1 (s1.nodes.length + 1) position with
        | .ok w =>
          match (getN s1 w).up with
          | none => .ub
          | some posU =>
            match (getN s1 posU).next with
            | none => .ub
            | some nx2 =>
              let nu := s1.nodes.length
              let currLayer1 := currLayer + 1
              let newUp : Node :=
                { dataNode k v with height := currLayer1 + 1,
                                    next := some nx2, prev := some posU,
                                    down := some temp }
              let s2 := { s1 with nodes := s1.nodes ++ [newUp] }
              let s3 := setPrev s2 nx2 (some nu)
              let s4 := setNext s3 posU (some nu)
              let s5 := setUp s4 temp (some nu)
              let s6 := setHeight s5 nn (currLayer1 + 1)
              insLoop k v maxL nn fuel s6 posU currLayer1
        | .exn m => .exn m
        | .ub => .ub
    else .ok s

/-- Executable ceiling base-2 logarithm (the same recursion as
`Nat.clog 2`, with fuel so that it reduces in the kernel). -/
def clog2F : Nat → Nat → Nat
  | 0, _ => 0
  | fuel + 1, n => if n ≤ 1 then 0 else clog2F fuel ((n + 1) / 2) + 1

/-- `ceil(log2 n)` for `n ≥ 1`. -/
def clog2 (n : Nat) : Nat := clog2F n n

/-- The height cap of `insert`: `max = 3 * (int)ceil(log2(sl_size+1)) + 1`,
overwritten with 13 when `sl_size < 16`.  On every size reachable in the
claims (and on every size below 2^49) `ceil(log2(n+1))` computed in
`double` is exact, i.e. equals `clog2 (n+1) = Nat.clog 2 (n+1)`
(see `clog2_eq_clog`). -/
def maxCap (slSize : Nat) : Nat :=
  if slSize < 16 then 13 else 3 * clog2 (slSize + 1) + 1

/-- `SkipList::insert(k, v)`. -/
def insert (s : SkipState) (k v : Nat) : Res (Bool × SkipState) :=
  let doIns : Nat → Res (Bool × SkipState) := fun position =>
    match (getN s position).next with
    | none => .ub
    | some nx =>
      let nn := s.nodes.length
      let newNode : Node :=
        { dataNode k v with
                  height := 1, next := some nx, prev := some position }
      let s1 := { s with nodes := s.nodes ++ [newNode] }
      let s2 := setPrev s1 nx (some nn)
      let s3 := setNext s2 position (some nn)
      match insLoop k v (maxCap s.sl_size) nn (maxCap s.sl_size + 2) s3 position 0 with
      | .ok s' => .ok (true, { s' with sl_size := s'.sl_size + 1 })
      | .exn m => .exn m
      | .ub => .ub
  if s.sl_size = 0 then doIns s.bottom_l
  else
    match search s k with
    | .ok (true, _) => .ok (false, s)
    | .ok (false, p) => doIns p
    | .exn m => .exn m
    | .ub => .ub

/-- The walk of `SkipList::allKeysInOrder`. -/
def allKeysLoop (s : SkipState) : Nat → Nat → List Nat → Res (List Nat)
  | 0, _, _ => .ub
  | fuel + 1, t, acc =>
    if t = s.bottom_tail then .ok acc
    else
      match (getN s t).next with
      | none => .ub
      | some nx => allKeysLoop s fuel nx (acc ++ [(getN s t).key])

/-- `SkipList::allKeysInOrder()`. -/
def allKeysInOrder (s : SkipState) : Res (List Nat) :=
  match (getN s s.bottom_l).next with
  | none => .ub
  | some t => allKeysLoop s (s.nodes.length + 1) t []

/-- `SkipList::isSmallestKey(k)`: `k == bottom_l->next->key`. -/
def isSmallestKey (s : SkipState) (k : Nat) : Res Bool :=
  match (getN s s.bottom_l).next with
  | none => .ub
  | some nx => .ok (decide (k = (getN s nx).key))

/-- `SkipList::isLargestKey(k)`: `k == bottom_tail->prev->key`. -/
def isLargestKey (s : SkipState) (k : Nat) : Res Bool :=
  match (getN s s.bottom_tail).prev with
  | none => .ub
  | some p => .ok (decide (k = (getN s p).key))

/-- `SkipList::size()`. -/
def size (s : SkipState) : Nat := s.sl_size

/-- `SkipList::isEmpty()`. -/
def isEmpty (s : SkipState) : Bool := s.sl_size = 0

/-- `SkipList::numLayers()`. -/
def numLayers (s : SkipState) : Nat := s.sl_layers

/-- Run a sequence of `insert` calls from a given state. -/
def buildFrom (s : SkipState) : List (Nat × Nat) → Res SkipState
  | [] => .ok s
  | (k, v) :: rest =>
    match insert s k v with
    | .ok (_, s') => buildFrom s' rest
    | .exn m => .exn m
    | .ub => .ub

/-- Run a sequence of `insert` calls on a freshly constructed list. -/
def build (ops : List (Nat × Nat)) : Res SkipState :=
  buildFrom mkSkipList ops

/-- `height(k)` observed immediately after each `insert(k, k)`, as the
tests in `custom.cpp` record it. -/
def heightsTrace (s : SkipState) : List Nat → Res (List Nat)
  | [] => .ok []
  | k :: rest =>
    match insert s k k with
    | .ok (_, s') =>
      match height s' k with
      | .ok h =>
        match heightsTrace s' rest with
        | .ok hs => .ok (h :: hs)
        | .exn m => .exn m
        | .ub => .ub
      | .exn m => .exn m
      | .ub => .ub
    | .exn m => .exn m
    | .ub => .ub

/-!
## Well-formedness

A *grid* is an abstract description of the layer structure documented in
the spec's data model (§3): for each layer, bottom first, the arena
index of its head sentinel, the indices of its data nodes in order, and
the index of its tail sentinel.  `wfCheck s g` is a decidable check that
the arena `s` really carries that grid with all documented invariants:
the claims quantified over "every skip list" are stated over every state
that carries some grid.
-/

/-- One layer of the abstract grid. -/
structure AbsLayer where
  head : Nat
  mids : List Nat
  tail : Nat
deriving DecidableEq, Repr

/-- All indices of a layer, head to tail. -/
def chainL (L : AbsLayer) : List Nat := L.head :: L.mids ++ [L.tail]

/-- The keys stored on a layer's data nodes, in layer order. -/
def keysOf (s : SkipState) (L : AbsLayer) : List Nat :=
  L.mids.map (fun i => (getN s i).key)

/-- Consecutive elements are doubly linked by `next`/`prev`. -/
def linksOk (s : SkipState) : List Nat → Bool
  | [] => true
  | [_] => true
  | a :: b :: rest =>
    decide ((getN s a).next = some b) && decide ((getN s b).prev = some a)
      && linksOk s (b :: rest)

/-- Strictly increasing list of naturals. -/
def sortedB : List Nat → Bool
  | [] => true
  | [_] => true
  | a :: b :: rest => decide (a < b) && sortedB (b :: rest)

/-- Horizontal well-formedness of one layer: sentinel flags, the doubly
linked chain with null ends, and strictly increasing keys. -/
def layerOk (s : SkipState) (L : AbsLayer) : Bool :=
  (getN s L.head).sentinel && (getN s L.tail).sentinel
    && decide ((getN s L.head).prev = none)
    && decide ((getN s L.tail).next = none)
    && L.mids.all (fun m => !(getN s m).sentinel)
    && linksOk s (chainL L)
    && sortedB (keysOf s L)

/-- Vertical well-formedness between a layer `lo` and the layer `hi`
directly above it: sentinels are linked up/down in columns, every data
node of `hi` sits on a same-key data node of `lo`, and a data node of
`lo` has an `up` link exactly when its key occurs in `hi`. -/
def vertOk (s : SkipState) (lo hi : AbsLayer) : Bool :=
  decide ((getN s lo.head).up = some hi.head)
    && decide ((getN s hi.head).down = some lo.head)
    && decide ((getN s lo.tail).up = some hi.tail)
    && decide ((getN s hi.tail).down = some lo.tail)
    && hi.mids.all (fun u =>
        match (getN s u).down with
        | some d => lo.mids.contains d && decide ((getN s d).key = (getN s u).key)
            && decide ((getN s d).up = some u)
        | none => false)
    && lo.mids.all (fun m =>
        match (getN s m).up with
        | none => !((keysOf s hi).contains (getN s m).key)
        | some u => hi.mids.contains u && decide ((getN s u).down = some m))

/-- `vertOk` for every consecutive pair of layers, bottom first. -/
def vertAll (s : SkipState) : List AbsLayer → Bool
  | [] => true
  | [_] => true
  | lo :: hi :: rest => vertOk s lo hi && vertAll s (hi :: rest)

/-- The bottom layer has no `down` links. -/
def bottomOk (s : SkipState) (L : AbsLayer) : Bool :=
  decide ((getN s L.head).down = none) && decide ((getN s L.tail).down = none)
    && L.mids.all (fun m => decide ((getN s m).down = none))

/-- The top layer has no `up` links and no data nodes (the empty lane). -/
def topOk (s : SkipState) (L : AbsLayer) : Bool :=
  decide ((getN s L.head).up = none) && decide ((getN s L.tail).up = none)
    && decide (L.mids = [])

/-- Every index the grid mentions, bottom layer first. -/
def allIdx (g : List AbsLayer) : List Nat := (g.map chainL).flatten

/-- Default layer for total indexing. -/
def dfltLayer : AbsLayer := ⟨0, [], 0⟩

/-- The `i`-th layer of a grid (bottom = 0). -/
def layI (g : List AbsLayer) (i : Nat) : AbsLayer := g.getD i dfltLayer

/-- Structural well-formedness of a state `s` carrying grid `g`
(everything except the `sl_size` field, which `insert` only restores at
the very end of its body). -/
def wfStruct (s : SkipState) (g : List AbsLayer) : Bool :=
  decide (g.length = s.sl_layers)
    && decide (2 ≤ g.length)
    && decide ((layI g 0).head = s.bottom_l)
    && decide ((layI g 0).tail = s.bottom_tail)
    && bottomOk s (layI g 0)
    && decide ((layI g (g.length - 1)).head = s.top_l)
    && decide ((layI g (g.length - 1)).tail = s.top_tail)
    && topOk s (layI g (g.length - 1))
    && g.all (layerOk s)
    && vertAll s g
    && (allIdx g).all (fun i => decide (i < s.nodes.length))
    && decide (allIdx g).Nodup

/-- The data-node indices of the bottom layer of a grid. -/
def bottomMids (g : List AbsLayer) : List Nat := (layI g 0).mids

/-- The keys of the bottom layer of a grid. -/
def bottomKeys (s : SkipState) (g : List AbsLayer) : List Nat :=
  keysOf s (layI g 0)

/-- Full well-formedness: structure plus the `sl_size` bookkeeping. -/
def wfCheck (s : SkipState) (g : List AbsLayer) : Bool :=
  wfStruct s g && decide (s.sl_size = (bottomMids g).length)

/-!
## The specification of `search` extracted from the loop

`searchSpec` is what the claims' analysis says `search` computes: the
bottom node holding `k` when present; otherwise the bottom-layer
predecessor of the insertion point (`bottom_l` when `k` would be
smallest) for a non-empty list, and `top_l` for the empty list.
-/

/-- The bottom-layer data node holding `k`, when present. -/
def foundIdx (s : SkipState) (g : List AbsLayer) (k : Nat) : Option Nat :=
  (bottomMids g).find? (fun i => (getN s i).key = k)

/-- The bottom-layer node after which `k` would be spliced: the last
data node with key `< k`, or the bottom head sentinel. -/
def predIdx (s : SkipState) (g : List AbsLayer) (k : Nat) : Nat :=
  match ((bottomMids g).filter (fun i => (getN s i).key < k)).getLast? with
  | some d => d
  | none => s.bottom_l

/-- The result `search` produces on a well-formed state. -/
def searchSpec (s : SkipState) (g : List AbsLayer) (k : Nat) : Res (Bool × Nat) :=
  match foundIdx s g k with
  | some d => .ok (true, d)
  | none =>
    if bottomMids g = [] then .ok (false, s.top_l)
    else .ok (false, predIdx s g k)

/-!
## Observation helpers

Closed-form observations on built lists, used to state the concrete
test scenarios of the spec (§8) and the divergences found. -/

/-- Build a list by a sequence of inserts, then observe it with `f`. -/
def runOn (ops : List (Nat × Nat)) (f : SkipState → Res Nat) : Res Nat :=
  match build ops with
  | .ok s => f s
  | .exn m => .exn m
  | .ub => .ub

/-- Insert keys `ks` (each with itself as value) into a fresh list, then
insert key 255 and report `(height(255), numLayers())`. -/
def insert255After (ks : List Nat) : Res (Res Nat × Nat) :=
  match build (ks.map (fun i => (i, i))) with
  | .ok s =>
    match insert s 255 255 with
    | .ok (_, s') => .ok (height s' 255, numLayers s')
    | .exn m => .exn m
    | .ub => .ub
  | .exn m => .exn m
  | .ub => .ub

/-- Build a list by a sequence of inserts and report
`(numLayers(), size())`. -/
def layersSizeOf (ops : List (Nat × Nat)) : Res (Nat × Nat) :=
  match build ops with
  | .ok s => .ok (numLayers s, size s)
  | .exn m => .exn m
  | .ub => .ub

/-!
## Coordinates on a grid (proof support)
-/

/-- The arena index sitting at position `p` of a layer's chain
(position 0 is the head sentinel, positions `1..mids.length` the data
nodes, position `mids.length + 1` the tail sentinel). -/
def cIdx (L : AbsLayer) (p : Nat) : Nat := (chainL L).getD p 0

/-- The key of the `j`-th data node of a layer. -/
def midKey (s : SkipState) (L : AbsLayer) (j : Nat) : Nat :=
  (getN s (L.mids.getD j 0)).key

/-- Total number of grid nodes strictly below layer `L`. -/
def sumBelow (g : List AbsLayer) (L : Nat) : Nat :=
  ((g.take L).map (fun l => (chainL l).length)).sum

/-- Upper bound on the number of loop iterations `search` still needs
from position `(L, p)` (one extra for the terminating null iteration). -/
def smeasure (g : List AbsLayer) (L p : Nat) : Nat :=
  sumBelow g L + ((chainL (layI g L)).length - p) + 1

/-- Layer `L` with node index `i` inserted as data node number `j`. -/
def insLayer (L : AbsLayer) (j i : Nat) : AbsLayer :=
  ⟨L.head, L.mids.take j ++ i :: L.mids.drop j, L.tail⟩

/-- Grid `g` with node index `i` inserted as data node number `j` of
layer `l`. -/
def gSplice (g : List AbsLayer) (l j i : Nat) : List AbsLayer :=
  g.take l ++ insLayer (layI g l) j i :: g.drop (l + 1)

/-- Grid `g` with a fresh empty top lane whose sentinels are `nt`/`ntl`. -/
def gGrow (g : List AbsLayer) (nt ntl : Nat) : List AbsLayer :=
  g ++ [⟨nt, [], ntl⟩]

/-- Propositional unpacking of `wfStruct`: all the §3 invariants of a
state `s` carrying grid `g`, in directly usable form. -/
structure WFacts (s : SkipState) (g : List AbsLayer) : Prop where
  hlen : g.length = s.sl_layers
  h2 : 2 ≤ g.length
  hbh : (layI g 0).head = s.bottom_l
  hbt : (layI g 0).tail = s.bottom_tail
  hbotHead : (getN s (layI g 0).head).down = none
  hbotTail : (getN s (layI g 0).tail).down = none
  hbotMid : ∀ m ∈ (layI g 0).mids, (getN s m).down = none
  hth : (layI g (g.length - 1)).head = s.top_l
  htt : (layI g (g.length - 1)).tail = s.top_tail
  htopHead : (getN s (layI g (g.length - 1)).head).up = none
  htopTail : (getN s (layI g (g.length - 1)).tail).up = none
  htopEmpty : (layI g (g.length - 1)).mids = []
  hheadSent : ∀ L, L < g.length → (getN s (layI g L).head).sentinel = true
  htailSent : ∀ L, L < g.length → (getN s (layI g L).tail).sentinel = true
  hmidSent : ∀ L, L < g.length → ∀ m ∈ (layI g L).mids, (getN s m).sentinel = false
  hheadPrev : ∀ L, L < g.length → (getN s (layI g L).head).prev = none
  htailNext : ∀ L, L < g.length → (getN s (layI g L).tail).next = none
  hnext : ∀ L, L < g.length → ∀ p, p + 1 < (chainL (layI g L)).length →
      (getN s (cIdx (layI g L) p)).next = some (cIdx (layI g L) (p + 1))
  hprev : ∀ L, L < g.length → ∀ p, p + 1 < (chainL (layI g L)).length →
      (getN s (cIdx (layI g L) (p + 1))).prev = some (cIdx (layI g L) p)
  hsorted : ∀ L, L < g.length → (keysOf s (layI g L)).Pairwise (· < ·)
  hvHeadUp : ∀ L, L + 1 < g.length →
      (getN s (layI g L).head).up = some (layI g (L + 1)).head
  hvHeadDown : ∀ L, L + 1 < g.length →
      (getN s (layI g (L + 1)).head).down = some (layI g L).head
  hvTailUp : ∀ L, L + 1 < g.length →
      (getN s (layI g L).tail).up = some (layI g (L + 1)).tail
  hvTailDown : ∀ L, L + 1 < g.length →
      (getN s (layI g (L + 1)).tail).down = some (layI g L).tail
  hvHi : ∀ L, L + 1 < g.length → ∀ u ∈ (layI g (L + 1)).mids,
      ∃ d, (getN s u).down = some d ∧ d ∈ (layI g L).mids
        ∧ (getN s d).key = (getN s u).key ∧ (getN s d).up = some u
  hvLoNone : ∀ L, L + 1 < g.length → ∀ m ∈ (layI g L).mids,
      (getN s m).up = none → (getN s m).key ∉ keysOf s (layI g (L + 1))
  hvLoSome : ∀ L, L + 1 < g.length → ∀ m ∈ (layI g L).mids,
      ∀ u, (getN s m).up = some u →
        u ∈ (layI g (L + 1)).mids ∧ (getN s u).down = some m
  hidx : ∀ i ∈ allIdx g, i < s.nodes.length
  hnodup : (allIdx g).Nodup

/-- The state after `insert(1, 7)` on a fresh list (key 1 has height 2),
used to witness the universally quantified theorems on a concrete
well-formed state. -/
def sampleState : SkipState :=
  match build [(1, 7)] with
  | .ok s => s
  | .exn _ => mkSkipList
  | .ub => mkSkipList

/-- The grid carried by `sampleState`: key 1 sits in layers 0 and 1,
topped by the empty lane. -/
def sampleGrid : List AbsLayer := [⟨2, [4], 3⟩, ⟨0, [7], 1⟩, ⟨5, [], 6⟩]

/-- The state after inserting keys 3, 1, 2 (in that order) on a fresh
list, used to witness the key-ordering theorem on a concrete run. -/
def tripleState : SkipState :=
  match build [(3, 1), (1, 2), (2, 3)] with
  | .ok s => s
  | .exn _ => mkSkipList
  | .ub => mkSkipList

end SkipVerify

namespace SkipVerify

/-!
## Basic lemmas
-/

theorem clog2F_eq_clog : ∀ fuel n, n ≤ fuel → clog2F fuel n = Nat.clog 2 n := by
  intro fuel
  induction fuel with
  | zero =>
    intro n hn
    interval_cases n
    simp [clog2F]
  | succ f ih =>
    intro n hn
    by_cases h1 : n ≤ 1
    · simp [clog2F, h1, Nat.clog_of_right_le_one h1]
    · have h2 : 2 ≤ n := by omega
      have : Nat.clog 2 n = Nat.clog 2 ((n + 2 - 1) / 2) + 1 :=
        Nat.clog_of_two_le (by norm_num) h2
      have harg : (n + 1) / 2 ≤ f := by omega
      simp only [clog2F, if_neg h1]
      rw [ih _ harg]
      simpa using this.symm

theorem clog2_eq_clog (n : Nat) : clog2 n = Nat.clog 2 n :=
  clog2F_eq_clog n n le_rfl

theorem and_one_shiftLeft_ne (c p : Nat) :
    ((c &&& (1 <<< p)) != 0) = c.testBit p := by
  rw [Nat.one_shiftLeft, Nat.and_two_pow]
  cases h : c.testBit p
  · simp
  · simp [(Nat.two_pow_pos p).ne']

/-!
## Coordinate lemmas
-/

theorem chainL_length (L : AbsLayer) : (chainL L).length = L.mids.length + 2 := by
  simp [chainL]

theorem cIdx_zero (L : AbsLayer) : cIdx L 0 = L.head := rfl

theorem cIdx_mid (L : AbsLayer) {j : Nat} (h : j < L.mids.length) :
    cIdx L (j + 1) = L.mids.getD j 0 := by
  show (L.mids ++ [L.tail]).getD j 0 = L.mids.getD j 0
  rw [List.getD_eq_getElem?_getD, List.getD_eq_getElem?_getD,
    List.getElem?_append_left h]

theorem cIdx_tail (L : AbsLayer) : cIdx L (L.mids.length + 1) = L.tail := by
  show (L.mids ++ [L.tail]).getD L.mids.length 0 = L.tail
  rw [List.getD_eq_getElem?_getD, List.getElem?_append_right (le_refl _)]
  simp

theorem layI_cons_succ (a : AbsLayer) (l : List AbsLayer) (n : Nat) :
    layI (a :: l) (n + 1) = layI l n := rfl

theorem layI_eq_getElem {g : List AbsLayer} {L : Nat} (h : L < g.length) :
    layI g L = g[L] := by
  rw [layI, List.getD_eq_getElem?_getD, List.getElem?_eq_getElem h]
  rfl

theorem layI_mem {g : List AbsLayer} {L : Nat} (h : L < g.length) :
    layI g L ∈ g := by
  rw [layI_eq_getElem h]
  exact List.getElem_mem h

theorem getLast?_eq_layI {g : List AbsLayer} (h : g ≠ []) :
    g.getLast? = some (layI g (g.length - 1)) := by
  have hl : g.length - 1 < g.length := by
    have := List.length_pos.mpr h
    omega
  rw [List.getLast?_eq_getElem?, List.getElem?_eq_getElem hl, layI_eq_getElem hl]

/-!
## Extraction of `wfStruct` into `WFacts`
-/

theorem linksOk_next (s : SkipState) :
    ∀ l : List Nat, linksOk s l = true →
      ∀ p, p + 1 < l.length → (getN s (l.getD p 0)).next = some (l.getD (p + 1) 0) := by
  intro l
  induction l with
  | nil => intro _ p hp; simp at hp
  | cons a tl ih =>
    cases tl with
    | nil => intro _ p hp; simp at hp
    | cons b rest =>
      intro h p hp
      simp only [linksOk, Bool.and_eq_true, decide_eq_true_iff] at h
      obtain ⟨⟨h1, _⟩, h3⟩ := h
      match p with
      | 0 => simpa using h1
      | q + 1 =>
        have := ih h3 q (by simpa using hp)
        simpa using this

theorem linksOk_prev (s : SkipState) :
    ∀ l : List Nat, linksOk s l = true →
      ∀ p, p + 1 < l.length → (getN s (l.getD (p + 1) 0)).prev = some (l.getD p 0) := by
  intro l
  induction l with
  | nil => intro _ p hp; simp at hp
  | cons a tl ih =>
    cases tl with
    | nil => intro _ p hp; simp at hp
    | cons b rest =>
      intro h p hp
      simp only [linksOk, Bool.and_eq_true, decide_eq_true_iff] at h
      obtain ⟨⟨_, h2⟩, h3⟩ := h
      match p with
      | 0 => simpa using h2
      | q + 1 =>
        have := ih h3 q (by simpa using hp)
        simpa using this

theorem sortedB_pairwise : ∀ l : List Nat, sortedB l = true → l.Pairwise (· < ·) := by
  intro l
  induction l with
  | nil => intro _; simp
  | cons a tl ih =>
    cases tl with
    | nil => intro _; simp
    | cons b rest =>
      intro h
      simp only [sortedB, Bool.and_eq_true, decide_eq_true_iff] at h
      obtain ⟨hab, h2⟩ := h
      have hp := ih h2
      rw [List.pairwise_cons]
      refine ⟨?_, hp⟩
      intro x hx
      rcases List.mem_cons.mp hx with rfl | hx
      · exact hab
      · exact lt_trans hab (List.rel_of_pairwise_cons hp hx)

theorem layerOk_facts {s : SkipState} {L : AbsLayer} (h : layerOk s L = true) :
    (getN s L.head).sentinel = true ∧ (getN s L.tail).sentinel = true
    ∧ (getN s L.head).prev = none ∧ (getN s L.tail).next = none
    ∧ (∀ m ∈ L.mids, (getN s m).sentinel = false)
    ∧ linksOk s (chainL L) = true ∧ (keysOf s L).Pairwise (· < ·) := by
  simp only [layerOk, Bool.and_eq_true, decide_eq_true_iff, List.all_eq_true,
    Bool.not_eq_true'] at h
  obtain ⟨⟨⟨⟨⟨⟨h1, h2⟩, h3⟩, h4⟩, h5⟩, h6⟩, h7⟩ := h
  exact ⟨h1, h2, h3, h4, h5, h6, sortedB_pairwise _ h7⟩

theorem vertOk_facts {s : SkipState} {lo hi : AbsLayer} (h : vertOk s lo hi = true) :
    (getN s lo.head).up = some hi.head ∧ (getN s hi.head).down = some lo.head
    ∧ (getN s lo.tail).up = some hi.tail ∧ (getN s hi.tail).down = some lo.tail
    ∧ (∀ u ∈ hi.mids, ∃ d, (getN s u).down = some d ∧ d ∈ lo.mids
        ∧ (getN s d).key = (getN s u).key ∧ (getN s d).up = some u)
    ∧ (∀ m ∈ lo.mids, (getN s m).up = none → (getN s m).key ∉ keysOf s hi)
    ∧ (∀ m ∈ lo.mids, ∀ u, (getN s m).up = some u →
        u ∈ hi.mids ∧ (getN s u).down = some m) := by
  simp only [vertOk, Bool.and_eq_true, decide_eq_true_iff, List.all_eq_true] at h
  obtain ⟨⟨⟨⟨⟨h1, h2⟩, h3⟩, h4⟩, h5⟩, h6⟩ := h
  refine ⟨h1, h2, h3, h4, ?_, ?_, ?_⟩
  · intro u hu
    have hu' := h5 u hu
    cases hd : (getN s u).down with
    | none => rw [hd] at hu'; simp at hu'
    | some d =>
      rw [hd] at hu'
      simp only [Bool.and_eq_true, decide_eq_true_iff] at hu'
      obtain ⟨⟨hc, hk⟩, hup⟩ := hu'
      exact ⟨d, rfl, List.elem_iff.mp hc, hk, hup⟩
  · intro m hm hup
    have hm' := h6 m hm
    rw [hup] at hm'
    simp only [Bool.not_eq_true'] at hm'
    intro hmem
    have hc : (keysOf s hi).contains (getN s m).key = true := List.elem_iff.mpr hmem
    rw [hm'] at hc
    exact Bool.false_ne_true hc
  · intro m hm u hup
    have hm' := h6 m hm
    rw [hup] at hm'
    simp only [Bool.and_eq_true, decide_eq_true_iff] at hm'
    exact ⟨List.elem_iff.mp hm'.1, hm'.2⟩

theorem vertAll_pairs {s : SkipState} :
    ∀ g : List AbsLayer, vertAll s g = true →
      ∀ L, L + 1 < g.length → vertOk s (layI g L) (layI g (L + 1)) = true := by
  intro g
  induction g with
  | nil => intro _ L hL; simp at hL
  | cons lo tl ih =>
    cases tl with
    | nil => intro _ L hL; simp at hL
    | cons hi rest =>
      intro h L hL
      simp only [vertAll, Bool.and_eq_true] at h
      obtain ⟨h1, h2⟩ := h
      match L with
      | 0 => exact h1
      | Q + 1 =>
        have := ih h2 Q (by simpa using hL)
        simpa [layI_cons_succ] using this

theorem bottomOk_facts {s : SkipState} {L : AbsLayer} (h : bottomOk s L = true) :
    (getN s L.head).down = none ∧ (getN s L.tail).down = none
    ∧ ∀ m ∈ L.mids, (getN s m).down = none := by
  simp only [bottomOk, Bool.and_eq_true, decide_eq_true_iff, List.all_eq_true] at h
  exact ⟨h.1.1, h.1.2, h.2⟩

theorem topOk_facts {s : SkipState} {L : AbsLayer} (h : topOk s L = true) :
    (getN s L.head).up = none ∧ (getN s L.tail).up = none ∧ L.mids = [] := by
  simp only [topOk, Bool.and_eq_true, decide_eq_true_iff] at h
  exact ⟨h.1.1, h.1.2, h.2⟩

theorem wfStruct_facts {s : SkipState} {g : List AbsLayer}
    (hwf : wfStruct s g = true) : WFacts s g := by
  simp only [wfStruct, Bool.and_eq_true, decide_eq_true_iff, List.all_eq_true] at hwf
  obtain ⟨⟨⟨⟨⟨⟨⟨⟨⟨⟨⟨hlen, h2⟩, hbh⟩, hbt⟩, hbOk⟩, hth⟩, htt⟩, htOk⟩, hlay⟩,
    hvert⟩, hidx⟩, hnodup⟩ := hwf
  have hbotF := bottomOk_facts hbOk
  have htopF := topOk_facts htOk
  have hlayAt : ∀ L, L < g.length → layerOk s (layI g L) = true :=
    fun L hL => hlay _ (layI_mem hL)
  have hvp := vertAll_pairs g hvert
  refine ⟨hlen, h2, hbh, hbt, ?_, ?_, ?_, hth, htt, htopF.1, htopF.2.1, htopF.2.2,
    ?_, ?_, ?_, ?_, ?_, ?_, ?_, ?_, ?_, ?_, ?_, ?_, ?_, ?_, ?_, hidx, hnodup⟩
  · exact hbotF.1
  · exact hbotF.2.1
  · exact hbotF.2.2
  · exact fun L hL => (layerOk_facts (hlayAt L hL)).1
  · exact fun L hL => (layerOk_facts (hlayAt L hL)).2.1
  · exact fun L hL => (layerOk_facts (hlayAt L hL)).2.2.2.2.1
  · exact fun L hL => (layerOk_facts (hlayAt L hL)).2.2.1
  · exact fun L hL => (layerOk_facts (hlayAt L hL)).2.2.2.1
  · exact fun L hL p hp =>
      linksOk_next s _ ((layerOk_facts (hlayAt L hL)).2.2.2.2.2.1) p hp
  · exact fun L hL p hp =>
      linksOk_prev s _ ((layerOk_facts (hlayAt L hL)).2.2.2.2.2.1) p hp
  · exact fun L hL => (layerOk_facts (hlayAt L hL)).2.2.2.2.2.2
  · exact fun L hL => (vertOk_facts (hvp L hL)).1
  · exact fun L hL => (vertOk_facts (hvp L hL)).2.1
  · exact fun L hL => (vertOk_facts (hvp L hL)).2.2.1
  · exact fun L hL => (vertOk_facts (hvp L hL)).2.2.2.1
  · exact fun L hL => (vertOk_facts (hvp L hL)).2.2.2.2.1
  · exact fun L hL => (vertOk_facts (hvp L hL)).2.2.2.2.2.1
  · exact fun L hL => (vertOk_facts (hvp L hL)).2.2.2.2.2.2

/-!
## Derived facts about well-formed states
-/

theorem getD_eq_get {l : List Nat} {q : Nat} (h : q < l.length) : l.getD q 0 = l[q] := by
  rw [List.getD_eq_getElem?_getD, List.getElem?_eq_getElem h]
  rfl

theorem midKey_eq {s : SkipState} {L : AbsLayer} {q : Nat} (h : q < L.mids.length) :
    midKey s L q = (keysOf s L).getD q 0 := by
  rw [midKey, getD_eq_get h, keysOf,
    getD_eq_get (by simpa [keysOf] using h : q < (L.mids.map (fun i => (getN s i).key)).length)]
  simp

theorem mem_mids_getD {L : AbsLayer} {q : Nat} (h : q < L.mids.length) :
    L.mids.getD q 0 ∈ L.mids := by
  rw [getD_eq_get h]
  exact List.getElem_mem h

theorem midKey_lt_midKey {s : SkipState} {L : AbsLayer}
    (hs : (keysOf s L).Pairwise (· < ·)) {i j : Nat}
    (hij : i < j) (hj : j < L.mids.length) : midKey s L i < midKey s L j := by
  have hi : i < L.mids.length := lt_trans hij hj
  have hlen : (keysOf s L).length = L.mids.length := by simp [keysOf]
  have := List.pairwise_iff_getElem.mp hs i j (by omega) (by omega) hij
  rw [midKey_eq hi, midKey_eq hj, getD_eq_get (by omega), getD_eq_get (by omega)]
  exact this

theorem midKey_mem_keys {s : SkipState} {L : AbsLayer} {q : Nat}
    (h : q < L.mids.length) : midKey s L q ∈ keysOf s L := by
  rw [midKey]
  exact List.mem_map_of_mem _ (mem_mids_getD h)

theorem keys_subset_up {s : SkipState} {g : List AbsLayer} (W : WFacts s g)
    {L : Nat} (hL : L + 1 < g.length) :
    keysOf s (layI g (L + 1)) ⊆ keysOf s (layI g L) := by
  intro x hx
  rw [keysOf, List.mem_map] at hx
  obtain ⟨u, hu, rfl⟩ := hx
  obtain ⟨d, _, hdm, hdk, _⟩ := W.hvHi L hL u hu
  rw [keysOf, List.mem_map]
  exact ⟨d, hdm, hdk⟩

theorem not_mem_keys_up {s : SkipState} {g : List AbsLayer} (W : WFacts s g)
    {k : Nat} : ∀ {L : Nat}, L < g.length → k ∉ keysOf s (layI g 0) →
    k ∉ keysOf s (layI g L) := by
  intro L
  induction L with
  | zero => exact fun _ h => h
  | succ Q ih =>
    intro hL hk hmem
    exact ih (by omega) hk (keys_subset_up W (by omega) hmem)

theorem mids_empty_up {s : SkipState} {g : List AbsLayer} (W : WFacts s g)
    (hb : bottomMids g = []) : ∀ {L : Nat}, L < g.length → (layI g L).mids = [] := by
  intro L
  induction L with
  | zero => exact fun _ => hb
  | succ Q ih =>
    intro hL
    have hQ : (layI g Q).mids = [] := ih (by omega)
    have hk0 : keysOf s (layI g Q) = [] := by rw [keysOf, hQ]; simp
    have hsub := keys_subset_up W (L := Q) (by omega)
    rw [hk0, List.subset_nil, keysOf, List.map_eq_nil_iff] at hsub
    exact hsub

theorem btail_prev_some {s : SkipState} {g : List AbsLayer} (W : WFacts s g) :
    (getN s s.bottom_tail).prev
      = some (cIdx (layI g 0) (layI g 0).mids.length) := by
  have h0 : 0 < g.length := by have := W.h2; omega
  have := W.hprev 0 h0 (layI g 0).mids.length (by rw [chainL_length]; omega)
  rw [cIdx_tail, W.hbt] at this
  exact this

theorem head_ne_btail {s : SkipState} {g : List AbsLayer} (W : WFacts s g)
    {L : Nat} (hL : L < g.length) : (layI g L).head ≠ s.bottom_tail := by
  intro he
  have h1 := W.hheadPrev L hL
  rw [he, btail_prev_some W] at h1
  exact Option.noConfusion h1

theorem mid_ne_btail {s : SkipState} {g : List AbsLayer} (W : WFacts s g)
    {L : Nat} (hL : L < g.length) {m : Nat} (hm : m ∈ (layI g L).mids) :
    m ≠ s.bottom_tail := by
  intro he
  have h1 := W.hmidSent L hL m hm
  have h0 : 0 < g.length := by have := W.h2; omega
  have h2 := W.htailSent 0 h0
  rw [W.hbt] at h2
  rw [he, h2] at h1
  exact Bool.noConfusion h1

theorem allIdx_length_eq (g : List AbsLayer) :
    (allIdx g).length = (g.map (fun l => (chainL l).length)).sum := by
  rw [allIdx, List.length_flatten, List.map_map]
  rfl

theorem sumBelow_succ {g : List AbsLayer} {L : Nat} (hL : L < g.length) :
    sumBelow g (L + 1) = sumBelow g L + (chainL (layI g L)).length := by
  rw [sumBelow, sumBelow, List.take_succ, List.map_append, List.sum_append,
    List.getElem?_eq_getElem hL]
  simp [layI_eq_getElem hL]

theorem sumBelow_add_le {g : List AbsLayer} {L : Nat} (hL : L < g.length) :
    sumBelow g L + (chainL (layI g L)).length ≤ (allIdx g).length := by
  rw [← sumBelow_succ hL, allIdx_length_eq]
  rw [sumBelow]
  have : (g.take (L + 1)).map (fun l => (chainL l).length)
      <+: g.map (fun l => (chainL l).length) :=
    (List.take_prefix (L + 1) g).map _
  calc ((g.take (L + 1)).map (fun l => (chainL l).length)).sum
      ≤ ((g.take (L + 1)).map (fun l => (chainL l).length)).sum
        + ((g.drop (L + 1)).map (fun l => (chainL l).length)).sum := Nat.le_add_right _ _
    _ = (g.map (fun l => (chainL l).length)).sum := by
        rw [← List.sum_append, ← List.map_append, List.take_append_drop]

theorem smeasure_le {s : SkipState} {g : List AbsLayer} (W : WFacts s g)
    {L p : Nat} (hL : L < g.length) :
    smeasure g L p ≤ s.nodes.length + 1 := by
  have h1 : smeasure g L p ≤ sumBelow g L + (chainL (layI g L)).length + 1 := by
    rw [smeasure]; omega
  have h2 := sumBelow_add_le hL
  have h3 : (allIdx g).length ≤ s.nodes.length := by
    have hnd := W.hnodup
    have hsub : (allIdx g).toFinset ⊆ Finset.range s.nodes.length := by
      intro i hi
      rw [List.mem_toFinset] at hi
      rw [Finset.mem_range]
      exact W.hidx i hi
    have := Finset.card_le_card hsub
    rw [List.toFinset_card_of_nodup hnd, Finset.card_range] at this
    exact this
  omega

theorem length_le_allIdx (g : List AbsLayer) : g.length ≤ (allIdx g).length := by
  rw [allIdx_length_eq]
  calc g.length = (g.map (fun l => (chainL l).length)).length := by simp
    _ ≤ (g.map (fun l => (chainL l).length)).sum := by
        apply List.length_le_sum_of_one_le
        intro x hx
        rw [List.mem_map] at hx
        obtain ⟨l, _, rfl⟩ := hx
        rw [chainL_length]
        omega

/-!
## Characterization of `searchSpec`
-/

theorem find?_eq_some_of_unique {s : SkipState} {k : Nat} :
    ∀ {l : List Nat}, (l.map (fun i => (getN s i).key)).Pairwise (· < ·) →
      ∀ {t : Nat}, t ∈ l → (getN s t).key = k →
      l.find? (fun i => (getN s i).key = k) = some t := by
  intro l
  induction l with
  | nil => intro _ t ht; exact absurd ht (List.not_mem_nil t)
  | cons a tl ih =>
    intro hs t ht hk
    rw [List.map_cons, List.pairwise_cons] at hs
    obtain ⟨ha, hs'⟩ := hs
    by_cases hak : (getN s a).key = k
    · have hta : t = a := by
        rcases List.mem_cons.mp ht with rfl | htl
        · rfl
        · exfalso
          have := ha _ (List.mem_map_of_mem _ htl)
          omega
      subst hta
      rw [List.find?_cons_of_pos _ (by simpa using hak)]
    · have htl : t ∈ tl := by
        rcases List.mem_cons.mp ht with rfl | htl
        · exact absurd hk hak
        · exact htl
      rw [List.find?_cons_of_neg _ (by simpa using hak)]
      exact ih hs' htl hk

theorem foundIdx_eq_some {s : SkipState} {g : List AbsLayer} (W : WFacts s g)
    {k t : Nat} (ht : t ∈ bottomMids g) (hk : (getN s t).key = k) :
    foundIdx s g k = some t := by
  have h0 : 0 < g.length := by have := W.h2; omega
  have hs := W.hsorted 0 h0
  rw [keysOf] at hs
  exact find?_eq_some_of_unique hs ht hk

theorem foundIdx_eq_none {s : SkipState} {g : List AbsLayer}
    {k : Nat} (hk : k ∉ bottomKeys s g) : foundIdx s g k = none := by
  rw [foundIdx, List.find?_eq_none]
  intro x hx
  simp only [decide_eq_true_iff]
  intro he
  exact hk (by rw [bottomKeys, keysOf, List.mem_map]; exact ⟨x, hx, he⟩)

theorem filter_eq_take {s : SkipState} {k : Nat} :
    ∀ (l : List Nat) (j : Nat), j ≤ l.length →
      (∀ q, (hq : q < j) → (getN s (l.getD q 0)).key < k) →
      (∀ q, j ≤ q → (hq : q < l.length) → k < (getN s (l.getD q 0)).key) →
      l.filter (fun i => (getN s i).key < k) = l.take j := by
  intro l
  induction l with
  | nil => intro j _ _ _; simp
  | cons a tl ih =>
    intro j hj hlt hge
    match j with
    | 0 =>
      rw [List.take_zero, List.filter_eq_nil_iff]
      intro x hx
      simp only [decide_eq_true_iff, not_lt]
      rw [List.mem_iff_getElem] at hx
      obtain ⟨q, hq, rfl⟩ := hx
      have := hge q (Nat.zero_le q) hq
      rw [getD_eq_get hq] at this
      omega
    | j' + 1 =>
      have ha : (getN s a).key < k := by
        have := hlt 0 (Nat.succ_pos j')
        simpa using this
      rw [List.take_succ_cons, List.filter_cons_of_pos (by simpa using ha)]
      congr 1
      apply ih j' (by simpa using hj)
      · intro q hq
        have := hlt (q + 1) (by omega)
        simpa using this
      · intro q hq hql
        have := hge (q + 1) (by omega) (by simpa using Nat.succ_lt_succ hql)
        simpa using this

theorem predIdx_eq {s : SkipState} {g : List AbsLayer} (W : WFacts s g)
    {k j : Nat} (hj : j ≤ (layI g 0).mids.length)
    (hlt : ∀ q, q < j → midKey s (layI g 0) q < k)
    (hge : ∀ q, j ≤ q → q < (layI g 0).mids.length → k < midKey s (layI g 0) q) :
    predIdx s g k = cIdx (layI g 0) j := by
  rw [predIdx]
  have hf := filter_eq_take (k := k) (layI g 0).mids j hj
    (fun q hq => hlt q hq) (fun q hq hql => hge q hq hql)
  rw [show bottomMids g = (layI g 0).mids from rfl, hf]
  match j with
  | 0 =>
    rw [List.take_zero, List.getLast?_nil, cIdx_zero, W.hbh]
  | j' + 1 =>
    have hj' : j' < (layI g 0).mids.length := by omega
    have : ((layI g 0).mids.take (j' + 1)).getLast? = some ((layI g 0).mids.getD j' 0) := by
      rw [List.getLast?_eq_getElem?]
      have hlen : ((layI g 0).mids.take (j' + 1)).length = j' + 1 :=
        List.length_take_of_le (by omega)
      rw [hlen]
      simp only [Nat.add_sub_cancel]
      rw [List.getElem?_take_of_lt (by omega), List.getElem?_eq_getElem hj',
        getD_eq_get hj']
    rw [this, cIdx_mid _ hj']

theorem bottomMost_correct {s : SkipState} {g : List AbsLayer} (W : WFacts s g) :
    ∀ L, L < g.length → ∀ t ∈ (layI g L).mids, ∀ fuel, L + 1 ≤ fuel →
      ∃ d, bottomMostLoop s fuel t = .ok d ∧ d ∈ bottomMids g
        ∧ (getN s d).key = (getN s t).key := by
  intro L
  induction L with
  | zero =>
    intro h0 t ht fuel hfuel
    match fuel, hfuel with
    | f + 1, _ =>
      refine ⟨t, ?_, ht, rfl⟩
      rw [bottomMostLoop, W.hbotMid t ht]
  | succ Q ih =>
    intro hQ t ht fuel hfuel
    obtain ⟨d, hdown, hdm, hdk, _⟩ := W.hvHi Q hQ t ht
    match fuel, hfuel with
    | f + 1, hf =>
      obtain ⟨b, hb, hbm, hbk⟩ := ih (by omega) d hdm f (by omega)
      refine ⟨b, ?_, hbm, by rw [hbk, hdk]⟩
      rw [bottomMostLoop, hdown]
      exact hb

theorem not_mem_keys_of_split {s : SkipState} {L : AbsLayer} {k j : Nat}
    (hlt : ∀ q, q < j → midKey s L q < k)
    (hge : ∀ q, j ≤ q → q < L.mids.length → k < midKey s L q) :
    k ∉ keysOf s L := by
  intro hmem
  rw [keysOf, List.mem_map] at hmem
  obtain ⟨x, hx, hkx⟩ := hmem
  rw [List.mem_iff_getElem] at hx
  obtain ⟨q, hq, rfl⟩ := hx
  have hmq : midKey s L q = k := by rw [midKey, getD_eq_get hq]; exact hkx
  rcases lt_or_ge q j with h | h
  · have := hlt q h; omega
  · have := hge q h hq; omega

theorem searchSpec_eq_pred {s : SkipState} {g : List AbsLayer} (W : WFacts s g)
    {k j : Nat} (hj : j ≤ (layI g 0).mids.length)
    (hne : (layI g 0).mids ≠ [])
    (hlt : ∀ q, q < j → midKey s (layI g 0) q < k)
    (hge : ∀ q, j ≤ q → q < (layI g 0).mids.length → k < midKey s (layI g 0) q) :
    searchSpec s g k = .ok (false, cIdx (layI g 0) j) := by
  have hnk : k ∉ bottomKeys s g := not_mem_keys_of_split hlt hge
  rw [searchSpec, foundIdx_eq_none hnk]
  rw [show bottomMids g = (layI g 0).mids from rfl]
  rw [if_neg hne, predIdx_eq W hj hlt hge]

theorem searchSpec_eq_empty {s : SkipState} {g : List AbsLayer} {k : Nat}
    (hb : bottomMids g = []) : searchSpec s g k = .ok (false, s.top_l) := by
  rw [searchSpec, foundIdx, hb]
  simp

theorem searchSpec_eq_found {s : SkipState} {g : List AbsLayer} (W : WFacts s g)
    {k t : Nat} (ht : t ∈ bottomMids g) (hk : (getN s t).key = k) :
    searchSpec s g k = .ok (true, t) := by
  rw [searchSpec, foundIdx_eq_some W ht hk]

/-!
## `search` meets its specification on every well-formed state
-/

theorem nodes_le {s : SkipState} {g : List AbsLayer} (W : WFacts s g) :
    (allIdx g).length ≤ s.nodes.length := by
  have hsub : (allIdx g).toFinset ⊆ Finset.range s.nodes.length := by
    intro i hi
    rw [List.mem_toFinset] at hi
    rw [Finset.mem_range]
    exact W.hidx i hi
  have := Finset.card_le_card hsub
  rw [List.toFinset_card_of_nodup W.hnodup, Finset.card_range] at this
  exact this

theorem searchExit_gt {s : SkipState} {g : List AbsLayer} (W : WFacts s g)
    {k j : Nat} (hj : j < (layI g 0).mids.length)
    (hLeft : ∀ q, q < j → midKey s (layI g 0) q < k)
    (hgt : k < midKey s (layI g 0) j) :
    searchPost s k (cIdx (layI g 0) (j + 1)) = searchSpec s g k := by
  have h0 : 0 < g.length := by have := W.h2; omega
  have hms : (getN s (cIdx (layI g 0) (j + 1))).sentinel = false := by
    rw [cIdx_mid _ hj]
    exact W.hmidSent 0 h0 _ (mem_mids_getD hj)
  have hkey : (getN s (cIdx (layI g 0) (j + 1))).key = midKey s (layI g 0) j := by
    rw [cIdx_mid _ hj, midKey]
  have hpr := W.hprev 0 h0 j (by rw [chainL_length]; omega)
  rw [searchPost, if_neg (by rw [hms]; exact Bool.false_ne_true),
    if_neg (by rw [hkey]; omega), hpr]
  rw [searchSpec_eq_pred W (j := j) (by omega)
    (by intro hnil; rw [hnil] at hj; simp at hj) hLeft ?_]
  intro q hq hql
  rcases Nat.eq_or_lt_of_le hq with he | h
  · rw [← he]; exact hgt
  · have := midKey_lt_midKey (W.hsorted 0 h0) h hql
    omega

theorem searchExit_lt {s : SkipState} {g : List AbsLayer} (W : WFacts s g)
    {k j : Nat} (hj : j + 1 = (layI g 0).mids.length)
    (hLeft : ∀ q, q < j → midKey s (layI g 0) q < k)
    (hlt : midKey s (layI g 0) j < k) :
    searchPost s k (cIdx (layI g 0) (j + 1)) = searchSpec s g k := by
  have h0 : 0 < g.length := by have := W.h2; omega
  have hj' : j < (layI g 0).mids.length := by omega
  have hms : (getN s (cIdx (layI g 0) (j + 1))).sentinel = false := by
    rw [cIdx_mid _ hj']
    exact W.hmidSent 0 h0 _ (mem_mids_getD hj')
  have hkey : (getN s (cIdx (layI g 0) (j + 1))).key = midKey s (layI g 0) j := by
    rw [cIdx_mid _ hj', midKey]
  rw [searchPost, if_neg (by rw [hms]; exact Bool.false_ne_true),
    if_pos (by rw [hkey]; exact hlt)]
  rw [searchSpec_eq_pred W (j := j + 1) (by omega)
    (by intro hnil; rw [hnil] at hj'; simp at hj') ?_ (by intro q hq hql; omega)]
  intro q hq
  rcases Nat.lt_or_ge q j with h | h
  · exact hLeft q h
  · have : q = j := by omega
    rw [this]; exact hlt

theorem mid_down_coords {s : SkipState} {g : List AbsLayer} (W : WFacts s g)
    {Q : Nat} (hQ1 : Q + 1 < g.length) {i : Nat}
    (hi : i < (layI g (Q + 1)).mids.length) :
    ∃ jd, jd < (layI g Q).mids.length ∧
      (getN s (cIdx (layI g (Q + 1)) (i + 1))).down = some (cIdx (layI g Q) (jd + 1)) ∧
      midKey s (layI g Q) jd = midKey s (layI g (Q + 1)) i := by
  obtain ⟨d, hdown, hdm, hdk, _⟩ := W.hvHi Q hQ1 _ (mem_mids_getD hi)
  obtain ⟨jd, hjd, hjde⟩ := List.mem_iff_getElem.mp hdm
  refine ⟨jd, hjd, ?_, ?_⟩
  · rw [cIdx_mid _ hi, hdown, cIdx_mid _ hjd, getD_eq_get hjd, hjde]
  · rw [midKey, midKey, getD_eq_get hjd, hjde, hdk, getD_eq_get hi]

/-!
## `search` meets its specification on every well-formed state
-/

theorem searchLoop_eq_spec {s : SkipState} {g : List AbsLayer} (W : WFacts s g)
    (k : Nat) :
    ∀ fuel L p no_null,
      L < g.length →
      p ≤ (layI g L).mids.length →
      (∀ L', L < L' → L' < g.length → k ∉ keysOf s (layI g L')) →
      (∀ q, q + 1 < p → midKey s (layI g L) q < k) →
      (bottomMids g = [] → no_null = s.top_l) →
      smeasure g L p ≤ fuel →
      searchLoop s k fuel (some (cIdx (layI g L) p)) no_null = searchSpec s g k := by
  intro fuel
  induction fuel with
  | zero =>
    intro L p no_null _ _ _ _ _ hfuel
    rw [smeasure] at hfuel
    omega
  | succ f ih =>
    intro L p no_null hL hp hAbove hLeft hNN hfuel
    have hcl : (chainL (layI g L)).length = (layI g L).mids.length + 2 :=
      chainL_length _
    cases p with
    | zero =>
      have hne_btail : ¬(cIdx (layI g L) 0 = s.bottom_tail) := by
        rw [cIdx_zero]; exact head_ne_btail W hL
      have hsent : (getN s (cIdx (layI g L) 0)).sentinel = true := by
        rw [cIdx_zero]; exact W.hheadSent L hL
      have hnx := W.hnext L hL 0 (by omega)
      simp only [searchLoop, if_neg hne_btail, hsent, if_true, hnx]
      cases hM : (layI g L).mids with
      | nil =>
        have htail : cIdx (layI g L) 1 = (layI g L).tail := by
          have := cIdx_tail (layI g L)
          rw [hM] at this
          simpa using this
        have hts : (getN s (cIdx (layI g L) 1)).sentinel = true := by
          rw [htail]; exact W.htailSent L hL
        simp only [hts, if_true]
        rw [cIdx_zero]
        cases L with
        | zero =>
          have hbe : bottomMids g = [] := hM
          rw [W.hbotHead]
          have hf1 : 1 ≤ f := by rw [smeasure] at hfuel; omega
          obtain ⟨f', rfl⟩ : ∃ f', f = f' + 1 := ⟨f - 1, by omega⟩
          rw [searchLoop, hNN hbe, searchPost]
          have hsentTop : (getN s s.top_l).sentinel = true := by
            rw [← W.hth]
            exact W.hheadSent _ (by have := W.h2; omega)
          rw [if_pos hsentTop, searchSpec_eq_empty hbe]
        | succ Q =>
          rw [W.hvHeadDown Q (by omega), ← cIdx_zero (layI g Q)]
          apply ih Q 0 no_null (by omega) (by omega)
          · intro L' hQ' hL'
            by_cases he : L' = Q + 1
            · rw [he, keysOf, hM]; simp
            · exact hAbove L' (by omega) hL'
          · intro q hq; omega
          · exact hNN
          · have hstep := sumBelow_succ (g := g) (L := Q) (by omega)
            rw [smeasure] at hfuel ⊢
            rw [hM] at hcl
            omega
      | cons m0 rest =>
        have hm0 : 0 < (layI g L).mids.length := by rw [hM]; simp
        have hms : (getN s (cIdx (layI g L) 1)).sentinel = false := by
          rw [cIdx_mid _ hm0]
          exact W.hmidSent L hL _ (mem_mids_getD hm0)
        simp only [hms, Bool.false_eq_true, if_false]
        apply ih L 1 no_null hL (by omega) hAbove (by intro q hq; omega) hNN
        rw [smeasure] at hfuel ⊢
        omega
    | succ j =>
      have hj : j < (layI g L).mids.length := by omega
      have hne_btail : ¬(cIdx (layI g L) (j + 1) = s.bottom_tail) := by
        rw [cIdx_mid _ hj]
        exact mid_ne_btail W hL (mem_mids_getD hj)
      have hms : (getN s (cIdx (layI g L) (j + 1))).sentinel = false := by
        rw [cIdx_mid _ hj]
        exact W.hmidSent L hL _ (mem_mids_getD hj)
      have hkey : (getN s (cIdx (layI g L) (j + 1))).key = midKey s (layI g L) j := by
        rw [cIdx_mid _ hj, midKey]
      have hsorted := W.hsorted L hL
      rcases Nat.lt_trichotomy (midKey s (layI g L) j) k with hklt | hkeq | hkgt
      · -- the key here is below the target: move right, or drop, or finish
        have hknek : ¬((getN s (cIdx (layI g L) (j + 1))).key = k) := by
          rw [hkey]; omega
        have hkngt : ¬((getN s (cIdx (layI g L) (j + 1))).key > k) := by
          rw [hkey]; omega
        have hnx := W.hnext L hL (j + 1) (by omega)
        rcases Nat.eq_or_lt_of_le hp with hlast | hmore
        · -- last data node of the lane
          have htl : cIdx (layI g L) (j + 1 + 1) = (layI g L).tail := by
            rw [show j + 1 + 1 = (layI g L).mids.length + 1 by omega]
            exact cIdx_tail _
          have hts : (getN s (cIdx (layI g L) (j + 1 + 1))).sentinel = true := by
            rw [htl]; exact W.htailSent L hL
          simp only [searchLoop, if_neg hne_btail, hms, Bool.false_eq_true, if_false,
            if_neg hknek, if_neg hkngt, hnx, hts, if_true]
          cases L with
          | zero =>
            have hdn : (getN s (cIdx (layI g 0) (j + 1))).down = none := by
              rw [cIdx_mid _ hj]
              exact W.hbotMid _ (mem_mids_getD hj)
            rw [hdn]
            have hf1 : 1 ≤ f := by rw [smeasure] at hfuel; omega
            obtain ⟨f', rfl⟩ : ∃ f', f = f' + 1 := ⟨f - 1, by omega⟩
            rw [searchLoop]
            exact searchExit_lt W hlast (fun q hq => hLeft q (by omega)) hklt
          | succ Q =>
            obtain ⟨jd, hjd, hdown, hdkey⟩ := mid_down_coords W hL hj
            rw [hdown]
            apply ih Q (jd + 1) (cIdx (layI g (Q + 1)) (j + 1)) (by omega) (by omega)
            · intro L' hQ' hL'
              by_cases he : L' = Q + 1
              · rw [he]
                apply not_mem_keys_of_split (j := (layI g (Q + 1)).mids.length)
                · intro q hq
                  rcases Nat.lt_or_ge q j with h | h
                  · exact hLeft q (by omega)
                  · have hqj : q = j := by omega
                    rw [hqj]; exact hklt
                · intro q hq hql
                  exact absurd (lt_of_le_of_lt hq hql) (lt_irrefl _)
              · exact hAbove L' (by omega) hL'
            · intro q hq
              have := midKey_lt_midKey (W.hsorted Q (by omega)) (show q < jd by omega) hjd
              rw [hdkey] at this
              omega
            · intro hbe
              have := mids_empty_up W hbe (L := Q + 1) hL
              rw [this] at hj
              simp at hj
            · have hstep := sumBelow_succ (g := g) (L := Q) (by omega)
              have hclQ := chainL_length (layI g Q)
              rw [smeasure] at hfuel ⊢
              omega
        · -- a further data node follows: step right
          have hnxs : (getN s (cIdx (layI g L) (j + 1 + 1))).sentinel = false := by
            rw [cIdx_mid _ (by omega : j + 1 < (layI g L).mids.length)]
            exact W.hmidSent L hL _ (mem_mids_getD (by omega))
          simp only [searchLoop, if_neg hne_btail, hms, Bool.false_eq_true, if_false,
            if_neg hknek, if_neg hkngt, hnx, hnxs]
          apply ih L (j + 1 + 1) (cIdx (layI g L) (j + 1)) hL (by omega) hAbove
          · intro q hq
            rcases Nat.lt_or_ge q j with h | h
            · exact hLeft q (by omega)
            · have hqj : q = j := by omega
              rw [hqj]; exact hklt
          · intro hbe
            have := mids_empty_up W hbe hL
            rw [this] at hj
            simp at hj
          · rw [smeasure] at hfuel ⊢
            omega
      · -- found: descend to the bottom copy and return it
        have hkek : (getN s (cIdx (layI g L) (j + 1))).key = k := by
          rw [hkey]; exact hkeq
        obtain ⟨d, hd, hdm, hdk⟩ := bottomMost_correct W L hL _ (mem_mids_getD hj)
          (s.nodes.length + 1)
          (by
            have h1 := length_le_allIdx g
            have h2 := nodes_le W
            omega)
        simp only [searchLoop, if_neg hne_btail, hms, Bool.false_eq_true, if_false,
          if_pos hkek]
        rw [cIdx_mid _ hj, hd]
        exact (searchSpec_eq_found W hdm (by rw [hdk]; exact hkeq)).symm
      · -- the key here is above the target: back up and drop
        have hknek : ¬((getN s (cIdx (layI g L) (j + 1))).key = k) := by
          rw [hkey]; omega
        have hkgtb : (getN s (cIdx (layI g L) (j + 1))).key > k := by
          rw [hkey]; omega
        have hpr := W.hprev L hL j (by omega)
        have hAboveL : k ∉ keysOf s (layI g L) := by
          apply not_mem_keys_of_split (j := j)
          · intro q hq; exact hLeft q (by omega)
          · intro q hq hql
            rcases Nat.eq_or_lt_of_le hq with he | h
            · rw [← he]; exact hkgt
            · have := midKey_lt_midKey hsorted h hql
              omega
        simp only [searchLoop, if_neg hne_btail, hms, Bool.false_eq_true, if_false,
          if_neg hknek, if_pos hkgtb, hpr]
        cases j with
        | zero =>
          rw [cIdx_zero]
          cases L with
          | zero =>
            rw [W.hbotHead]
            have hf1 : 1 ≤ f := by rw [smeasure] at hfuel; omega
            obtain ⟨f', rfl⟩ : ∃ f', f = f' + 1 := ⟨f - 1, by omega⟩
            rw [searchLoop]
            exact searchExit_gt W hj (by intro q hq; omega) hkgt
          | succ Q =>
            rw [W.hvHeadDown Q (by omega), ← cIdx_zero (layI g Q)]
            apply ih Q 0 (cIdx (layI g (Q + 1)) 1) (by omega) (by omega)
            · intro L' hQ' hL'
              by_cases he : L' = Q + 1
              · rw [he]; exact hAboveL
              · exact hAbove L' (by omega) hL'
            · intro q hq; omega
            · intro hbe
              have := mids_empty_up W hbe (L := Q + 1) hL
              rw [this] at hj
              simp at hj
            · have hstep := sumBelow_succ (g := g) (L := Q) (by omega)
              have hclQ := chainL_length (layI g Q)
              rw [smeasure] at hfuel ⊢
              omega
        | succ q0 =>
          have hq0 : q0 < (layI g L).mids.length := by omega
          have hq0k : midKey s (layI g L) q0 < k := hLeft q0 (by omega)
          cases L with
          | zero =>
            have hdn : (getN s (cIdx (layI g 0) (q0 + 1))).down = none := by
              rw [cIdx_mid _ hq0]
              exact W.hbotMid _ (mem_mids_getD hq0)
            rw [hdn]
            have hf1 : 1 ≤ f := by rw [smeasure] at hfuel; omega
            obtain ⟨f', rfl⟩ : ∃ f', f = f' + 1 := ⟨f - 1, by omega⟩
            rw [searchLoop]
            exact searchExit_gt W hj (fun q hq => hLeft q (by omega)) hkgt
          | succ Q =>
            obtain ⟨jd, hjd, hdown, hdkey⟩ :=
              mid_down_coords W (show Q + 1 < g.length by omega) hq0
            rw [hdown]
            apply ih Q (jd + 1) (cIdx (layI g (Q + 1)) (q0 + 1 + 1)) (by omega) (by omega)
            · intro L' hQ' hL'
              by_cases he : L' = Q + 1
              · rw [he]; exact hAboveL
              · exact hAbove L' (by omega) hL'
            · intro q hq
              have := midKey_lt_midKey (W.hsorted Q (by omega)) (show q < jd by omega) hjd
              rw [hdkey] at this
              omega
            · intro hbe
              have := mids_empty_up W hbe (L := Q + 1) hL
              rw [this] at hj
              simp at hj
            · have hstep := sumBelow_succ (g := g) (L := Q) (by omega)
              have hclQ := chainL_length (layI g Q)
              rw [smeasure] at hfuel ⊢
              omega

theorem wfCheck_parts {s : SkipState} {g : List AbsLayer}
    (h : wfCheck s g = true) :
    wfStruct s g = true ∧ s.sl_size = (bottomMids g).length := by
  simp only [wfCheck, Bool.and_eq_true, decide_eq_true_iff] at h
  exact h

theorem search_eq_spec {s : SkipState} {g : List AbsLayer}
    (hwf : wfStruct s g = true) (k : Nat) :
    search s k = searchSpec s g k := by
  have W := wfStruct_facts hwf
  have hg1 : g.length - 1 < g.length := by have := W.h2; omega
  have htop : s.top_l = cIdx (layI g (g.length - 1)) 0 := by
    rw [cIdx_zero, W.hth]
  rw [search, htop]
  apply searchLoop_eq_spec W k (s.nodes.length + 1) (g.length - 1) 0
  · exact hg1
  · omega
  · intro L' hgt hlt
    omega
  · intro q hq
    omega
  · intro _
    exact htop.symm
  · exact smeasure_le W hg1

/-!
## Splice infrastructure: positional and frame lemmas
-/

theorem getD_append_cons_lt {α : Type} (A : List α) (x : α) (B : List α) (d : α)
    {q : Nat} (h : q < A.length) : (A ++ x :: B).getD q d = A.getD q d :=
  List.getD_append _ _ _ _ h

theorem getD_append_cons_eq {α : Type} (A : List α) (x : α) (B : List α) (d : α) :
    (A ++ x :: B).getD A.length d = x := by
  rw [List.getD_eq_getElem?_getD, List.getElem?_append_right (le_refl _)]
  simp

theorem getD_append_cons_gt {α : Type} (A : List α) (x : α) (B : List α) (d : α)
    {q : Nat} (h : A.length < q) : (A ++ x :: B).getD q d = B.getD (q - A.length - 1) d := by
  rw [List.getD_eq_getElem?_getD, List.getElem?_append_right (by omega),
    List.getD_eq_getElem?_getD]
  have h1 : q - A.length = (q - A.length - 1) + 1 := by omega
  rw [h1, List.getElem?_cons_succ]
  have h2 : q - A.length - 1 + 1 - 1 = q - A.length - 1 := by omega
  rw [h2]

theorem getN_append {s : SkipState} {x : Node} {i : Nat} (h : i < s.nodes.length) :
    getN { s with nodes := s.nodes ++ [x] } i = getN s i := by
  simp only [getN]
  rw [List.getD_append _ _ _ _ h]

theorem getN_append_self {s : SkipState} {x : Node} :
    getN { s with nodes := s.nodes ++ [x] } s.nodes.length = x := by
  simp only [getN]
  exact getD_append_cons_eq s.nodes x [] sentinelNode

theorem getN_updN_ne {s : SkipState} {j : Nat} {f : Node → Node} {i : Nat}
    (h : i ≠ j) : getN (updN s j f) i = getN s i := by
  simp only [getN, updN]
  rw [List.getD_eq_getElem?_getD, List.getElem?_set_ne (by omega),
    ← List.getD_eq_getElem?_getD]

theorem getN_updN_self {s : SkipState} {j : Nat} {f : Node → Node}
    (h : j < s.nodes.length) : getN (updN s j f) j = f (getN s j) := by
  simp only [getN, updN]
  rw [List.getD_eq_getElem?_getD, List.getD_eq_getElem?_getD,
    List.getElem?_set_self (by omega), List.getElem?_eq_getElem h]
  rfl

/-!
## Injectivity of grid coordinates
-/

theorem chainL_sublist {g : List AbsLayer} {L : Nat} (hL : L < g.length) :
    (chainL (layI g L)).Sublist (allIdx g) :=
  List.sublist_flatten_of_mem (List.mem_map_of_mem _ (layI_mem hL))

theorem chain_nodup {s : SkipState} {g : List AbsLayer} (W : WFacts s g)
    {L : Nat} (hL : L < g.length) : (chainL (layI g L)).Nodup :=
  (chainL_sublist hL).nodup W.hnodup

theorem chains_disjoint {s : SkipState} {g : List AbsLayer} (W : WFacts s g)
    {L1 L2 : Nat} (hne : L1 ≠ L2) (hL1 : L1 < g.length) (hL2 : L2 < g.length) :
    ∀ x, x ∈ chainL (layI g L1) → x ∉ chainL (layI g L2) := by
  have hpw : (g.map chainL).Pairwise List.Disjoint :=
    (List.nodup_flatten.mp W.hnodup).2
  rw [List.pairwise_map] at hpw
  have hpg := List.pairwise_iff_getElem.mp hpw
  rcases Nat.lt_or_ge L1 L2 with h | h
  · have := hpg L1 L2 hL1 hL2 h
    rw [← layI_eq_getElem hL1, ← layI_eq_getElem hL2] at this
    intro x hx
    exact fun hx2 => (List.disjoint_iff_ne.mp this x hx x hx2) rfl
  · have hlt : L2 < L1 := by omega
    have := hpg L2 L1 hL2 hL1 hlt
    rw [← layI_eq_getElem hL1, ← layI_eq_getElem hL2] at this
    intro x hx hx2
    exact (List.disjoint_iff_ne.mp this x hx2 x hx) rfl

theorem cIdx_mem_chain {L : AbsLayer} {p : Nat} (h : p < (chainL L).length) :
    cIdx L p ∈ chainL L := by
  rw [cIdx, getD_eq_get h]
  exact List.getElem_mem h

theorem cIdx_ne_same {s : SkipState} {g : List AbsLayer} (W : WFacts s g)
    {L : Nat} (hL : L < g.length) {p1 p2 : Nat}
    (h1 : p1 < (chainL (layI g L)).length) (h2 : p2 < (chainL (layI g L)).length)
    (hne : p1 ≠ p2) : cIdx (layI g L) p1 ≠ cIdx (layI g L) p2 := by
  intro he
  rw [cIdx, cIdx, getD_eq_get h1, getD_eq_get h2] at he
  exact hne (((chain_nodup W hL).getElem_inj_iff).mp he)

theorem cIdx_ne_cross {s : SkipState} {g : List AbsLayer} (W : WFacts s g)
    {L1 L2 : Nat} (hne : L1 ≠ L2) (hL1 : L1 < g.length) (hL2 : L2 < g.length)
    {p1 p2 : Nat} (h1 : p1 < (chainL (layI g L1)).length)
    (h2 : p2 < (chainL (layI g L2)).length) :
    cIdx (layI g L1) p1 ≠ cIdx (layI g L2) p2 := by
  intro he
  have hm1 := cIdx_mem_chain h1
  have hm2 := cIdx_mem_chain h2
  rw [he] at hm1
  exact chains_disjoint W hne hL1 hL2 _ hm1 hm2

theorem cIdx_lt_nodes {s : SkipState} {g : List AbsLayer} (W : WFacts s g)
    {L : Nat} (hL : L < g.length) {p : Nat} (h : p < (chainL (layI g L)).length) :
    cIdx (layI g L) p < s.nodes.length :=
  W.hidx _ ((chainL_sublist hL).mem (cIdx_mem_chain h))

/-!
## Positional lemmas for the updated grids
-/

theorem gGrow_length (g : List AbsLayer) (nt ntl : Nat) :
    (gGrow g nt ntl).length = g.length + 1 := by
  rw [gGrow]; simp

theorem layI_gGrow_old {g : List AbsLayer} {l : Nat} (h : l < g.length)
    (nt ntl : Nat) : layI (gGrow g nt ntl) l = layI g l := by
  rw [gGrow, layI, layI, List.getD_append _ _ _ _ h]

theorem layI_gGrow_top (g : List AbsLayer) (nt ntl : Nat) :
    layI (gGrow g nt ntl) g.length = ⟨nt, [], ntl⟩ := by
  rw [gGrow, layI]
  exact getD_append_cons_eq g _ [] dfltLayer

theorem gSplice_length {g : List AbsLayer} {l : Nat} (h : l < g.length)
    (j i : Nat) : (gSplice g l j i).length = g.length := by
  rw [gSplice]
  simp only [List.length_append, List.length_cons, List.length_take, List.length_drop]
  omega

theorem layI_gSplice_lt {g : List AbsLayer} {l l' : Nat} (hl : l < g.length)
    (h : l' < l) (j i : Nat) : layI (gSplice g l j i) l' = layI g l' := by
  have hlen : (g.take l).length = l := List.length_take_of_le (by omega)
  rw [gSplice, layI, getD_append_cons_lt _ _ _ _ (by omega),
    layI, List.getD_eq_getElem?_getD, List.getD_eq_getElem?_getD,
    List.getElem?_take_of_lt (by omega)]

theorem layI_gSplice_self {g : List AbsLayer} {l : Nat} (hl : l < g.length)
    (j i : Nat) : layI (gSplice g l j i) l = insLayer (layI g l) j i := by
  have hlen : (g.take l).length = l := List.length_take_of_le (by omega)
  have hbase := getD_append_cons_eq (g.take l) (insLayer (layI g l) j i)
    (g.drop (l + 1)) dfltLayer
  rw [hlen] at hbase
  rw [gSplice, layI]
  exact hbase

theorem layI_gSplice_gt {g : List AbsLayer} {l l' : Nat} (hl : l < g.length)
    (h : l < l') (j i : Nat) : layI (gSplice g l j i) l' = layI g l' := by
  have hlen : (g.take l).length = l := List.length_take_of_le (by omega)
  rw [gSplice, layI, getD_append_cons_gt _ _ _ _ (by omega),
    layI]
  rw [hlen, List.getD_eq_getElem?_getD, List.getD_eq_getElem?_getD,
    List.getElem?_drop]
  have h3 : l + 1 + (l' - l - 1) = l' := by omega
  rw [h3]

/-!
## Positional lemmas for a layer with one data node inserted
-/

theorem insLayer_mids_length (L : AbsLayer) {j : Nat} (h : j ≤ L.mids.length)
    (i : Nat) : (insLayer L j i).mids.length = L.mids.length + 1 := by
  rw [insLayer]
  simp only [List.length_append, List.length_cons, List.length_take, List.length_drop]
  omega

theorem insLayer_mids_getD_lt (L : AbsLayer) {j q : Nat} (hj : j ≤ L.mids.length)
    (h : q < j) (i : Nat) : (insLayer L j i).mids.getD q 0 = L.mids.getD q 0 := by
  have hlen : (L.mids.take j).length = j := List.length_take_of_le hj
  rw [insLayer]
  simp only
  rw [getD_append_cons_lt _ _ _ _ (by omega),
    List.getD_eq_getElem?_getD, List.getD_eq_getElem?_getD,
    List.getElem?_take_of_lt (by omega)]

theorem insLayer_mids_getD_eq (L : AbsLayer) {j : Nat} (hj : j ≤ L.mids.length)
    (i : Nat) : (insLayer L j i).mids.getD j 0 = i := by
  have hlen : (L.mids.take j).length = j := List.length_take_of_le hj
  have hbase := getD_append_cons_eq (L.mids.take j) i (L.mids.drop j) 0
  rw [hlen] at hbase
  rw [insLayer]
  exact hbase

theorem insLayer_mids_getD_gt (L : AbsLayer) {j q : Nat} (hj : j ≤ L.mids.length)
    (h : j < q) (i : Nat) : (insLayer L j i).mids.getD q 0 = L.mids.getD (q - 1) 0 := by
  have hlen : (L.mids.take j).length = j := List.length_take_of_le hj
  rw [insLayer]
  simp only
  rw [getD_append_cons_gt _ _ _ _ (by omega), hlen,
    List.getD_eq_getElem?_getD, List.getD_eq_getElem?_getD]
  rcases Nat.lt_or_ge (q - 1) L.mids.length with hq | hq
  · rw [List.getElem?_drop]
    have h3 : j + (q - j - 1) = q - 1 := by omega
    rw [h3]
  · rw [List.getElem?_eq_none (by simp; omega), List.getElem?_eq_none (by omega)]

theorem insLayer_mem {L : AbsLayer} {j i x : Nat} (hj : j ≤ L.mids.length) :
    x ∈ (insLayer L j i).mids ↔ x = i ∨ x ∈ L.mids := by
  rw [insLayer]
  simp only [List.mem_append, List.mem_cons]
  constructor
  · rintro (h | h | h)
    · exact Or.inr (List.mem_of_mem_take h)
    · exact Or.inl h
    · exact Or.inr (List.mem_of_mem_drop h)
  · rintro (h | h)
    · exact Or.inr (Or.inl h)
    · rw [← List.take_append_drop j L.mids, List.mem_append] at h
      rcases h with h | h
      · exact Or.inl h
      · exact Or.inr (Or.inr h)

theorem cIdx_insLayer_le {L : AbsLayer} {j i p : Nat} (hj : j ≤ L.mids.length)
    (hp : p ≤ j) : cIdx (insLayer L j i) p = cIdx L p := by
  match p with
  | 0 => rfl
  | q + 1 =>
    have hq : q < L.mids.length := by omega
    have hq' : q < (insLayer L j i).mids.length := by
      rw [insLayer_mids_length L hj]; omega
    rw [cIdx_mid _ hq', cIdx_mid _ hq, insLayer_mids_getD_lt L hj (by omega)]

theorem cIdx_insLayer_eq {L : AbsLayer} {j i : Nat} (hj : j ≤ L.mids.length) :
    cIdx (insLayer L j i) (j + 1) = i := by
  have hq : j < (insLayer L j i).mids.length := by
    rw [insLayer_mids_length L hj]; omega
  rw [cIdx_mid _ hq, insLayer_mids_getD_eq L hj]

theorem cIdx_insLayer_gt {L : AbsLayer} {j i p : Nat} (hj : j ≤ L.mids.length)
    (hp : j + 1 < p) (hp2 : p ≤ L.mids.length + 2) :
    cIdx (insLayer L j i) p = cIdx L (p - 1) := by
  match p, hp with
  | q + 1, hp =>
    rcases Nat.lt_or_ge q (L.mids.length + 1) with hc | hc
    · have hq' : q < (insLayer L j i).mids.length := by
        rw [insLayer_mids_length L hj]; omega
      have hq1 : q - 1 < L.mids.length := by omega
      rw [cIdx_mid _ hq', insLayer_mids_getD_gt L hj (by omega)]
      have he : q + 1 - 1 = (q - 1) + 1 := by omega
      rw [he, cIdx_mid _ hq1]
    · have ht2 : q + 1 = (insLayer L j i).mids.length + 1 := by
        rw [insLayer_mids_length L hj]; omega
      have ht1 : q + 1 - 1 = L.mids.length + 1 := by omega
      have hLhs : cIdx (insLayer L j i) (q + 1) = L.tail := by
        rw [ht2, cIdx_tail]
        rfl
      have hRhs : cIdx L (q + 1 - 1) = L.tail := by
        rw [ht1, cIdx_tail]
      rw [hLhs, hRhs]

theorem keysOf_congr {s s' : SkipState} {L : AbsLayer}
    (h : ∀ m ∈ L.mids, (getN s' m).key = (getN s m).key) :
    keysOf s' L = keysOf s L := by
  rw [keysOf, keysOf]
  exact List.map_congr_left h

theorem keysOf_insLayer_mixed {s s' : SkipState} {L : AbsLayer} {j i k : Nat}
    (hj : j ≤ L.mids.length)
    (FK : ∀ m ∈ L.mids, (getN s' m).key = (getN s m).key)
    (GK : (getN s' i).key = k) :
    keysOf s' (insLayer L j i)
      = (keysOf s L).take j ++ k :: (keysOf s L).drop j := by
  rw [keysOf, insLayer]
  simp only [List.map_append, List.map_cons, GK]
  rw [keysOf, ← List.map_take, ← List.map_drop]
  rw [List.map_congr_left (fun m hm => FK m (List.mem_of_mem_take hm)),
    List.map_congr_left (fun m hm => FK m (List.mem_of_mem_drop hm)),
    List.map_take, List.map_drop]

theorem sorted_mid_insert {l : List Nat} (hs : l.Pairwise (· < ·)) {j k : Nat}
    (hj : j ≤ l.length)
    (hlt : ∀ q, q < j → l.getD q 0 < k)
    (hgt : ∀ q, j ≤ q → q < l.length → k < l.getD q 0) :
    (l.take j ++ k :: l.drop j).Pairwise (· < ·) := by
  have hjt : (l.take j).length = j := List.length_take_of_le hj
  have hlen : (l.take j ++ k :: l.drop j).length = l.length + 1 := by
    simp; omega
  have hPW := List.pairwise_iff_getElem.mp hs
  have hget : ∀ p, (h : p < l.length + 1) →
      (l.take j ++ k :: l.drop j).getD p 0
        = if p < j then l.getD p 0 else if p = j then k else l.getD (p - 1) 0 := by
    intro p h
    rcases Nat.lt_trichotomy p j with hc | hc | hc
    · rw [if_pos hc, getD_append_cons_lt _ _ _ _ (by omega),
        List.getD_eq_getElem?_getD, List.getD_eq_getElem?_getD,
        List.getElem?_take_of_lt hc]
    · rw [if_neg (by omega), if_pos hc, hc]
      have hbase := getD_append_cons_eq (l.take j) k (l.drop j) 0
      rw [hjt] at hbase
      exact hbase
    · rw [if_neg (by omega), if_neg (by omega),
        getD_append_cons_gt _ _ _ _ (by omega), hjt,
        List.getD_eq_getElem?_getD, List.getD_eq_getElem?_getD]
      have hd : p - 1 < l.length := by omega
      rw [List.getElem?_eq_getElem (l := l) hd,
        List.getElem?_eq_getElem (by simp; omega), List.getElem_drop]
      have he : j + (p - j - 1) = p - 1 := by omega
      simp only [he]
  rw [List.pairwise_iff_getElem]
  intro a b ha hb hab
  rw [hlen] at ha hb
  have hga : (l.take j ++ k :: l.drop j)[a] = (l.take j ++ k :: l.drop j).getD a 0 :=
    (getD_eq_get (by rw [hlen]; omega)).symm
  have hgb : (l.take j ++ k :: l.drop j)[b] = (l.take j ++ k :: l.drop j).getD b 0 :=
    (getD_eq_get (by rw [hlen]; omega)).symm
  rw [hga, hgb, hget a ha, hget b hb]
  by_cases ha' : a < j
  · rw [if_pos ha']
    by_cases hb' : b < j
    · rw [if_pos hb']
      rw [getD_eq_get (show a < l.length by omega),
        getD_eq_get (show b < l.length by omega)]
      exact hPW a b (by omega) (by omega) hab
    · by_cases hb'' : b = j
      · rw [if_neg hb', if_pos hb'']
        exact hlt a (by omega)
      · rw [if_neg hb', if_neg hb'']
        rw [getD_eq_get (show a < l.length by omega),
          getD_eq_get (show b - 1 < l.length by omega)]
        exact hPW a (b - 1) (by omega) (by omega) (by omega)
  · rw [if_neg ha']
    by_cases ha'' : a = j
    · rw [if_pos ha'', if_neg (by omega), if_neg (by omega)]
      exact hgt (b - 1) (by omega) (by omega)
    · rw [if_neg ha'', if_neg (by omega), if_neg (by omega)]
      rw [getD_eq_get (show a - 1 < l.length by omega),
        getD_eq_get (show b - 1 < l.length by omega)]
      exact hPW (a - 1) (b - 1) (by omega) (by omega) (by omega)

theorem chainL_insLayer_perm (L : AbsLayer) (j i : Nat) :
    (chainL (insLayer L j i)).Perm (i :: chainL L) := by
  have h1 : chainL (insLayer L j i)
      = (L.head :: L.mids.take j) ++ i :: (L.mids.drop j ++ [L.tail]) := by
    simp [chainL, insLayer]
  have h2 : (L.head :: L.mids.take j) ++ (L.mids.drop j ++ [L.tail])
      = chainL L := by
    simp only [chainL, List.cons_append, List.cons.injEq, true_and]
    rw [← List.append_assoc, List.take_append_drop]
  rw [h1]
  calc ((L.head :: L.mids.take j) ++ i :: (L.mids.drop j ++ [L.tail])).Perm
        (i :: ((L.head :: L.mids.take j) ++ (L.mids.drop j ++ [L.tail]))) :=
        List.perm_middle
    _ = (i :: chainL L) := by rw [h2]

theorem allIdx_gSplice_perm {g : List AbsLayer} {l : Nat} (hl : l < g.length)
    (j i : Nat) : (allIdx (gSplice g l j i)).Perm (i :: allIdx g) := by
  have hg : g = g.take l ++ g[l] :: g.drop (l + 1) := by
    conv_lhs => rw [← List.take_append_drop l g]
    rw [List.drop_eq_getElem_cons hl]
  have h1 : allIdx (gSplice g l j i)
      = ((g.take l).map chainL).flatten ++ (chainL (insLayer (layI g l) j i)
          ++ ((g.drop (l + 1)).map chainL).flatten) := by
    show ((g.take l ++ insLayer (layI g l) j i :: g.drop (l + 1)).map chainL).flatten = _
    rw [List.map_append, List.flatten_append, List.map_cons, List.flatten_cons]
  have h2' : allIdx (g.take l ++ g[l] :: g.drop (l + 1))
      = ((g.take l).map chainL).flatten
          ++ (chainL g[l] ++ ((g.drop (l + 1)).map chainL).flatten) := by
    show ((g.take l ++ g[l] :: g.drop (l + 1)).map chainL).flatten = _
    rw [List.map_append, List.flatten_append, List.map_cons, List.flatten_cons]
  have h2 : allIdx g
      = ((g.take l).map chainL).flatten
          ++ (chainL (layI g l) ++ ((g.drop (l + 1)).map chainL).flatten) := by
    conv_lhs => rw [hg]
    rw [layI_eq_getElem hl]
    exact h2'
  rw [h1, h2]
  have p2 : (((g.take l).map chainL).flatten ++ (chainL (insLayer (layI g l) j i)
          ++ ((g.drop (l + 1)).map chainL).flatten)).Perm
        (((g.take l).map chainL).flatten ++ ((i :: chainL (layI g l))
          ++ ((g.drop (l + 1)).map chainL).flatten)) :=
    List.Perm.append_left _
      (List.Perm.append_right _ (chainL_insLayer_perm _ j i))
  have he : ((g.take l).map chainL).flatten ++ ((i :: chainL (layI g l))
          ++ ((g.drop (l + 1)).map chainL).flatten)
      = ((g.take l).map chainL).flatten ++ i :: (chainL (layI g l)
          ++ ((g.drop (l + 1)).map chainL).flatten) := by
    simp
  have p3 : (((g.take l).map chainL).flatten ++ i :: (chainL (layI g l)
          ++ ((g.drop (l + 1)).map chainL).flatten)).Perm
        (i :: (((g.take l).map chainL).flatten ++ (chainL (layI g l)
          ++ ((g.drop (l + 1)).map chainL).flatten))) :=
    List.perm_middle
  exact p2.trans (he ▸ p3)

/-!
## The layer-growth block of `insert`
-/

theorem grow_scalars (s : SkipState) :
    (grow s).top_l = s.nodes.length
    ∧ (grow s).top_tail = s.nodes.length + 1
    ∧ (grow s).bottom_l = s.bottom_l
    ∧ (grow s).bottom_tail = s.bottom_tail
    ∧ (grow s).sl_size = s.sl_size
    ∧ (grow s).sl_layers = s.sl_layers + 1
    ∧ (grow s).nodes.length = s.nodes.length + 2 := by
  refine ⟨rfl, rfl, rfl, rfl, rfl, rfl, ?_⟩
  simp [grow, setUp, updN]

theorem grow_getN (s : SkipState) (ht1 : s.top_l < s.nodes.length)
    (ht2 : s.top_tail < s.nodes.length) (hne : s.top_l ≠ s.top_tail) :
    (∀ i, i < s.nodes.length →
      ((getN (grow s) i).sentinel = (getN s i).sentinel
        ∧ (getN (grow s) i).key = (getN s i).key
        ∧ (getN (grow s) i).val = (getN s i).val
        ∧ (getN (grow s) i).height = (getN s i).height
        ∧ (getN (grow s) i).next = (getN s i).next
        ∧ (getN (grow s) i).prev = (getN s i).prev
        ∧ (getN (grow s) i).down = (getN s i).down))
    ∧ (∀ i, i < s.nodes.length → i ≠ s.top_l → i ≠ s.top_tail →
        (getN (grow s) i).up = (getN s i).up)
    ∧ (getN (grow s) s.top_l).up = some s.nodes.length
    ∧ (getN (grow s) s.top_tail).up = some (s.nodes.length + 1)
    ∧ getN (grow s) s.nodes.length
        = { sentinelNode with next := some (s.nodes.length + 1), down := some s.top_l }
    ∧ getN (grow s) (s.nodes.length + 1)
        = { sentinelNode with prev := some s.nodes.length, down := some s.top_tail } := by
  have hgrow : getN (grow s)
      = getN (setUp (setUp { s with nodes := s.nodes ++
          [ { sentinelNode with next := some (s.nodes.length + 1), down := some s.top_l },
            { sentinelNode with prev := some s.nodes.length, down := some s.top_tail } ] }
          s.top_l (some s.nodes.length)) s.top_tail (some (s.nodes.length + 1))) := rfl
  have hlen1 : ({ s with nodes := s.nodes ++
      [ { sentinelNode with next := some (s.nodes.length + 1), down := some s.top_l },
        { sentinelNode with prev := some s.nodes.length, down := some s.top_tail } ] }
        : SkipState).nodes.length = s.nodes.length + 2 := by
    simp
  have happ : ∀ i, i < s.nodes.length →
      getN { s with nodes := s.nodes ++
        [ { sentinelNode with next := some (s.nodes.length + 1), down := some s.top_l },
          { sentinelNode with prev := some s.nodes.length, down := some s.top_tail } ] } i
      = getN s i := by
    intro i h
    simp only [getN]
    rw [List.getD_append _ _ _ _ h]
  refine ⟨?_, ?_, ?_, ?_, ?_, ?_⟩
  · intro i h
    rw [hgrow]
    by_cases h1 : i = s.top_l
    · subst h1
      rw [setUp, getN_updN_ne hne, setUp, getN_updN_self (by rw [hlen1]; omega),
        happ _ h]
      exact ⟨rfl, rfl, rfl, rfl, rfl, rfl, rfl⟩
    · by_cases h2 : i = s.top_tail
      · subst h2
        rw [setUp, getN_updN_self (by simp only [setUp, updN]; rw [List.length_set, hlen1]; omega), setUp,
          getN_updN_ne h1, happ _ h]
        exact ⟨rfl, rfl, rfl, rfl, rfl, rfl, rfl⟩
      · rw [setUp, getN_updN_ne h2, setUp, getN_updN_ne h1, happ _ h]
        exact ⟨rfl, rfl, rfl, rfl, rfl, rfl, rfl⟩
  · intro i h h1 h2
    rw [hgrow, setUp, getN_updN_ne h2, setUp, getN_updN_ne h1, happ _ h]
  · rw [hgrow, setUp, getN_updN_ne hne, setUp,
      getN_updN_self (by rw [hlen1]; omega), happ _ ht1]
  · rw [hgrow, setUp, getN_updN_self (by simp only [setUp, updN]; rw [List.length_set, hlen1]; omega), setUp,
      getN_updN_ne hne.symm, happ _ ht2]
  · rw [hgrow, setUp, getN_updN_ne (by omega), setUp, getN_updN_ne (by omega)]
    simp only [getN]
    exact getD_append_cons_eq s.nodes _ _ sentinelNode
  · rw [hgrow, setUp, getN_updN_ne (by omega), setUp, getN_updN_ne (by omega)]
    simp only [getN]
    have : s.nodes ++
        [ { sentinelNode with next := some (s.nodes.length + 1), down := some s.top_l },
          { sentinelNode with prev := some s.nodes.length, down := some s.top_tail } ]
        = (s.nodes ++
            [ { sentinelNode with next := some (s.nodes.length + 1), down := some s.top_l } ])
          ++ { sentinelNode with prev := some s.nodes.length, down := some s.top_tail } :: [] := by
      simp
    rw [this]
    have hbase := getD_append_cons_eq
      (s.nodes ++
        [ { sentinelNode with next := some (s.nodes.length + 1), down := some s.top_l } ])
      ({ sentinelNode with prev := some s.nodes.length, down := some s.top_tail })
      [] sentinelNode
    rw [List.length_append] at hbase
    simpa using hbase

theorem mid_mem_chain {L : AbsLayer} {m : Nat} (h : m ∈ L.mids) : m ∈ chainL L :=
  List.mem_cons_of_mem _ (List.mem_append_left _ h)

theorem head_mem_chain (L : AbsLayer) : L.head ∈ chainL L :=
  List.mem_cons_self _ _

theorem tail_mem_chain (L : AbsLayer) : L.tail ∈ chainL L :=
  List.mem_cons_of_mem _ (List.mem_append_right _ (List.mem_singleton.mpr rfl))

theorem top_l_lt {s : SkipState} {g : List AbsLayer} (W : WFacts s g) :
    s.top_l < s.nodes.length := by
  rw [← W.hth]
  exact W.hidx _ ((chainL_sublist (by have := W.h2; omega)).mem
    (head_mem_chain _))

theorem top_tail_lt {s : SkipState} {g : List AbsLayer} (W : WFacts s g) :
    s.top_tail < s.nodes.length := by
  rw [← W.htt]
  exact W.hidx _ ((chainL_sublist (by have := W.h2; omega)).mem
    (tail_mem_chain _))

theorem top_l_ne_top_tail {s : SkipState} {g : List AbsLayer} (W : WFacts s g) :
    s.top_l ≠ s.top_tail := by
  rw [← W.hth, ← W.htt]
  have hL : g.length - 1 < g.length := by have := W.h2; omega
  have h1 : (layI g (g.length - 1)).head = cIdx (layI g (g.length - 1)) 0 :=
    (cIdx_zero _).symm
  have h2 : (layI g (g.length - 1)).tail
      = cIdx (layI g (g.length - 1)) ((layI g (g.length - 1)).mids.length + 1) :=
    (cIdx_tail _).symm
  rw [h1, h2]
  exact cIdx_ne_same W hL (by rw [chainL_length]; omega)
    (by rw [chainL_length]; omega) (by omega)

theorem mem_chain_ne_top {s : SkipState} {g : List AbsLayer} (W : WFacts s g)
    {L : Nat} (hL : L < g.length - 1) {x : Nat} (hx : x ∈ chainL (layI g L)) :
    x ≠ s.top_l ∧ x ≠ s.top_tail := by
  have hd := chains_disjoint W (show L ≠ g.length - 1 by omega)
    (by omega) (by have := W.h2; omega)
  constructor
  · intro he
    apply hd x hx
    rw [he, ← W.hth]
    exact head_mem_chain _
  · intro he
    apply hd x hx
    rw [he, ← W.htt]
    exact tail_mem_chain _

theorem allIdx_gGrow (g : List AbsLayer) (nt ntl : Nat) :
    allIdx (gGrow g nt ntl) = allIdx g ++ [nt, ntl] := by
  rw [gGrow, allIdx, allIdx, List.map_append, List.flatten_append]
  rfl

/-- Growing a fresh empty top lane preserves well-formedness: the new
grid is the old one with an empty layer on top. -/
theorem grow_wfacts {s : SkipState} {g : List AbsLayer} (W : WFacts s g) :
    WFacts (grow s) (gGrow g s.nodes.length (s.nodes.length + 1)) := by
  have ht1 := top_l_lt W
  have ht2 := top_tail_lt W
  have hne := top_l_ne_top_tail W
  obtain ⟨FA, FB, FC, FD, FE, FF⟩ := grow_getN s ht1 ht2 hne
  obtain ⟨S1, S2, S3, S4, S5, S6, S7⟩ := grow_scalars s
  have hglen : (gGrow g s.nodes.length (s.nodes.length + 1)).length = g.length + 1 :=
    gGrow_length _ _ _
  have hlay : ∀ L, L < g.length →
      layI (gGrow g s.nodes.length (s.nodes.length + 1)) L = layI g L :=
    fun L hL => layI_gGrow_old hL _ _
  have hlaytop : layI (gGrow g s.nodes.length (s.nodes.length + 1)) g.length
      = ⟨s.nodes.length, [], s.nodes.length + 1⟩ := layI_gGrow_top _ _ _
  have hmemb : ∀ L, L < g.length → ∀ x ∈ chainL (layI g L), x < s.nodes.length :=
    fun L hL x hx => W.hidx x ((chainL_sublist hL).mem hx)
  have hkeys : ∀ L, L < g.length →
      keysOf (grow s) (layI g L) = keysOf s (layI g L) := by
    intro L hL
    rw [keysOf, keysOf]
    apply List.map_eq_map_iff.mpr
    intro m hm
    exact (FA m (hmemb L hL m (mid_mem_chain hm))).2.1
  have h2' := W.h2
  have hlt01 : 0 < g.length := by omega
  refine ⟨?_, ?_, ?_, ?_, ?_, ?_, ?_, ?_, ?_, ?_, ?_, ?_, ?_, ?_, ?_, ?_, ?_,
    ?_, ?_, ?_, ?_, ?_, ?_, ?_, ?_, ?_, ?_, ?_, ?_⟩
  · rw [hglen, S6, W.hlen]
  · rw [hglen]; omega
  · rw [hlay 0 hlt01, S3, W.hbh]
  · rw [hlay 0 hlt01, S4, W.hbt]
  · rw [hlay 0 hlt01]
    rw [(FA _ (hmemb 0 hlt01 _ (head_mem_chain _))).2.2.2.2.2.2]
    exact W.hbotHead
  · rw [hlay 0 hlt01]
    rw [(FA _ (hmemb 0 hlt01 _ (tail_mem_chain _))).2.2.2.2.2.2]
    exact W.hbotTail
  · rw [hlay 0 hlt01]
    intro m hm
    rw [(FA _ (hmemb 0 hlt01 _ (mid_mem_chain hm))).2.2.2.2.2.2]
    exact W.hbotMid m hm
  · rw [hglen]
    simp only [Nat.add_sub_cancel]
    rw [hlaytop, S1]
  · rw [hglen]
    simp only [Nat.add_sub_cancel]
    rw [hlaytop, S2]
  · rw [hglen]
    simp only [Nat.add_sub_cancel]
    rw [hlaytop, FE]
    rfl
  · rw [hglen]
    simp only [Nat.add_sub_cancel]
    rw [hlaytop, FF]
    rfl
  · rw [hglen]
    simp only [Nat.add_sub_cancel]
    rw [hlaytop]
  · intro L hL
    rw [hglen] at hL
    rcases Nat.lt_or_ge L g.length with h | h
    · rw [hlay L h]
      rw [(FA _ (hmemb L h _ (head_mem_chain _))).1]
      exact W.hheadSent L h
    · have hLe : L = g.length := by omega
      rw [hLe, hlaytop]
      rw [show (⟨s.nodes.length, [], s.nodes.length + 1⟩ : AbsLayer).head
          = s.nodes.length from rfl, FE]
      rfl
  · intro L hL
    rw [hglen] at hL
    rcases Nat.lt_or_ge L g.length with h | h
    · rw [hlay L h]
      rw [(FA _ (hmemb L h _ (tail_mem_chain _))).1]
      exact W.htailSent L h
    · have hLe : L = g.length := by omega
      rw [hLe, hlaytop]
      rw [show (⟨s.nodes.length, [], s.nodes.length + 1⟩ : AbsLayer).tail
          = s.nodes.length + 1 from rfl, FF]
      rfl
  · intro L hL m hm
    rw [hglen] at hL
    rcases Nat.lt_or_ge L g.length with h | h
    · rw [hlay L h] at hm
      rw [(FA _ (hmemb L h _ (mid_mem_chain hm))).1]
      exact W.hmidSent L h m hm
    · have hLe : L = g.length := by omega
      rw [hLe, hlaytop] at hm
      exact absurd hm (List.not_mem_nil m)
  · intro L hL
    rw [hglen] at hL
    rcases Nat.lt_or_ge L g.length with h | h
    · rw [hlay L h]
      rw [(FA _ (hmemb L h _ (head_mem_chain _))).2.2.2.2.2.1]
      exact W.hheadPrev L h
    · have hLe : L = g.length := by omega
      rw [hLe, hlaytop]
      rw [show (⟨s.nodes.length, [], s.nodes.length + 1⟩ : AbsLayer).head
          = s.nodes.length from rfl, FE]
      rfl
  · intro L hL
    rw [hglen] at hL
    rcases Nat.lt_or_ge L g.length with h | h
    · rw [hlay L h]
      rw [(FA _ (hmemb L h _ (tail_mem_chain _))).2.2.2.2.1]
      exact W.htailNext L h
    · have hLe : L = g.length := by omega
      rw [hLe, hlaytop]
      rw [show (⟨s.nodes.length, [], s.nodes.length + 1⟩ : AbsLayer).tail
          = s.nodes.length + 1 from rfl, FF]
      rfl
  · intro L hL p hp
    rw [hglen] at hL
    rcases Nat.lt_or_ge L g.length with h | h
    · rw [hlay L h] at hp ⊢
      rw [(FA _ (hmemb L h _ (cIdx_mem_chain (by omega)))).2.2.2.2.1]
      exact W.hnext L h p hp
    · have hLe : L = g.length := by omega
      rw [hLe, hlaytop] at hp ⊢
      rw [chainL_length] at hp
      simp only [List.length_nil] at hp
      have hp0 : p = 0 := by omega
      rw [hp0]
      rw [show cIdx (⟨s.nodes.length, [], s.nodes.length + 1⟩ : AbsLayer) 0
          = s.nodes.length from rfl]
      rw [show cIdx (⟨s.nodes.length, [], s.nodes.length + 1⟩ : AbsLayer) 1
          = s.nodes.length + 1 from rfl]
      rw [FE]
  · intro L hL p hp
    rw [hglen] at hL
    rcases Nat.lt_or_ge L g.length with h | h
    · rw [hlay L h] at hp ⊢
      rw [(FA _ (hmemb L h _ (cIdx_mem_chain (by omega)))).2.2.2.2.2.1]
      exact W.hprev L h p hp
    · have hLe : L = g.length := by omega
      rw [hLe, hlaytop] at hp ⊢
      rw [chainL_length] at hp
      simp only [List.length_nil] at hp
      have hp0 : p = 0 := by omega
      rw [hp0]
      rw [show cIdx (⟨s.nodes.length, [], s.nodes.length + 1⟩ : AbsLayer) 0
          = s.nodes.length from rfl]
      rw [show cIdx (⟨s.nodes.length, [], s.nodes.length + 1⟩ : AbsLayer) 1
          = s.nodes.length + 1 from rfl]
      rw [FF]
  · intro L hL
    rw [hglen] at hL
    rcases Nat.lt_or_ge L g.length with h | h
    · rw [hlay L h, hkeys L h]
      exact W.hsorted L h
    · have hLe : L = g.length := by omega
      rw [hLe, hlaytop, keysOf]
      simp
  · intro L hL
    rw [hglen] at hL
    rcases Nat.lt_or_ge (L + 1) g.length with h | h
    · rw [hlay L (by omega), hlay (L + 1) h]
      have hnt := mem_chain_ne_top W (show L < g.length - 1 by omega)
        (head_mem_chain (layI g L))
      rw [FB _ (hmemb L (by omega) _ (head_mem_chain _)) hnt.1 hnt.2]
      exact W.hvHeadUp L h
    · have hLe : L = g.length - 1 := by omega
      have hL1' : g.length - 1 + 1 = g.length := by omega
      rw [hLe, hL1', hlay (g.length - 1) (by omega), hlaytop]
      rw [W.hth, FC]
  · intro L hL
    rw [hglen] at hL
    rcases Nat.lt_or_ge (L + 1) g.length with h | h
    · rw [hlay L (by omega), hlay (L + 1) h]
      rw [(FA _ (hmemb (L + 1) h _ (head_mem_chain _))).2.2.2.2.2.2]
      exact W.hvHeadDown L h
    · have hLe : L = g.length - 1 := by omega
      have hL1' : g.length - 1 + 1 = g.length := by omega
      rw [hLe, hL1', hlaytop, hlay (g.length - 1) (by omega)]
      rw [show (⟨s.nodes.length, [], s.nodes.length + 1⟩ : AbsLayer).head
          = s.nodes.length from rfl, FE, W.hth]
  · intro L hL
    rw [hglen] at hL
    rcases Nat.lt_or_ge (L + 1) g.length with h | h
    · rw [hlay L (by omega), hlay (L + 1) h]
      have hnt := mem_chain_ne_top W (show L < g.length - 1 by omega)
        (tail_mem_chain (layI g L))
      rw [FB _ (hmemb L (by omega) _ (tail_mem_chain _)) hnt.1 hnt.2]
      exact W.hvTailUp L h
    · have hLe : L = g.length - 1 := by omega
      have hL1' : g.length - 1 + 1 = g.length := by omega
      rw [hLe, hL1', hlay (g.length - 1) (by omega), hlaytop]
      rw [W.htt, FD]
  · intro L hL
    rw [hglen] at hL
    rcases Nat.lt_or_ge (L + 1) g.length with h | h
    · rw [hlay L (by omega), hlay (L + 1) h]
      rw [(FA _ (hmemb (L + 1) h _ (tail_mem_chain _))).2.2.2.2.2.2]
      exact W.hvTailDown L h
    · have hLe : L = g.length - 1 := by omega
      have hL1' : g.length - 1 + 1 = g.length := by omega
      rw [hLe, hL1', hlaytop, hlay (g.length - 1) (by omega)]
      rw [show (⟨s.nodes.length, [], s.nodes.length + 1⟩ : AbsLayer).tail
          = s.nodes.length + 1 from rfl, FF, W.htt]
  · intro L hL u hu
    rw [hglen] at hL
    rcases Nat.lt_or_ge (L + 1) g.length with h | h
    · rw [hlay (L + 1) h] at hu
      rw [hlay L (by omega)]
      obtain ⟨d, hd1, hd2, hd3, hd4⟩ := W.hvHi L h u hu
      refine ⟨d, ?_, hd2, ?_, ?_⟩
      · rw [(FA _ (hmemb (L + 1) h _ (mid_mem_chain hu))).2.2.2.2.2.2]
        exact hd1
      · rw [(FA _ (hmemb L (by omega) _ (mid_mem_chain hd2))).2.1,
          (FA _ (hmemb (L + 1) h _ (mid_mem_chain hu))).2.1]
        exact hd3
      · have hnt := mem_chain_ne_top W (show L < g.length - 1 by omega)
          (mid_mem_chain hd2)
        rw [FB _ (hmemb L (by omega) _ (mid_mem_chain hd2)) hnt.1 hnt.2]
        exact hd4
    · have hL1 : L + 1 = g.length := by omega
      rw [hL1, hlaytop] at hu
      exact absurd hu (List.not_mem_nil u)
  · intro L hL m hm hup
    rw [hglen] at hL
    rcases Nat.lt_or_ge (L + 1) g.length with h | h
    · rw [hlay L (by omega)] at hm
      rw [hlay (L + 1) h, hkeys (L + 1) h]
      have hnt := mem_chain_ne_top W (show L < g.length - 1 by omega)
        (mid_mem_chain hm)
      rw [(FA _ (hmemb L (by omega) _ (mid_mem_chain hm))).2.1]
      rw [FB _ (hmemb L (by omega) _ (mid_mem_chain hm)) hnt.1 hnt.2] at hup
      exact W.hvLoNone L h m hm hup
    · have hLe : L = g.length - 1 := by omega
      rw [hLe, hlay (g.length - 1) (by omega)] at hm
      rw [W.htopEmpty] at hm
      exact absurd hm (List.not_mem_nil m)
  · intro L hL m hm u hup
    rw [hglen] at hL
    rcases Nat.lt_or_ge (L + 1) g.length with h | h
    · rw [hlay L (by omega)] at hm
      rw [hlay (L + 1) h]
      have hnt := mem_chain_ne_top W (show L < g.length - 1 by omega)
        (mid_mem_chain hm)
      rw [FB _ (hmemb L (by omega) _ (mid_mem_chain hm)) hnt.1 hnt.2] at hup
      obtain ⟨h1, h2⟩ := W.hvLoSome L h m hm u hup
      refine ⟨h1, ?_⟩
      rw [(FA _ (hmemb (L + 1) h _ (mid_mem_chain h1))).2.2.2.2.2.2]
      exact h2
    · have hLe : L = g.length - 1 := by omega
      rw [hLe, hlay (g.length - 1) (by omega)] at hm
      rw [W.htopEmpty] at hm
      exact absurd hm (List.not_mem_nil m)
  · intro i hi
    rw [allIdx_gGrow] at hi
    rw [S7]
    rcases List.mem_append.mp hi with h | h
    · have := W.hidx i h
      omega
    · rcases List.mem_cons.mp h with h1 | h1
      · omega
      · rw [List.mem_singleton.mp h1]
        omega
  · rw [allIdx_gGrow]
    apply List.Nodup.append W.hnodup
    · simp
    · intro x hx hx2
      have := W.hidx x hx
      rcases List.mem_cons.mp hx2 with h1 | h1
      · omega
      · rw [List.mem_singleton.mp h1] at this
        omega

/-!
## The walk-left step of `insert`'s promotion loop
-/

theorem walkLeft_run {s : SkipState} {g : List AbsLayer} (W : WFacts s g)
    {c : Nat} (hc : c + 1 < g.length) :
    ∀ p, p ≤ (layI g c).mids.length →
      ∀ fuel, p + 1 ≤ fuel →
      ∃ pm, pm ≤ p ∧ walkLeft s fuel (cIdx (layI g c) p) = .ok (cIdx (layI g c) pm)
        ∧ (∃ u, (getN s (cIdx (layI g c) pm)).up = some u)
        ∧ (∀ r, pm < r → r ≤ p → (getN s (cIdx (layI g c) r)).up = none) := by
  intro p
  induction p with
  | zero =>
    intro _ fuel hfuel
    obtain ⟨f, rfl⟩ : ∃ f, fuel = f + 1 := ⟨fuel - 1, by omega⟩
    have hup := W.hvHeadUp c hc
    refine ⟨0, le_refl _, ?_, ⟨_, by rw [cIdx_zero]; exact hup⟩, ?_⟩
    · rw [walkLeft, cIdx_zero, hup]
    · intro r h1 h2
      omega
  | succ r ih =>
    intro hp fuel hfuel
    obtain ⟨f, rfl⟩ : ∃ f, fuel = f + 1 := ⟨fuel - 1, by omega⟩
    cases hu : (getN s (cIdx (layI g c) (r + 1))).up with
    | some u =>
      refine ⟨r + 1, le_refl _, ?_, ⟨u, hu⟩, ?_⟩
      · rw [walkLeft, hu]
      · intro r' h1 h2
        omega
    | none =>
      have hpr := W.hprev c (by omega) r (by rw [chainL_length]; omega)
      obtain ⟨pm, hpm, hrun, hups, hz⟩ := ih (by omega) f (by omega)
      refine ⟨pm, by omega, ?_, hups, ?_⟩
      · rw [walkLeft, hu, hpr]
        exact hrun
      · intro r' h1 h2
        rcases Nat.eq_or_lt_of_le h2 with he | hlt
        · rw [he]; exact hu
        · exact hz r' h1 (by omega)

theorem walkLeft_stop {s : SkipState} {g : List AbsLayer} (W : WFacts s g)
    {c k jk u : Nat} (hc : c + 1 < g.length)
    (hjk : jk < (layI g c).mids.length)
    (hkey : midKey s (layI g c) jk = k)
    (habs : k ∉ keysOf s (layI g (c + 1)))
    {pm : Nat} (hpm : pm ≤ jk)
    (hup : (getN s (cIdx (layI g c) pm)).up = some u)
    (hz : ∀ r, pm < r → r ≤ jk → (getN s (cIdx (layI g c) r)).up = none) :
    ∃ jnew, jnew ≤ (layI g (c + 1)).mids.length
      ∧ u = cIdx (layI g (c + 1)) jnew
      ∧ (∀ q, q < jnew → midKey s (layI g (c + 1)) q < k)
      ∧ (∀ q, jnew ≤ q → q < (layI g (c + 1)).mids.length →
          k < midKey s (layI g (c + 1)) q) := by
  have hcl : c < g.length := by omega
  have hsc := W.hsorted c hcl
  have hsc1 := W.hsorted (c + 1) hc
  -- any data node of layer c+1 with key < k yields a contradiction with the
  -- up-links being null on the walked range (pm, jk]
  have hbig : ∀ q, q < (layI g (c + 1)).mids.length →
      midKey s (layI g (c + 1)) q < k →
      ∃ qd, qd < (layI g c).mids.length ∧ qd < jk
        ∧ midKey s (layI g c) qd = midKey s (layI g (c + 1)) q
        ∧ (getN s (cIdx (layI g c) (qd + 1))).up
            = some ((layI g (c + 1)).mids.getD q 0) := by
    intro q hq hqk
    obtain ⟨d, hd1, hd2, hd3, hd4⟩ := W.hvHi c hc _ (mem_mids_getD hq)
    obtain ⟨qd, hqd, hqde⟩ := List.mem_iff_getElem.mp hd2
    have hdkey : midKey s (layI g c) qd = midKey s (layI g (c + 1)) q := by
      rw [midKey, getD_eq_get hqd, hqde, hd3, midKey]
    refine ⟨qd, hqd, ?_, hdkey, ?_⟩
    · by_contra hge
      have : midKey s (layI g c) jk ≤ midKey s (layI g c) qd := by
        rcases Nat.eq_or_lt_of_le (Nat.le_of_not_lt hge) with he | hlt
        · rw [← he]
        · exact le_of_lt (midKey_lt_midKey hsc hlt hqd)
      rw [hkey, hdkey] at this
      omega
    · rw [cIdx_mid _ hqd, getD_eq_get hqd, hqde]
      exact hd4
  match pm, hup with
  | 0, hup =>
    have hhd := W.hvHeadUp c hc
    rw [cIdx_zero] at hup
    rw [hhd] at hup
    refine ⟨0, by omega, ?_, ?_, ?_⟩
    · rw [cIdx_zero]
      exact (Option.some_inj.mp hup).symm
    · intro q hq; omega
    · intro q _ hq
      by_contra hle
      have hne : midKey s (layI g (c + 1)) q ≠ k := by
        intro he
        exact habs (he ▸ midKey_mem_keys hq)
      have hqk : midKey s (layI g (c + 1)) q < k := by omega
      obtain ⟨qd, hqd, hqjk, _, hqup⟩ := hbig q hq hqk
      have := hz (qd + 1) (by omega) (by omega)
      rw [this] at hqup
      exact Option.noConfusion hqup
  | r + 1, hup =>
    have hr : r < (layI g c).mids.length := by omega
    have hmm : (layI g c).mids.getD r 0 ∈ (layI g c).mids := mem_mids_getD hr
    rw [cIdx_mid _ hr] at hup
    obtain ⟨humem, hudown⟩ := W.hvLoSome c hc _ hmm u hup
    obtain ⟨du, hdu1, hdu2, hdu3, _⟩ := W.hvHi c hc u humem
    have hdueq : du = (layI g c).mids.getD r 0 := by
      rw [hudown] at hdu1
      exact Option.some_inj.mp hdu1.symm
    have hukey : (getN s u).key = midKey s (layI g c) r := by
      rw [← hdu3, hdueq, midKey]
    have hukeylt : (getN s u).key < k := by
      rw [hukey, ← hkey]
      exact midKey_lt_midKey hsc (by omega) hjk
    obtain ⟨ju, hju, hjue⟩ := List.mem_iff_getElem.mp humem
    have hjukey : midKey s (layI g (c + 1)) ju = (getN s u).key := by
      rw [midKey, getD_eq_get hju, hjue]
    refine ⟨ju + 1, by omega, ?_, ?_, ?_⟩
    · rw [cIdx_mid _ hju, getD_eq_get hju, hjue]
    · intro q hq
      rcases Nat.lt_or_ge q ju with h | h
      · have := midKey_lt_midKey hsc1 h hju
        omega
      · have : q = ju := by omega
        rw [this, hjukey]
        exact hukeylt
    · intro q hq hql
      by_contra hle
      have hne : midKey s (layI g (c + 1)) q ≠ k := by
        intro he
        exact habs (he ▸ midKey_mem_keys hql)
      have hqk : midKey s (layI g (c + 1)) q < k := by omega
      obtain ⟨qd, hqd, hqjk, hqkey, hqup⟩ := hbig q hql hqk
      -- the copy of that key sits strictly right of position r at layer c
      have hqdgt : r < qd := by
        by_contra hge
        have hqle : qd ≤ r := by omega
        have h1 : midKey s (layI g c) qd ≤ midKey s (layI g c) r := by
          rcases Nat.eq_or_lt_of_le hqle with he | hlt
          · rw [he]
          · exact le_of_lt (midKey_lt_midKey hsc hlt hr)
        have h2 : (getN s u).key < midKey s (layI g (c + 1)) q := by
          rw [← hjukey]
          exact midKey_lt_midKey hsc1 (by omega) hql
        rw [hukey] at h2
        rw [hqkey] at h1
        omega
      have := hz (qd + 1) (by omega) (by omega)
      rw [this] at hqup
      exact Option.noConfusion hqup

theorem mids_key_inj {s : SkipState} {L : AbsLayer}
    (hs : (keysOf s L).Pairwise (· < ·)) {m m' : Nat}
    (hm : m ∈ L.mids) (hm' : m' ∈ L.mids)
    (hk : (getN s m).key = (getN s m').key) : m = m' := by
  obtain ⟨p, hp, rfl⟩ := List.mem_iff_getElem.mp hm
  obtain ⟨p', hp', rfl⟩ := List.mem_iff_getElem.mp hm'
  have hkl : (keysOf s L).length = L.mids.length := by simp [keysOf]
  have hK : ∀ q, q < L.mids.length →
      (keysOf s L).getD q 0 = (getN s (L.mids.getD q 0)).key := by
    intro q hq
    rw [getD_eq_get (show q < (keysOf s L).length by omega), getD_eq_get hq]
    simp [keysOf]
  rcases Nat.lt_trichotomy p p' with hc | hc | hc
  · have h := List.pairwise_iff_getElem.mp hs p p' (by omega) (by omega) hc
    rw [← getD_eq_get (show p < (keysOf s L).length by omega),
      ← getD_eq_get (show p' < (keysOf s L).length by omega),
      hK p hp, hK p' hp', getD_eq_get hp, getD_eq_get hp', hk] at h
    exact absurd h (lt_irrefl _)
  · subst hc
    rfl
  · have h := List.pairwise_iff_getElem.mp hs p' p (by omega) (by omega) hc
    rw [← getD_eq_get (show p < (keysOf s L).length by omega),
      ← getD_eq_get (show p' < (keysOf s L).length by omega),
      hK p hp, hK p' hp', getD_eq_get hp, getD_eq_get hp', hk] at h
    exact absurd h (lt_irrefl _)

/-- The common core of the two chain-splice steps of `insert` (bottom
layer and promoted layer): a state `s'` that differs from a well-formed
`s` by one appended data node holding `k`, spliced into layer `ℓ` after
data position `j`, carries the spliced grid.  `T` is the index whose
`up` link was redirected to the new node (`temp->up = newUp` — absent
for the bottom splice). -/
theorem splice_core {s s' : SkipState} {g : List AbsLayer} (W : WFacts s g)
    {ℓ j k : Nat} {T : Option Nat}
    (hℓ : ℓ + 1 < g.length)
    (hj : j ≤ (layI g ℓ).mids.length)
    (hlt : ∀ q, q < j → midKey s (layI g ℓ) q < k)
    (hgt : ∀ q, j ≤ q → q < (layI g ℓ).mids.length → k < midKey s (layI g ℓ) q)
    (habs1 : k ∉ keysOf s (layI g (ℓ + 1)))
    (hTL : s'.top_l = s.top_l) (hTT : s'.top_tail = s.top_tail)
    (hBL : s'.bottom_l = s.bottom_l) (hBT : s'.bottom_tail = s.bottom_tail)
    (hSL : s'.sl_layers = s.sl_layers)
    (hNL : s'.nodes.length = s.nodes.length + 1)
    (FS : ∀ i, i < s.nodes.length → (getN s' i).sentinel = (getN s i).sentinel)
    (FK : ∀ i, i < s.nodes.length → (getN s' i).key = (getN s i).key)
    (FD : ∀ i, i < s.nodes.length → (getN s' i).down = (getN s i).down)
    (FN : ∀ i, i < s.nodes.length → i ≠ cIdx (layI g ℓ) j →
        (getN s' i).next = (getN s i).next)
    (FNP : (getN s' (cIdx (layI g ℓ) j)).next = some s.nodes.length)
    (FP : ∀ i, i < s.nodes.length → i ≠ cIdx (layI g ℓ) (j + 1) →
        (getN s' i).prev = (getN s i).prev)
    (FPX : (getN s' (cIdx (layI g ℓ) (j + 1))).prev = some s.nodes.length)
    (FU : ∀ i, i < s.nodes.length → T ≠ some i → (getN s' i).up = (getN s i).up)
    (GS : (getN s' s.nodes.length).sentinel = false)
    (GK : (getN s' s.nodes.length).key = k)
    (GN : (getN s' s.nodes.length).next = some (cIdx (layI g ℓ) (j + 1)))
    (GP : (getN s' s.nodes.length).prev = some (cIdx (layI g ℓ) j))
    (GU : (getN s' s.nodes.length).up = none)
    (VC : (ℓ = 0 ∧ T = none ∧ (getN s' s.nodes.length).down = none)
        ∨ (∃ c jk, ℓ = c + 1 ∧ jk < (layI g c).mids.length
            ∧ midKey s (layI g c) jk = k
            ∧ T = some ((layI g c).mids.getD jk 0)
            ∧ (getN s' s.nodes.length).down = T
            ∧ (getN s' ((layI g c).mids.getD jk 0)).up = some s.nodes.length)) :
    WFacts s' (gSplice g ℓ j s.nodes.length) := by
  have hg2 := W.h2
  have hℓlen : ℓ < g.length := by omega
  have hMj : j < (chainL (layI g ℓ)).length := by rw [chainL_length]; omega
  have hMj1 : j + 1 < (chainL (layI g ℓ)).length := by rw [chainL_length]; omega
  have hglen : (gSplice g ℓ j s.nodes.length).length = g.length :=
    gSplice_length hℓlen j s.nodes.length
  have hself : layI (gSplice g ℓ j s.nodes.length) ℓ
      = insLayer (layI g ℓ) j s.nodes.length :=
    layI_gSplice_self hℓlen j s.nodes.length
  have hmem : ∀ l', l' < g.length → ∀ x, x ∈ chainL (layI g l') → x < s.nodes.length :=
    fun l' hl' x hx => W.hidx x ((chainL_sublist hl').mem hx)
  have hkl : k ∉ keysOf s (layI g ℓ) := not_mem_keys_of_split hlt hgt
  have hlayne : ∀ l', l' ≠ ℓ →
      layI (gSplice g ℓ j s.nodes.length) l' = layI g l' := by
    intro l' hne'
    rcases Nat.lt_or_ge l' ℓ with hc | hc
    · exact layI_gSplice_lt hℓlen hc _ _
    · exact layI_gSplice_gt hℓlen (by omega) _ _
  have hheads : ∀ l', (layI (gSplice g ℓ j s.nodes.length) l').head
      = (layI g l').head := by
    intro l'
    by_cases h : l' = ℓ
    · rw [h, hself]; rfl
    · rw [hlayne l' h]
  have htails : ∀ l', (layI (gSplice g ℓ j s.nodes.length) l').tail
      = (layI g l').tail := by
    intro l'
    by_cases h : l' = ℓ
    · rw [h, hself]; rfl
    · rw [hlayne l' h]
  have hT : ∀ t, T = some t → ∃ c jk, ℓ = c + 1 ∧ jk < (layI g c).mids.length
      ∧ midKey s (layI g c) jk = k ∧ t = (layI g c).mids.getD jk 0
      ∧ (getN s' t).up = some s.nodes.length := by
    intro t ht
    rcases VC with ⟨_, hT0, _⟩ | ⟨c, jk, h1, h2, h3, h4, _, h6⟩
    · rw [hT0] at ht; exact Option.noConfusion ht
    · rw [h4] at ht
      have he : t = (layI g c).mids.getD jk 0 := (Option.some_inj.mp ht).symm
      subst he
      exact ⟨c, jk, h1, h2, h3, rfl, h6⟩
  have hupt_old : ∀ t, T = some t → (getN s t).up = none := by
    intro t ht
    obtain ⟨c, jk, hc1, hjk, hkeyk, he, _⟩ := hT t ht
    by_contra hne
    rcases hx : (getN s t).up with _ | u
    · exact hne hx
    have hcc : c + 1 < g.length := by omega
    have hmm : t ∈ (layI g c).mids := by rw [he]; exact mem_mids_getD hjk
    obtain ⟨humem, hdownu⟩ := W.hvLoSome c hcc t hmm u hx
    obtain ⟨d, hd1, _, hd3, _⟩ := W.hvHi c hcc u humem
    rw [hdownu] at hd1
    have hdt : t = d := Option.some_inj.mp hd1
    have huk : (getN s u).key = k := by
      rw [← hd3, ← hdt, he]
      exact hkeyk
    have hkm : k ∈ keysOf s (layI g (c + 1)) := by
      rw [← huk]
      exact List.mem_map_of_mem _ humem
    rw [← hc1] at hkm
    exact hkl hkm
  have hFU_some : ∀ i, i < s.nodes.length →
      ∀ u, (getN s i).up = some u → (getN s' i).up = some u := by
    intro i hi u hu
    have hTi : T ≠ some i := by
      intro ht
      rw [hupt_old i ht] at hu
      exact Option.noConfusion hu
    rw [FU i hi hTi]
    exact hu
  have hTnotHead : ∀ l', l' < g.length → T ≠ some (layI g l').head := by
    intro l' hl' ht
    obtain ⟨c, jk, hc1, hjk, _, he, _⟩ := hT _ ht
    have hclen : c < g.length := by omega
    have hmm : (layI g c).mids.getD jk 0 ∈ (layI g c).mids := mem_mids_getD hjk
    by_cases hlc : l' = c
    · have hnd := chain_nodup W hl'
      have hnm : (layI g l').head ∉ (layI g l').mids ++ [(layI g l').tail] :=
        (List.nodup_cons.mp hnd).1
      exact hnm (List.mem_append_left _ (by rw [he, hlc]; exact hmm))
    · have h2 : (layI g l').head ∈ chainL (layI g c) := by
        rw [he]; exact mid_mem_chain hmm
      exact chains_disjoint W hlc hl' hclen _ (head_mem_chain _) h2
  have hTnotTail : ∀ l', l' < g.length → T ≠ some (layI g l').tail := by
    intro l' hl' ht
    obtain ⟨c, jk, hc1, hjk, _, he, _⟩ := hT _ ht
    have hclen : c < g.length := by omega
    have hmm : (layI g c).mids.getD jk 0 ∈ (layI g c).mids := mem_mids_getD hjk
    by_cases hlc : l' = c
    · have hnd := chain_nodup W hl'
      have hnd2 : ((layI g l').mids ++ [(layI g l').tail]).Nodup :=
        (List.nodup_cons.mp hnd).2
      rw [List.nodup_append] at hnd2
      have htm : (layI g l').tail ∈ (layI g l').mids := by rw [he, hlc]; exact hmm
      exact hnd2.2.2 htm (List.mem_singleton.mpr rfl)
    · have h2 : (layI g l').tail ∈ chainL (layI g c) := by
        rw [he]; exact mid_mem_chain hmm
      exact chains_disjoint W hlc hl' hclen _ (tail_mem_chain _) h2
  have hkeys_other : ∀ l', l' < g.length → l' ≠ ℓ →
      keysOf s' (layI (gSplice g ℓ j s.nodes.length) l') = keysOf s (layI g l') := by
    intro l' hl' hne'
    rw [hlayne l' hne']
    exact keysOf_congr (fun m hm => FK m (hmem l' hl' m (mid_mem_chain hm)))
  have hkeys_self : keysOf s' (layI (gSplice g ℓ j s.nodes.length) ℓ)
      = (keysOf s (layI g ℓ)).take j ++ k :: (keysOf s (layI g ℓ)).drop j := by
    rw [hself]
    exact keysOf_insLayer_mixed hj
      (fun m hm => FK m (hmem ℓ hℓlen m (mid_mem_chain hm))) GK
  have hcl : ∀ p, p ≤ j →
      cIdx (layI (gSplice g ℓ j s.nodes.length) ℓ) p = cIdx (layI g ℓ) p := by
    intro p hp
    rw [hself]
    exact cIdx_insLayer_le hj hp
  have hce : cIdx (layI (gSplice g ℓ j s.nodes.length) ℓ) (j + 1)
      = s.nodes.length := by
    rw [hself]
    exact cIdx_insLayer_eq hj
  have hcg : ∀ p, j + 1 < p → p ≤ (layI g ℓ).mids.length + 2 →
      cIdx (layI (gSplice g ℓ j s.nodes.length) ℓ) p = cIdx (layI g ℓ) (p - 1) := by
    intro p h1 h2
    rw [hself]
    exact cIdx_insLayer_gt hj h1 h2
  refine ⟨?_, ?_, ?_, ?_, ?_, ?_, ?_, ?_, ?_, ?_, ?_, ?_, ?_, ?_, ?_, ?_, ?_,
    ?_, ?_, ?_, ?_, ?_, ?_, ?_, ?_, ?_, ?_, ?_, ?_⟩
  · rw [hglen, hSL, W.hlen]
  · rw [hglen]; exact W.h2
  · rw [hheads 0, hBL]; exact W.hbh
  · rw [htails 0, hBT]; exact W.hbt
  · rw [hheads 0, FD _ (hmem 0 (by omega) _ (head_mem_chain _))]
    exact W.hbotHead
  · rw [htails 0, FD _ (hmem 0 (by omega) _ (tail_mem_chain _))]
    exact W.hbotTail
  · intro m hm
    by_cases h0 : ℓ = 0
    · subst h0
      rw [hself] at hm
      rcases (insLayer_mem hj).mp hm with rfl | hold
      · rcases VC with ⟨_, _, hD0⟩ | ⟨c, _, hc1, _⟩
        · exact hD0
        · exact absurd hc1 (by omega)
      · rw [FD m (hmem 0 (by omega) m (mid_mem_chain hold))]
        exact W.hbotMid m hold
    · rw [hlayne 0 (fun he => h0 he.symm)] at hm
      rw [FD m (hmem 0 (by omega) m (mid_mem_chain hm))]
      exact W.hbotMid m hm
  · rw [hglen, hheads (g.length - 1), hTL]
    exact W.hth
  · rw [hglen, htails (g.length - 1), hTT]
    exact W.htt
  · rw [hglen, hheads (g.length - 1),
      FU _ (hmem _ (by omega) _ (head_mem_chain _)) (hTnotHead _ (by omega))]
    exact W.htopHead
  · rw [hglen, htails (g.length - 1),
      FU _ (hmem _ (by omega) _ (tail_mem_chain _)) (hTnotTail _ (by omega))]
    exact W.htopTail
  · rw [hglen, hlayne (g.length - 1) (by omega)]
    exact W.htopEmpty
  · intro L hL
    rw [hglen] at hL
    rw [hheads L, FS _ (hmem L hL _ (head_mem_chain _))]
    exact W.hheadSent L hL
  · intro L hL
    rw [hglen] at hL
    rw [htails L, FS _ (hmem L hL _ (tail_mem_chain _))]
    exact W.htailSent L hL
  · intro L hL m hm
    rw [hglen] at hL
    by_cases hLl : L = ℓ
    · rw [hLl, hself] at hm
      rcases (insLayer_mem hj).mp hm with rfl | hold
      · exact GS
      · rw [FS m (hmem ℓ hℓlen m (mid_mem_chain hold))]
        exact W.hmidSent ℓ hℓlen m hold
    · rw [hlayne L hLl] at hm
      rw [FS m (hmem L hL m (mid_mem_chain hm))]
      exact W.hmidSent L hL m hm
  · intro L hL
    rw [hglen] at hL
    rw [hheads L]
    have hhne : (layI g L).head ≠ cIdx (layI g ℓ) (j + 1) := by
      by_cases hLl : L = ℓ
      · rw [hLl, ← cIdx_zero]
        exact cIdx_ne_same W hℓlen (by rw [chainL_length]; omega) hMj1 (by omega)
      · rw [← cIdx_zero]
        exact cIdx_ne_cross W hLl hL hℓlen (by rw [chainL_length]; omega) hMj1
    rw [FP _ (hmem L hL _ (head_mem_chain _)) hhne]
    exact W.hheadPrev L hL
  · intro L hL
    rw [hglen] at hL
    rw [htails L]
    have htne : (layI g L).tail ≠ cIdx (layI g ℓ) j := by
      by_cases hLl : L = ℓ
      · rw [hLl, ← cIdx_tail]
        exact cIdx_ne_same W hℓlen (by rw [chainL_length]; omega) hMj (by omega)
      · rw [← cIdx_tail]
        exact cIdx_ne_cross W hLl hL hℓlen (by rw [chainL_length]; omega) hMj
    rw [FN _ (hmem L hL _ (tail_mem_chain _)) htne]
    exact W.htailNext L hL
  · -- hnext
    intro L hL p hp
    rw [hglen] at hL
    by_cases hLl : L = ℓ
    · subst hLl
      have hp' : p + 1 < (layI g L).mids.length + 3 := by
        rw [hself, chainL_length, insLayer_mids_length _ hj] at hp
        omega
      by_cases hc1 : p < j
      · rw [hcl p (by omega), hcl (p + 1) (by omega)]
        have hne' : cIdx (layI g L) p ≠ cIdx (layI g L) j :=
          cIdx_ne_same W hℓlen (by rw [chainL_length]; omega) hMj (by omega)
        rw [FN _ (cIdx_lt_nodes W hℓlen (by rw [chainL_length]; omega)) hne']
        exact W.hnext L hℓlen p (by rw [chainL_length]; omega)
      · by_cases hc2 : p = j
        · subst hc2
          rw [hcl p le_rfl, hce, FNP]
        · by_cases hc3 : p = j + 1
          · subst hc3
            rw [hce, GN, hcg (j + 1 + 1) (by omega) (by omega)]
            rfl
          · rw [hcg p (by omega) (by omega), hcg (p + 1) (by omega) (by omega)]
            have hne' : cIdx (layI g L) (p - 1) ≠ cIdx (layI g L) j :=
              cIdx_ne_same W hℓlen (by rw [chainL_length]; omega) hMj (by omega)
            rw [FN _ (cIdx_lt_nodes W hℓlen (by rw [chainL_length]; omega)) hne']
            have hW := W.hnext L hℓlen (p - 1) (by rw [chainL_length]; omega)
            have he1 : p - 1 + 1 = p := by omega
            have he2 : p + 1 - 1 = p := by omega
            rw [he1] at hW
            rw [he2]
            exact hW
    · have hlay := hlayne L hLl
      rw [hlay] at hp ⊢
      have hip : cIdx (layI g L) p ≠ cIdx (layI g ℓ) j :=
        cIdx_ne_cross W hLl hL hℓlen (by omega) hMj
      rw [FN _ (hmem L hL _ (cIdx_mem_chain (by omega))) hip]
      exact W.hnext L hL p hp
  · -- hprev
    intro L hL p hp
    rw [hglen] at hL
    by_cases hLl : L = ℓ
    · subst hLl
      have hp' : p + 1 < (layI g L).mids.length + 3 := by
        rw [hself, chainL_length, insLayer_mids_length _ hj] at hp
        omega
      by_cases hc1 : p < j
      · rw [hcl p (by omega), hcl (p + 1) (by omega)]
        have hne' : cIdx (layI g L) (p + 1) ≠ cIdx (layI g L) (j + 1) :=
          cIdx_ne_same W hℓlen (by rw [chainL_length]; omega) hMj1 (by omega)
        rw [FP _ (cIdx_lt_nodes W hℓlen (by rw [chainL_length]; omega)) hne']
        exact W.hprev L hℓlen p (by rw [chainL_length]; omega)
      · by_cases hc2 : p = j
        · subst hc2
          rw [hce, GP, hcl p le_rfl]
        · by_cases hc3 : p = j + 1
          · subst hc3
            rw [hcg (j + 1 + 1) (by omega) (by omega)]
            have he : j + 1 + 1 - 1 = j + 1 := by omega
            rw [he, FPX, hce]
          · rw [hcg (p + 1) (by omega) (by omega), hcg p (by omega) (by omega)]
            have he2 : p + 1 - 1 = p := by omega
            rw [he2]
            have hne' : cIdx (layI g L) p ≠ cIdx (layI g L) (j + 1) :=
              cIdx_ne_same W hℓlen (by rw [chainL_length]; omega) hMj1 (by omega)
            rw [FP _ (cIdx_lt_nodes W hℓlen (by rw [chainL_length]; omega)) hne']
            have hW := W.hprev L hℓlen (p - 1) (by rw [chainL_length]; omega)
            have he1 : p - 1 + 1 = p := by omega
            rw [he1] at hW
            exact hW
    · have hlay := hlayne L hLl
      rw [hlay] at hp ⊢
      have hip : cIdx (layI g L) (p + 1) ≠ cIdx (layI g ℓ) (j + 1) :=
        cIdx_ne_cross W hLl hL hℓlen (by omega) hMj1
      rw [FP _ (hmem L hL _ (cIdx_mem_chain (by omega))) hip]
      exact W.hprev L hL p hp
  · -- hsorted
    intro L hL
    rw [hglen] at hL
    by_cases hLl : L = ℓ
    · subst hLl
      rw [hkeys_self]
      have hKlen : (keysOf s (layI g L)).length = (layI g L).mids.length := by
        simp [keysOf]
      apply sorted_mid_insert (W.hsorted L hℓlen) (by omega)
      · intro q hq
        rw [← midKey_eq (by omega)]
        exact hlt q hq
      · intro q hq1 hq2
        rw [← midKey_eq (by omega)]
        exact hgt q hq1 (by omega)
    · rw [hkeys_other L hL hLl]
      exact W.hsorted L hL
  · -- hvHeadUp
    intro L hL
    rw [hglen] at hL
    rw [hheads L, hheads (L + 1)]
    exact hFU_some _ (hmem L (by omega) _ (head_mem_chain _)) _ (W.hvHeadUp L hL)
  · -- hvHeadDown
    intro L hL
    rw [hglen] at hL
    rw [hheads L, hheads (L + 1),
      FD _ (hmem (L + 1) (by omega) _ (head_mem_chain _))]
    exact W.hvHeadDown L hL
  · -- hvTailUp
    intro L hL
    rw [hglen] at hL
    rw [htails L, htails (L + 1)]
    exact hFU_some _ (hmem L (by omega) _ (tail_mem_chain _)) _ (W.hvTailUp L hL)
  · -- hvTailDown
    intro L hL
    rw [hglen] at hL
    rw [htails L, htails (L + 1),
      FD _ (hmem (L + 1) (by omega) _ (tail_mem_chain _))]
    exact W.hvTailDown L hL
  · -- hvHi
    intro L hL u hu
    rw [hglen] at hL
    by_cases hup : L + 1 = ℓ
    · rcases VC with ⟨h0, _, _⟩ | ⟨c, jk, hc1, hjk, hjkkey, hTdef, hDdef, hUPt⟩
      · omega
      · have hceq : c = L := by omega
        subst hceq
        rw [hup, hself] at hu
        rcases (insLayer_mem hj).mp hu with rfl | hold
        · refine ⟨(layI g c).mids.getD jk 0, ?_, ?_, ?_, ?_⟩
          · rw [hDdef, hTdef]
          · rw [hlayne c (by omega)]
            exact mem_mids_getD hjk
          · rw [GK, FK _ (hmem c (by omega) _ (mid_mem_chain (mem_mids_getD hjk)))]
            exact hjkkey
          · exact hUPt
        · have hu_lt : u < s.nodes.length := hmem ℓ hℓlen u (mid_mem_chain hold)
          obtain ⟨d, hd1, hd2, hd3, hd4⟩ :=
            W.hvHi c (by omega) u (by rw [hup]; exact hold)
          have hd_lt : d < s.nodes.length := hmem c (by omega) d (mid_mem_chain hd2)
          refine ⟨d, ?_, ?_, ?_, ?_⟩
          · rw [FD u hu_lt]; exact hd1
          · rw [hlayne c (by omega)]; exact hd2
          · rw [FK d hd_lt, FK u hu_lt]; exact hd3
          · exact hFU_some d hd_lt u hd4
    · by_cases hlow : L = ℓ
      · subst hlow
        rw [hlayne (L + 1) (by omega)] at hu
        obtain ⟨d, hd1, hd2, hd3, hd4⟩ := W.hvHi L (by omega) u hu
        have hu_lt : u < s.nodes.length := hmem (L + 1) (by omega) u (mid_mem_chain hu)
        have hd_lt : d < s.nodes.length := hmem L hℓlen d (mid_mem_chain hd2)
        refine ⟨d, ?_, ?_, ?_, ?_⟩
        · rw [FD u hu_lt]; exact hd1
        · rw [hself]; exact (insLayer_mem hj).mpr (Or.inr hd2)
        · rw [FK d hd_lt, FK u hu_lt]; exact hd3
        · exact hFU_some d hd_lt u hd4
      · rw [hlayne (L + 1) hup] at hu
        obtain ⟨d, hd1, hd2, hd3, hd4⟩ := W.hvHi L hL u hu
        have hu_lt : u < s.nodes.length := hmem (L + 1) (by omega) u (mid_mem_chain hu)
        have hd_lt : d < s.nodes.length := hmem L (by omega) d (mid_mem_chain hd2)
        refine ⟨d, ?_, ?_, ?_, ?_⟩
        · rw [FD u hu_lt]; exact hd1
        · rw [hlayne L hlow]; exact hd2
        · rw [FK d hd_lt, FK u hu_lt]; exact hd3
        · exact hFU_some d hd_lt u hd4
  · -- hvLoNone
    intro L hL m hm hupnone
    rw [hglen] at hL
    by_cases hmT : T = some m
    · obtain ⟨c, jk, _, hjk, _, he, hup'⟩ := hT m hmT
      rw [hup'] at hupnone
      exact Option.noConfusion hupnone
    · by_cases hLeq : L = ℓ
      · subst hLeq
        rw [hself] at hm
        rcases (insLayer_mem hj).mp hm with rfl | hold
        · rw [GK, hkeys_other (L + 1) (by omega) (by omega)]
          exact habs1
        · have hm_lt := hmem L hℓlen m (mid_mem_chain hold)
          rw [FU m hm_lt hmT] at hupnone
          rw [FK m hm_lt, hkeys_other (L + 1) (by omega) (by omega)]
          exact W.hvLoNone L (by omega) m hold hupnone
      · by_cases hLup : L + 1 = ℓ
        · rw [hlayne L hLeq] at hm
          have hm_lt := hmem L (by omega) m (mid_mem_chain hm)
          rw [FU m hm_lt hmT] at hupnone
          have hni := W.hvLoNone L hL m hm hupnone
          rw [hLup] at hni
          rw [FK m hm_lt, hLup, hkeys_self]
          intro hmem'
          rw [List.mem_append, List.mem_cons] at hmem'
          rcases hmem' with h | h | h
          · exact hni (List.mem_of_mem_take h)
          · rcases VC with ⟨h0, _, _⟩ | ⟨c, jk, hc1, hjk, hjkkey, hTdef, _, _⟩
            · omega
            · have hceq : c = L := by omega
              subst hceq
              have ht_mem : (layI g c).mids.getD jk 0 ∈ (layI g c).mids :=
                mem_mids_getD hjk
              have hmt : m = (layI g c).mids.getD jk 0 :=
                mids_key_inj (W.hsorted c (by omega)) hm ht_mem
                  (h.trans hjkkey.symm)
              exact hmT (by rw [hTdef, hmt])
          · exact hni (List.mem_of_mem_drop h)
        · rw [hlayne L hLeq] at hm
          have hm_lt := hmem L (by omega) m (mid_mem_chain hm)
          rw [FU m hm_lt hmT] at hupnone
          rw [FK m hm_lt, hkeys_other (L + 1) hL hLup]
          exact W.hvLoNone L hL m hm hupnone
  · -- hvLoSome
    intro L hL m hm u hupu
    rw [hglen] at hL
    by_cases hLeq : L = ℓ
    · subst hLeq
      rw [hself] at hm
      rcases (insLayer_mem hj).mp hm with rfl | hold
      · rw [GU] at hupu
        exact Option.noConfusion hupu
      · have hmT : T ≠ some m := by
          intro ht
          obtain ⟨c, jk, hc1, hjk, _, he, _⟩ := hT m ht
          have hmc : m ∈ chainL (layI g c) := by
            rw [he]; exact mid_mem_chain (mem_mids_getD hjk)
          exact chains_disjoint W (by omega : L ≠ c) hℓlen (by omega) m
            (mid_mem_chain hold) hmc
        have hm_lt := hmem L hℓlen m (mid_mem_chain hold)
        rw [FU m hm_lt hmT] at hupu
        obtain ⟨h1, h2⟩ := W.hvLoSome L (by omega) m hold u hupu
        have hu_lt := hmem (L + 1) (by omega) u (mid_mem_chain h1)
        refine ⟨?_, ?_⟩
        · rw [hlayne (L + 1) (by omega)]; exact h1
        · rw [FD u hu_lt]; exact h2
    · by_cases hLup : L + 1 = ℓ
      · rw [hlayne L hLeq] at hm
        by_cases hmT : T = some m
        · obtain ⟨c, jk, hc1, hjk, hjkk, he, hup'⟩ := hT m hmT
          rw [hup'] at hupu
          have hue : u = s.nodes.length := (Option.some_inj.mp hupu).symm
          subst hue
          refine ⟨?_, ?_⟩
          · rw [hLup, hself]
            exact (insLayer_mem hj).mpr (Or.inl rfl)
          · rcases VC with ⟨h0, _, _⟩ | ⟨c', jk', _, _, _, _, hDdef, _⟩
            · omega
            · rw [hDdef, hmT]
        · have hm_lt := hmem L (by omega) m (mid_mem_chain hm)
          rw [FU m hm_lt hmT] at hupu
          obtain ⟨h1, h2⟩ := W.hvLoSome L hL m hm u hupu
          have hu_lt := hmem (L + 1) (by omega) u (mid_mem_chain h1)
          rw [hLup] at h1
          refine ⟨?_, ?_⟩
          · rw [hLup, hself]
            exact (insLayer_mem hj).mpr (Or.inr h1)
          · rw [FD u hu_lt]; exact h2
      · rw [hlayne L hLeq] at hm
        by_cases hmT : T = some m
        · exfalso
          obtain ⟨c, jk, hc1, hjk, _, he, _⟩ := hT m hmT
          by_cases hLc : L = c
          · omega
          · have hmc : m ∈ chainL (layI g c) := by
              rw [he]; exact mid_mem_chain (mem_mids_getD hjk)
            exact chains_disjoint W hLc (by omega) (by omega) m
              (mid_mem_chain hm) hmc
        · have hm_lt := hmem L (by omega) m (mid_mem_chain hm)
          rw [FU m hm_lt hmT] at hupu
          obtain ⟨h1, h2⟩ := W.hvLoSome L hL m hm u hupu
          have hu_lt := hmem (L + 1) (by omega) u (mid_mem_chain h1)
          refine ⟨?_, ?_⟩
          · rw [hlayne (L + 1) hLup]; exact h1
          · rw [FD u hu_lt]; exact h2
  · -- hidx
    intro i hi
    rw [(allIdx_gSplice_perm hℓlen j s.nodes.length).mem_iff] at hi
    rw [hNL]
    rcases List.mem_cons.mp hi with rfl | hi'
    · omega
    · have := W.hidx i hi'
      omega
  · -- hnodup
    rw [(allIdx_gSplice_perm hℓlen j s.nodes.length).nodup_iff]
    refine List.nodup_cons.mpr ⟨?_, W.hnodup⟩
    intro hmem'
    exact absurd (W.hidx _ hmem') (lt_irrefl _)

theorem updN_keep {α : Type} (F : Node → α) {f : Node → Node}
    (hf : ∀ nd, F (f nd) = F nd) (s : SkipState) (a : Nat) :
    ∀ i, F (getN (updN s a f) i) = F (getN s i) := by
  intro i
  by_cases h : i = a
  · subst h
    by_cases ha : i < s.nodes.length
    · rw [getN_updN_self ha, hf]
    · have hid : getN (updN s i f) i = getN s i := by
        simp only [updN, getN]
        rw [List.set_eq_of_length_le (by omega)]
      rw [hid]
  · rw [getN_updN_ne h]

/-- The state shape shared by the two splice steps of `insert`:
append the new node, hook the successor's `prev` and the
predecessor's `next`. -/
theorem splice23_getN (s : SkipState) (x : Node) {a b : Nat}
    (ha : a < s.nodes.length) (hb : b < s.nodes.length) (hab : a ≠ b) :
    (∀ i, i < s.nodes.length → i ≠ a → i ≠ b →
      getN (setNext (setPrev { s with nodes := s.nodes ++ [x] } a
        (some s.nodes.length)) b (some s.nodes.length)) i = getN s i)
    ∧ getN (setNext (setPrev { s with nodes := s.nodes ++ [x] } a
        (some s.nodes.length)) b (some s.nodes.length)) a
        = { getN s a with prev := some s.nodes.length }
    ∧ getN (setNext (setPrev { s with nodes := s.nodes ++ [x] } a
        (some s.nodes.length)) b (some s.nodes.length)) b
        = { getN s b with next := some s.nodes.length }
    ∧ getN (setNext (setPrev { s with nodes := s.nodes ++ [x] } a
        (some s.nodes.length)) b (some s.nodes.length)) s.nodes.length = x := by
  have hlen1 : ({ s with nodes := s.nodes ++ [x] } : SkipState).nodes.length
      = s.nodes.length + 1 := by simp
  have hlen2 : (setPrev { s with nodes := s.nodes ++ [x] } a
      (some s.nodes.length)).nodes.length = s.nodes.length + 1 := by
    simp only [setPrev, updN]
    rw [List.length_set, hlen1]
  refine ⟨?_, ?_, ?_, ?_⟩
  · intro i hi hia hib
    rw [setNext, getN_updN_ne hib, setPrev, getN_updN_ne hia, getN_append hi]
  · rw [setNext, getN_updN_ne hab, setPrev,
      getN_updN_self (by rw [hlen1]; omega), getN_append ha]
  · rw [setNext, getN_updN_self (by rw [hlen2]; omega), setPrev,
      getN_updN_ne (fun h => hab h.symm), getN_append hb]
  · rw [setNext, getN_updN_ne (by omega), setPrev, getN_updN_ne (by omega),
      getN_append_self]

theorem setUp_fields (s : SkipState) {a : Nat} (ha : a < s.nodes.length)
    (x : Option Nat) :
    (∀ i, (getN (setUp s a x) i).sentinel = (getN s i).sentinel
      ∧ (getN (setUp s a x) i).key = (getN s i).key
      ∧ (getN (setUp s a x) i).down = (getN s i).down
      ∧ (getN (setUp s a x) i).next = (getN s i).next
      ∧ (getN (setUp s a x) i).prev = (getN s i).prev
      ∧ (getN (setUp s a x) i).val = (getN s i).val)
    ∧ (∀ i, i ≠ a → (getN (setUp s a x) i).up = (getN s i).up)
    ∧ (getN (setUp s a x) a).up = x := by
  refine ⟨?_, ?_, ?_⟩
  · intro i
    by_cases h : i = a
    · subst h
      rw [setUp, getN_updN_self ha]
      exact ⟨rfl, rfl, rfl, rfl, rfl, rfl⟩
    · rw [setUp, getN_updN_ne h]
      exact ⟨rfl, rfl, rfl, rfl, rfl, rfl⟩
  · intro i h
    rw [setUp, getN_updN_ne h]
  · rw [setUp, getN_updN_self ha]

theorem setHeight_fields (s : SkipState) (a : Nat) (x : Nat) :
    ∀ i, (getN (setHeight s a x) i).sentinel = (getN s i).sentinel
      ∧ (getN (setHeight s a x) i).key = (getN s i).key
      ∧ (getN (setHeight s a x) i).down = (getN s i).down
      ∧ (getN (setHeight s a x) i).next = (getN s i).next
      ∧ (getN (setHeight s a x) i).prev = (getN s i).prev
      ∧ (getN (setHeight s a x) i).up = (getN s i).up
      ∧ (getN (setHeight s a x) i).val = (getN s i).val := by
  intro i
  by_cases h : i = a
  · subst h
    by_cases ha : i < s.nodes.length
    · rw [setHeight, getN_updN_self ha]
      exact ⟨rfl, rfl, rfl, rfl, rfl, rfl, rfl⟩
    · have hid : getN (setHeight s i x) i = getN s i := by
        simp only [setHeight, updN, getN]
        rw [List.set_eq_of_length_le (by omega)]
      rw [hid]
      exact ⟨rfl, rfl, rfl, rfl, rfl, rfl, rfl⟩
  · rw [setHeight, getN_updN_ne h]
    exact ⟨rfl, rfl, rfl, rfl, rfl, rfl, rfl⟩

/-- The bottom-layer splice of `insert`, performed on every insertion
of an absent key `k` right after `search`: the new node enters the grid
as data node `j` of the bottom layer. -/
theorem spliceBottom_wfacts {s : SkipState} {g : List AbsLayer} (W : WFacts s g)
    {k j : Nat} (v : Nat)
    (hj : j ≤ (layI g 0).mids.length)
    (hlt : ∀ q, q < j → midKey s (layI g 0) q < k)
    (hgt : ∀ q, j ≤ q → q < (layI g 0).mids.length → k < midKey s (layI g 0) q)
    (habs1 : k ∉ keysOf s (layI g 1)) :
    WFacts
      (setNext
        (setPrev
          { s with nodes := s.nodes ++
              [{ dataNode k v with
                  height := 1,
                  next := some (cIdx (layI g 0) (j + 1)),
                  prev := some (cIdx (layI g 0) j) }] }
          (cIdx (layI g 0) (j + 1)) (some s.nodes.length))
        (cIdx (layI g 0) j) (some s.nodes.length))
      (gSplice g 0 j s.nodes.length)
    ∧ (getN
        (setNext
          (setPrev
            { s with nodes := s.nodes ++
                [{ dataNode k v with
                    height := 1,
                    next := some (cIdx (layI g 0) (j + 1)),
                    prev := some (cIdx (layI g 0) j) }] }
            (cIdx (layI g 0) (j + 1)) (some s.nodes.length))
          (cIdx (layI g 0) j) (some s.nodes.length)) s.nodes.length).key = k
    ∧ (getN
        (setNext
          (setPrev
            { s with nodes := s.nodes ++
                [{ dataNode k v with
                    height := 1,
                    next := some (cIdx (layI g 0) (j + 1)),
                    prev := some (cIdx (layI g 0) j) }] }
            (cIdx (layI g 0) (j + 1)) (some s.nodes.length))
          (cIdx (layI g 0) j) (some s.nodes.length)) s.nodes.length).val = v
    ∧ (∀ i, i < s.nodes.length →
        (getN
          (setNext
            (setPrev
              { s with nodes := s.nodes ++
                  [{ dataNode k v with
                      height := 1,
                      next := some (cIdx (layI g 0) (j + 1)),
                      prev := some (cIdx (layI g 0) j) }] }
              (cIdx (layI g 0) (j + 1)) (some s.nodes.length))
            (cIdx (layI g 0) j) (some s.nodes.length)) i).key = (getN s i).key
        ∧ (getN
            (setNext
              (setPrev
                { s with nodes := s.nodes ++
                    [{ dataNode k v with
                        height := 1,
                        next := some (cIdx (layI g 0) (j + 1)),
                        prev := some (cIdx (layI g 0) j) }] }
                (cIdx (layI g 0) (j + 1)) (some s.nodes.length))
              (cIdx (layI g 0) j) (some s.nodes.length)) i).val
            = (getN s i).val) := by
  have hg2 := W.h2
  have h0len : 0 < g.length := by omega
  have hMj : j < (chainL (layI g 0)).length := by rw [chainL_length]; omega
  have hMj1 : j + 1 < (chainL (layI g 0)).length := by rw [chainL_length]; omega
  have hP : cIdx (layI g 0) j < s.nodes.length := cIdx_lt_nodes W h0len hMj
  have hnx : cIdx (layI g 0) (j + 1) < s.nodes.length := cIdx_lt_nodes W h0len hMj1
  have hnxP : cIdx (layI g 0) (j + 1) ≠ cIdx (layI g 0) j :=
    cIdx_ne_same W h0len hMj1 hMj (by omega)
  obtain ⟨hF0, hFX, hFP, hFNN⟩ := splice23_getN s
    { dataNode k v with
      height := 1,
      next := some (cIdx (layI g 0) (j + 1)),
      prev := some (cIdx (layI g 0) j) } hnx hP hnxP
  refine ⟨splice_core (T := none) W (by omega) hj hlt hgt habs1 rfl rfl rfl rfl rfl
    ?_ ?_ ?_ ?_ ?_ ?_ ?_ ?_ ?_ ?_ ?_ ?_ ?_ ?_ ?_, ?_, ?_, ?_⟩
  · simp [setNext, setPrev, updN]
  · intro i hi
    by_cases h1 : i = cIdx (layI g 0) (j + 1)
    · subst h1; rw [hFX]
    · by_cases h2 : i = cIdx (layI g 0) j
      · subst h2; rw [hFP]
      · rw [hF0 i hi h1 h2]
  · intro i hi
    by_cases h1 : i = cIdx (layI g 0) (j + 1)
    · subst h1; rw [hFX]
    · by_cases h2 : i = cIdx (layI g 0) j
      · subst h2; rw [hFP]
      · rw [hF0 i hi h1 h2]
  · intro i hi
    by_cases h1 : i = cIdx (layI g 0) (j + 1)
    · subst h1; rw [hFX]
    · by_cases h2 : i = cIdx (layI g 0) j
      · subst h2; rw [hFP]
      · rw [hF0 i hi h1 h2]
  · intro i hi hne
    by_cases h1 : i = cIdx (layI g 0) (j + 1)
    · subst h1; rw [hFX]
    · rw [hF0 i hi h1 hne]
  · rw [hFP]
  · intro i hi hne
    by_cases h2 : i = cIdx (layI g 0) j
    · subst h2; rw [hFP]
    · rw [hF0 i hi hne h2]
  · rw [hFX]
  · intro i hi _
    by_cases h1 : i = cIdx (layI g 0) (j + 1)
    · subst h1; rw [hFX]
    · by_cases h2 : i = cIdx (layI g 0) j
      · subst h2; rw [hFP]
      · rw [hF0 i hi h1 h2]
  · rw [hFNN]; rfl
  · rw [hFNN]; rfl
  · rw [hFNN]
  · rw [hFNN]
  · rw [hFNN]; rfl
  · exact Or.inl ⟨rfl, rfl, by rw [hFNN]; rfl⟩
  · rw [hFNN]; rfl
  · rw [hFNN]; rfl
  · intro i hi
    constructor
    · by_cases h1 : i = cIdx (layI g 0) (j + 1)
      · subst h1; rw [hFX]
      · by_cases h2 : i = cIdx (layI g 0) j
        · subst h2; rw [hFP]
        · rw [hF0 i hi h1 h2]
    · by_cases h1 : i = cIdx (layI g 0) (j + 1)
      · subst h1; rw [hFX]
      · by_cases h2 : i = cIdx (layI g 0) j
        · subst h2; rw [hFP]
        · rw [hF0 i hi h1 h2]

/-- The promoted-layer splice of one iteration of `insert`'s promotion
loop: the `k`-node of layer `c + 1` enters the grid above the `k`-node
`temp` of layer `c`, with `temp->up` redirected to it and the bottom
node's `height` field rewritten. -/
theorem spliceUp_wfacts {s : SkipState} {g : List AbsLayer} (W : WFacts s g)
    {c k jk j nn : Nat} (v hh h2 : Nat)
    (hc2 : c + 2 < g.length)
    (hjk : jk < (layI g c).mids.length)
    (hkey : midKey s (layI g c) jk = k)
    (hj : j ≤ (layI g (c + 1)).mids.length)
    (hlt : ∀ q, q < j → midKey s (layI g (c + 1)) q < k)
    (hgt : ∀ q, j ≤ q → q < (layI g (c + 1)).mids.length →
        k < midKey s (layI g (c + 1)) q)
    (habs1 : k ∉ keysOf s (layI g (c + 2)))
    (hnn : nn < s.nodes.length) :
    WFacts
      (setHeight
        (setUp
          (setNext
            (setPrev
              { s with nodes := s.nodes ++
                  [{ dataNode k v with
                  height := hh,
                      next := some (cIdx (layI g (c + 1)) (j + 1)),
                      prev := some (cIdx (layI g (c + 1)) j),
                      down := some ((layI g c).mids.getD jk 0) }] }
              (cIdx (layI g (c + 1)) (j + 1)) (some s.nodes.length))
            (cIdx (layI g (c + 1)) j) (some s.nodes.length))
          ((layI g c).mids.getD jk 0) (some s.nodes.length))
        nn h2)
      (gSplice g (c + 1) j s.nodes.length)
    ∧ (getN
      (setHeight
        (setUp
          (setNext
            (setPrev
              { s with nodes := s.nodes ++
                  [{ dataNode k v with
                  height := hh,
                      next := some (cIdx (layI g (c + 1)) (j + 1)),
                      prev := some (cIdx (layI g (c + 1)) j),
                      down := some ((layI g c).mids.getD jk 0) }] }
              (cIdx (layI g (c + 1)) (j + 1)) (some s.nodes.length))
            (cIdx (layI g (c + 1)) j) (some s.nodes.length))
          ((layI g c).mids.getD jk 0) (some s.nodes.length))
        nn h2)
      s.nodes.length).key = k
    ∧ (getN
      (setHeight
        (setUp
          (setNext
            (setPrev
              { s with nodes := s.nodes ++
                  [{ dataNode k v with
                  height := hh,
                      next := some (cIdx (layI g (c + 1)) (j + 1)),
                      prev := some (cIdx (layI g (c + 1)) j),
                      down := some ((layI g c).mids.getD jk 0) }] }
              (cIdx (layI g (c + 1)) (j + 1)) (some s.nodes.length))
            (cIdx (layI g (c + 1)) j) (some s.nodes.length))
          ((layI g c).mids.getD jk 0) (some s.nodes.length))
        nn h2)
      s.nodes.length).val = v
    ∧ (∀ i, i < s.nodes.length →
      (getN
      (setHeight
        (setUp
          (setNext
            (setPrev
              { s with nodes := s.nodes ++
                  [{ dataNode k v with
                  height := hh,
                      next := some (cIdx (layI g (c + 1)) (j + 1)),
                      prev := some (cIdx (layI g (c + 1)) j),
                      down := some ((layI g c).mids.getD jk 0) }] }
              (cIdx (layI g (c + 1)) (j + 1)) (some s.nodes.length))
            (cIdx (layI g (c + 1)) j) (some s.nodes.length))
          ((layI g c).mids.getD jk 0) (some s.nodes.length))
        nn h2)
        i).key = (getN s i).key
      ∧ (getN
      (setHeight
        (setUp
          (setNext
            (setPrev
              { s with nodes := s.nodes ++
                  [{ dataNode k v with
                  height := hh,
                      next := some (cIdx (layI g (c + 1)) (j + 1)),
                      prev := some (cIdx (layI g (c + 1)) j),
                      down := some ((layI g c).mids.getD jk 0) }] }
              (cIdx (layI g (c + 1)) (j + 1)) (some s.nodes.length))
            (cIdx (layI g (c + 1)) j) (some s.nodes.length))
          ((layI g c).mids.getD jk 0) (some s.nodes.length))
        nn h2)
        i).val = (getN s i).val) := by
  have hg2 := W.h2
  have hc1len : c + 1 < g.length := by omega
  have hclen : c < g.length := by omega
  have hMj : j < (chainL (layI g (c + 1))).length := by rw [chainL_length]; omega
  have hMj1 : j + 1 < (chainL (layI g (c + 1))).length := by
    rw [chainL_length]; omega
  have hP : cIdx (layI g (c + 1)) j < s.nodes.length :=
    cIdx_lt_nodes W hc1len hMj
  have hnx : cIdx (layI g (c + 1)) (j + 1) < s.nodes.length :=
    cIdx_lt_nodes W hc1len hMj1
  have hnxP : cIdx (layI g (c + 1)) (j + 1) ≠ cIdx (layI g (c + 1)) j :=
    cIdx_ne_same W hc1len hMj1 hMj (by omega)
  have htmem : (layI g c).mids.getD jk 0 ∈ (layI g c).mids := mem_mids_getD hjk
  have htlt : (layI g c).mids.getD jk 0 < s.nodes.length :=
    W.hidx _ ((chainL_sublist hclen).mem (mid_mem_chain htmem))
  have htP : (layI g c).mids.getD jk 0 ≠ cIdx (layI g (c + 1)) j := by
    intro he
    exact chains_disjoint W (by omega : c ≠ c + 1) hclen hc1len _
      (mid_mem_chain htmem) (he ▸ cIdx_mem_chain hMj)
  have htnx : (layI g c).mids.getD jk 0 ≠ cIdx (layI g (c + 1)) (j + 1) := by
    intro he
    exact chains_disjoint W (by omega : c ≠ c + 1) hclen hc1len _
      (mid_mem_chain htmem) (he ▸ cIdx_mem_chain hMj1)
  obtain ⟨hF0, hFX, hFP, hFNN⟩ := splice23_getN s
    { dataNode k v with
      height := hh,
      next := some (cIdx (layI g (c + 1)) (j + 1)),
      prev := some (cIdx (layI g (c + 1)) j),
      down := some ((layI g c).mids.getD jk 0) } hnx hP hnxP
  have hlen3 : (setNext
      (setPrev
        { s with nodes := s.nodes ++
            [{ dataNode k v with
                height := hh,
                next := some (cIdx (layI g (c + 1)) (j + 1)),
                prev := some (cIdx (layI g (c + 1)) j),
                down := some ((layI g c).mids.getD jk 0) }] }
        (cIdx (layI g (c + 1)) (j + 1)) (some s.nodes.length))
      (cIdx (layI g (c + 1)) j) (some s.nodes.length)).nodes.length
      = s.nodes.length + 1 := by
    simp [setNext, setPrev, updN]
  obtain ⟨hU1, hU2, hU3⟩ := setUp_fields _ (a := (layI g c).mids.getD jk 0)
    (by rw [hlen3]; omega) (some s.nodes.length)
  have hlen5 : (setUp
      (setNext
        (setPrev
          { s with nodes := s.nodes ++
              [{ dataNode k v with
                  height := hh,
                  next := some (cIdx (layI g (c + 1)) (j + 1)),
                  prev := some (cIdx (layI g (c + 1)) j),
                  down := some ((layI g c).mids.getD jk 0) }] }
          (cIdx (layI g (c + 1)) (j + 1)) (some s.nodes.length))
        (cIdx (layI g (c + 1)) j) (some s.nodes.length))
      ((layI g c).mids.getD jk 0) (some s.nodes.length)).nodes.length
      = s.nodes.length + 1 := by
    simp [setUp, setNext, setPrev, updN]
  have hH := setHeight_fields
    (setUp
      (setNext
        (setPrev
          { s with nodes := s.nodes ++
              [{ dataNode k v with
                  height := hh,
                  next := some (cIdx (layI g (c + 1)) (j + 1)),
                  prev := some (cIdx (layI g (c + 1)) j),
                  down := some ((layI g c).mids.getD jk 0) }] }
          (cIdx (layI g (c + 1)) (j + 1)) (some s.nodes.length))
        (cIdx (layI g (c + 1)) j) (some s.nodes.length))
      ((layI g c).mids.getD jk 0) (some s.nodes.length))
    nn h2
  have hlen_ne : s.nodes.length ≠ (layI g c).mids.getD jk 0 := by
    intro he
    rw [← he] at htlt
    exact lt_irrefl _ htlt
  refine ⟨splice_core (T := some ((layI g c).mids.getD jk 0)) W (by omega) hj hlt
    hgt habs1 rfl rfl rfl rfl rfl
    ?_ ?_ ?_ ?_ ?_ ?_ ?_ ?_ ?_ ?_ ?_ ?_ ?_ ?_ ?_, ?_, ?_, ?_⟩
  · simp [setHeight, setUp, setNext, setPrev, updN]
  · intro i hi
    rw [(hH i).1, (hU1 i).1]
    by_cases h1 : i = cIdx (layI g (c + 1)) (j + 1)
    · subst h1; rw [hFX]
    · by_cases h3 : i = cIdx (layI g (c + 1)) j
      · subst h3; rw [hFP]
      · rw [hF0 i hi h1 h3]
  · intro i hi
    rw [(hH i).2.1, (hU1 i).2.1]
    by_cases h1 : i = cIdx (layI g (c + 1)) (j + 1)
    · subst h1; rw [hFX]
    · by_cases h3 : i = cIdx (layI g (c + 1)) j
      · subst h3; rw [hFP]
      · rw [hF0 i hi h1 h3]
  · intro i hi
    rw [(hH i).2.2.1, (hU1 i).2.2.1]
    by_cases h1 : i = cIdx (layI g (c + 1)) (j + 1)
    · subst h1; rw [hFX]
    · by_cases h3 : i = cIdx (layI g (c + 1)) j
      · subst h3; rw [hFP]
      · rw [hF0 i hi h1 h3]
  · intro i hi hne
    rw [(hH i).2.2.2.1, (hU1 i).2.2.2.1]
    by_cases h1 : i = cIdx (layI g (c + 1)) (j + 1)
    · subst h1; rw [hFX]
    · rw [hF0 i hi h1 hne]
  · rw [(hH (cIdx (layI g (c + 1)) j)).2.2.2.1,
      (hU1 (cIdx (layI g (c + 1)) j)).2.2.2.1, hFP]
  · intro i hi hne
    rw [(hH i).2.2.2.2.1, (hU1 i).2.2.2.2.1]
    by_cases h3 : i = cIdx (layI g (c + 1)) j
    · subst h3; rw [hFP]
    · rw [hF0 i hi hne h3]
  · rw [(hH (cIdx (layI g (c + 1)) (j + 1))).2.2.2.2.1,
      (hU1 (cIdx (layI g (c + 1)) (j + 1))).2.2.2.2.1, hFX]
  · intro i hi hne
    have hit : i ≠ (layI g c).mids.getD jk 0 := by
      intro he
      exact hne (by rw [he])
    rw [(hH i).2.2.2.2.2.1, hU2 i (fun he => hit he)]
    by_cases h1 : i = cIdx (layI g (c + 1)) (j + 1)
    · subst h1; rw [hFX]
    · by_cases h3 : i = cIdx (layI g (c + 1)) j
      · subst h3; rw [hFP]
      · rw [hF0 i hi h1 h3]
  · rw [(hH s.nodes.length).1, (hU1 s.nodes.length).1, hFNN]; rfl
  · rw [(hH s.nodes.length).2.1, (hU1 s.nodes.length).2.1, hFNN]; rfl
  · rw [(hH s.nodes.length).2.2.2.1, (hU1 s.nodes.length).2.2.2.1, hFNN]
  · rw [(hH s.nodes.length).2.2.2.2.1, (hU1 s.nodes.length).2.2.2.2.1, hFNN]
  · rw [(hH s.nodes.length).2.2.2.2.2.1, hU2 s.nodes.length hlen_ne, hFNN]; rfl
  · refine Or.inr ⟨c, jk, rfl, hjk, hkey, rfl, ?_, ?_⟩
    · rw [(hH s.nodes.length).2.2.1, (hU1 s.nodes.length).2.2.1, hFNN]
    · rw [(hH ((layI g c).mids.getD jk 0)).2.2.2.2.2.1, hU3]
  · rw [(hH s.nodes.length).2.1, (hU1 s.nodes.length).2.1, hFNN]; rfl
  · rw [(hH s.nodes.length).2.2.2.2.2.2, (hU1 s.nodes.length).2.2.2.2.2, hFNN]
    rfl
  · intro i hi
    constructor
    · rw [(hH i).2.1, (hU1 i).2.1]
      by_cases h1 : i = cIdx (layI g (c + 1)) (j + 1)
      · subst h1; rw [hFX]
      · by_cases h3 : i = cIdx (layI g (c + 1)) j
        · subst h3; rw [hFP]
        · rw [hF0 i hi h1 h3]
    · rw [(hH i).2.2.2.2.2.2, (hU1 i).2.2.2.2.2]
      by_cases h1 : i = cIdx (layI g (c + 1)) (j + 1)
      · subst h1; rw [hFX]
      · by_cases h3 : i = cIdx (layI g (c + 1)) j
        · subst h3; rw [hFP]
        · rw [hF0 i hi h1 h3]

/-- Everything one loop iteration needs to know about the layer-growth
branch. -/
theorem grow_step {s : SkipState} {g : List AbsLayer} (W : WFacts s g) :
    WFacts (grow s) (gGrow g s.nodes.length (s.nodes.length + 1))
      ∧ (∀ l, l < g.length →
          layI (gGrow g s.nodes.length (s.nodes.length + 1)) l = layI g l)
      ∧ (gGrow g s.nodes.length (s.nodes.length + 1)).length = g.length + 1
      ∧ (∀ i, i < s.nodes.length → (getN (grow s) i).key = (getN s i).key
          ∧ (getN (grow s) i).val = (getN s i).val)
      ∧ (layI (gGrow g s.nodes.length (s.nodes.length + 1)) g.length).mids
          = [] := by
  obtain ⟨FA, _, _, _, _, _⟩ :=
    grow_getN s (top_l_lt W) (top_tail_lt W) (top_l_ne_top_tail W)
  refine ⟨grow_wfacts W, fun l hl => layI_gGrow_old hl _ _, gGrow_length _ _ _,
    ?_, ?_⟩
  · intro i hi
    exact ⟨(FA i hi).2.1, (FA i hi).2.2.1⟩
  · rw [layI_gGrow_top]

/-- The promotion loop of `insert` terminates with `.ok` on every
well-formed state whose current position is the predecessor of the
`k`-node on layer `currLayer`, provided the fuel covers the remaining
distance to the cap; the bottom layer is untouched. -/
theorem insLoop_ok {k v maxL nn : Nat} :
    ∀ fuel c jc position (s : SkipState) (g : List AbsLayer), WFacts s g →
      maxL ≤ fuel + c → 1 ≤ fuel →
      c + 2 ≤ g.length →
      jc < (layI g c).mids.length →
      midKey s (layI g c) jc = k →
      position = cIdx (layI g c) jc →
      (∀ l, c < l → l < g.length → k ∉ keysOf s (layI g l)) →
      nn < s.nodes.length →
      (∃ j0, j0 < (layI g 0).mids.length ∧ midKey s (layI g 0) j0 = k
        ∧ (getN s ((layI g 0).mids.getD j0 0)).val = v) →
      ∃ s' g', insLoop k v maxL nn fuel s position c = .ok s'
        ∧ WFacts s' g'
        ∧ s'.sl_size = s.sl_size
        ∧ layI g' 0 = layI g 0
        ∧ keysOf s' (layI g' 0) = keysOf s (layI g 0)
        ∧ (∃ j0, j0 < (layI g' 0).mids.length ∧ midKey s' (layI g' 0) j0 = k
            ∧ (getN s' ((layI g' 0).mids.getD j0 0)).val = v) := by
  intro fuel
  induction fuel with
  | zero =>
    intro c jc position s g W hfc hf1 hc2 hjc hkc hpos habove hnn hval
    omega
  | succ f ih =>
    intro c jc position s g W hfc hf1 hc2 hjc hkc hpos habove hnn hval
    have hlen := W.hlen
    by_cases hguard : (flipCoin k c = true) ∧ s.sl_layers < maxL
    · obtain ⟨hflip, hsl⟩ := hguard
      obtain ⟨s1, g1, hs1eq, W1, hlay1, hc2', hsz1, hnodes1, hkv1, habove1⟩ :
          ∃ s1 g1, (if c + 1 ≥ s.sl_layers - 1 then grow s else s) = s1
            ∧ WFacts s1 g1
            ∧ (∀ l, l < g.length → layI g1 l = layI g l)
            ∧ c + 2 < g1.length
            ∧ s1.sl_size = s.sl_size
            ∧ s.nodes.length ≤ s1.nodes.length
            ∧ (∀ i, i < s.nodes.length → (getN s1 i).key = (getN s i).key
                ∧ (getN s1 i).val = (getN s i).val)
            ∧ (∀ l, c < l → l < g1.length → k ∉ keysOf s1 (layI g1 l)) := by
        by_cases hgrow : c + 1 ≥ s.sl_layers - 1
        · obtain ⟨WG, hlayG, hlenG, hkvG, htopG⟩ := grow_step W
          obtain ⟨_, _, _, _, _, _, hgn⟩ := grow_scalars s
          refine ⟨grow s, gGrow g s.nodes.length (s.nodes.length + 1),
            by rw [if_pos hgrow], WG, hlayG, by rw [hlenG]; omega,
            rfl, by rw [hgn]; omega, hkvG, ?_⟩
          intro l hl1 hl2
          rw [hlenG] at hl2
          rcases Nat.lt_or_ge l g.length with hcase | hcase
          · rw [hlayG l hcase,
              keysOf_congr (fun m hm => (hkvG m
                (W.hidx m ((chainL_sublist hcase).mem (mid_mem_chain hm)))).1)]
            exact habove l hl1 hcase
          · have hleq : l = g.length := by omega
            rw [hleq, keysOf, htopG]
            simp
        · refine ⟨s, g, by rw [if_neg hgrow], W, fun l _ => rfl, by omega,
            rfl, le_rfl, fun i _ => ⟨rfl, rfl⟩, ?_⟩
          intro l hl1 hl2
          exact habove l hl1 hl2
      have hgetd : (layI g c).mids.getD jc 0 < s.nodes.length :=
        W.hidx _ ((chainL_sublist (show c < g.length by omega)).mem
          (mid_mem_chain (mem_mids_getD hjc)))
      have hjc1 : jc < (layI g1 c).mids.length := by
        rw [hlay1 c (by omega)]; exact hjc
      have hkc1 : midKey s1 (layI g1 c) jc = k := by
        rw [hlay1 c (by omega), midKey, (hkv1 _ hgetd).1]
        exact hkc
      have hpos1 : position = cIdx (layI g1 c) jc := by
        rw [hlay1 c (by omega)]; exact hpos
      have htmp : (getN s1 (cIdx (layI g1 c) jc)).next
          = some ((layI g1 c).mids.getD jc 0) := by
        have h := W1.hnext c (by omega) jc (by rw [chainL_length]; omega)
        rw [cIdx_mid _ hjc1] at h
        exact h
      have hjcb : jc + 1 ≤ s1.nodes.length + 1 := by
        have h1 := nodes_le W1
        have h3 : (chainL (layI g1 c)).length ≤ (allIdx g1).length :=
          (chainL_sublist (show c < g1.length by omega)).length_le
        rw [chainL_length] at h3
        omega
      obtain ⟨pm, hpm, hwalk, ⟨u, hu⟩, hz⟩ :=
        walkLeft_run W1 (show c + 1 < g1.length by omega) jc (le_of_lt hjc1)
          (s1.nodes.length + 1) hjcb
      have habs1' : k ∉ keysOf s1 (layI g1 (c + 1)) :=
        habove1 (c + 1) (by omega) (by omega)
      obtain ⟨jnew, hjnew, hueq, hltnew, hgtnew⟩ :=
        walkLeft_stop W1 (by omega) hjc1 hkc1 habs1' hpm hu hz
      subst hueq
      have hnx2 : (getN s1 (cIdx (layI g1 (c + 1)) jnew)).next
          = some (cIdx (layI g1 (c + 1)) (jnew + 1)) :=
        W1.hnext (c + 1) (by omega) jnew (by rw [chainL_length]; omega)
      have habs2' : k ∉ keysOf s1 (layI g1 (c + 2)) :=
        habove1 (c + 2) (by omega) (by omega)
      obtain ⟨W2, hK2, hV2, hkv2⟩ :=
        spliceUp_wfacts W1 v (c + 1 + 1) (c + 1 + 1) (by omega) hjc1 hkc1
          hjnew hltnew hgtnew habs2' (show nn < s1.nodes.length by omega)
      have hmem1 : ∀ l, l < g1.length → ∀ m, m ∈ (layI g1 l).mids →
          m < s1.nodes.length :=
        fun l hl m hm => W1.hidx m ((chainL_sublist hl).mem (mid_mem_chain hm))
      obtain ⟨j0, hj0, hkj0, hvj0⟩ := hval
      have hj0lt : (layI g 0).mids.getD j0 0 < s.nodes.length :=
        W.hidx _ ((chainL_sublist (show 0 < g.length by omega)).mem
          (mid_mem_chain (mem_mids_getD hj0)))
      obtain ⟨s', g', hrun, W', hsz', hlay0', hkeys0', hval'⟩ :=
        ih (c + 1) jnew (cIdx (layI g1 (c + 1)) jnew) _ _ W2
          (by omega) (by omega)
          (by rw [gSplice_length (show c + 1 < g1.length by omega)]; omega)
          (by rw [layI_gSplice_self (show c + 1 < g1.length by omega),
                insLayer_mids_length _ hjnew]; omega)
          (by rw [layI_gSplice_self (show c + 1 < g1.length by omega), midKey,
                insLayer_mids_getD_eq _ hjnew]
              exact hK2)
          (by rw [layI_gSplice_self (show c + 1 < g1.length by omega)]
              exact (cIdx_insLayer_le hjnew le_rfl).symm)
          (by intro l hl1 hl2
              rw [gSplice_length (show c + 1 < g1.length by omega)] at hl2
              rw [layI_gSplice_gt (show c + 1 < g1.length by omega) (by omega)]
              rw [keysOf_congr (fun m hm => (hkv2 m (hmem1 l hl2 m hm)).1)]
              exact habove1 l (by omega) hl2)
          (by simp [setHeight, setUp, setNext, setPrev, updN]
              omega)
          (by refine ⟨j0, ?_, ?_, ?_⟩
              · rw [layI_gSplice_lt (show c + 1 < g1.length by omega) (by omega),
                  hlay1 0 (by omega)]
                exact hj0
              · rw [layI_gSplice_lt (show c + 1 < g1.length by omega) (by omega),
                  hlay1 0 (by omega), midKey,
                  (hkv2 _ (hj0lt.trans_le hnodes1)).1,
                  (hkv1 _ hj0lt).1]
                exact hkj0
              · rw [layI_gSplice_lt (show c + 1 < g1.length by omega) (by omega),
                  hlay1 0 (by omega),
                  (hkv2 _ (hj0lt.trans_le hnodes1)).2, (hkv1 _ hj0lt).2]
                exact hvj0)
      refine ⟨s', g', ?_, W', ?_, ?_, ?_, hval'⟩
      · simp only [insLoop, if_pos (show (flipCoin k c = true) ∧ s.sl_layers < maxL
            from ⟨hflip, hsl⟩), hpos1, hs1eq, htmp, hwalk, hu, hnx2]
        exact hrun
      · rw [hsz']
        exact hsz1
      · rw [hlay0', layI_gSplice_lt (show c + 1 < g1.length by omega) (by omega),
          hlay1 0 (by omega)]
      · rw [hkeys0', layI_gSplice_lt (show c + 1 < g1.length by omega) (by omega),
          hlay1 0 (by omega),
          keysOf_congr (fun m hm => (hkv2 m ((W.hidx m
            ((chainL_sublist (show 0 < g.length by omega)).mem
              (mid_mem_chain hm))).trans_le hnodes1)).1)]
        exact keysOf_congr (fun m hm => (hkv1 m (W.hidx m
          ((chainL_sublist (show 0 < g.length by omega)).mem
            (mid_mem_chain hm)))).1)
    · refine ⟨s, g, ?_, W, rfl, rfl, rfl, hval⟩
      simp only [insLoop, if_neg hguard]

theorem sorted_split_list : ∀ {l : List Nat}, l.Pairwise (· < ·) →
    ∀ {k : Nat}, k ∉ l →
    ∃ j, j ≤ l.length ∧ (∀ q, q < j → l.getD q 0 < k)
      ∧ (∀ q, j ≤ q → q < l.length → k < l.getD q 0) := by
  intro l
  induction l with
  | nil =>
    intro _ k _
    refine ⟨0, by simp, ?_, ?_⟩
    · intro q hq
      omega
    · intro q _ hq
      simp at hq
  | cons a t iht =>
    intro hs k hk
    have hst : t.Pairwise (· < ·) := hs.of_cons
    have hat : ∀ x ∈ t, a < x := (List.pairwise_cons.mp hs).1
    have hkt : k ∉ t := fun h => hk (List.mem_cons_of_mem _ h)
    have hka : a ≠ k := fun h => hk (h ▸ List.mem_cons_self _ _)
    by_cases hak : a < k
    · obtain ⟨j', h1, h2, h3⟩ := iht hst hkt
      refine ⟨j' + 1, by simp; omega, ?_, ?_⟩
      · intro q hq
        match q with
        | 0 => simpa using hak
        | q' + 1 =>
          have := h2 q' (by omega)
          simpa using this
      · intro q hq1 hq2
        match q with
        | q' + 1 =>
          have := h3 q' (by omega) (by simp at hq2; omega)
          simpa using this
    · have hka' : k < a := by omega
      refine ⟨0, by omega, ?_, ?_⟩
      · intro q hq
        omega
      · intro q _ hq2
        match q with
        | 0 => simpa using hka'
        | q' + 1 =>
          have hq2' : q' < t.length := by simp at hq2; omega
          show k < t.getD q' 0
          have hmem : t.getD q' 0 ∈ t := by
            rw [getD_eq_get hq2']
            exact List.getElem_mem hq2'
          exact lt_trans hka' (hat _ hmem)

/-- A sorted layer splits around any absent key. -/
theorem sorted_split {s : SkipState} {L : AbsLayer}
    (hs : (keysOf s L).Pairwise (· < ·)) {k : Nat} (hk : k ∉ keysOf s L) :
    ∃ j, j ≤ L.mids.length ∧ (∀ q, q < j → midKey s L q < k)
      ∧ (∀ q, j ≤ q → q < L.mids.length → k < midKey s L q) := by
  obtain ⟨j, h1, h2, h3⟩ := sorted_split_list hs hk
  have hlen : (keysOf s L).length = L.mids.length := by simp [keysOf]
  refine ⟨j, by omega, ?_, ?_⟩
  · intro q hq
    rw [midKey_eq (by omega)]
    exact h2 q hq
  · intro q hq1 hq2
    rw [midKey_eq (by omega)]
    exact h3 q hq1 (by omega)

/-- `search` meets its specification, `WFacts` form. -/
theorem search_eq_specW {s : SkipState} {g : List AbsLayer}
    (W : WFacts s g) (k : Nat) : search s k = searchSpec s g k := by
  have hg1 : g.length - 1 < g.length := by have := W.h2; omega
  have htop : s.top_l = cIdx (layI g (g.length - 1)) 0 := by
    rw [cIdx_zero, W.hth]
  rw [search, htop]
  apply searchLoop_eq_spec W k (s.nodes.length + 1) (g.length - 1) 0
  · exact hg1
  · omega
  · intro L' hgt hlt
    omega
  · intro q hq
    omega
  · intro _
    exact htop.symm
  · exact smeasure_le W hg1

theorem take_cons_drop_perm (l : List Nat) (j k : Nat) :
    (l.take j ++ k :: l.drop j).Perm (k :: l) := by
  have h : (l.take j ++ k :: l.drop j).Perm (k :: (l.take j ++ l.drop j)) :=
    List.perm_middle
  rw [List.take_append_drop] at h
  exact h

/-- `sl_size` plays no part in the structural invariants. -/
theorem wfacts_set_size {s : SkipState} {g : List AbsLayer} (W : WFacts s g)
    (n : Nat) : WFacts { s with sl_size := n } g :=
  ⟨W.hlen, W.h2, W.hbh, W.hbt, W.hbotHead, W.hbotTail, W.hbotMid, W.hth,
    W.htt, W.htopHead, W.htopTail, W.htopEmpty, W.hheadSent, W.htailSent,
    W.hmidSent, W.hheadPrev, W.htailNext, W.hnext, W.hprev, W.hsorted,
    W.hvHeadUp, W.hvHeadDown, W.hvTailUp, W.hvTailDown, W.hvHi, W.hvLoNone,
    W.hvLoSome, W.hidx, W.hnodup⟩

/-- `insert` on a key already present: `search` finds it and `insert`
returns `(false, ·)` without touching the state. -/
theorem insert_dup {s : SkipState} {g : List AbsLayer} (W : WFacts s g)
    (hsz : s.sl_size = (bottomMids g).length) {k : Nat}
    (hk : k ∈ bottomKeys s g) (v : Nat) :
    insert s k v = .ok (false, s) := by
  obtain ⟨t, ht, htk⟩ := List.mem_map.mp hk
  have hmne : bottomMids g ≠ [] := by
    intro he
    rw [show bottomMids g = (layI g 0).mids from rfl] at he
    rw [he] at ht
    exact (List.not_mem_nil t) ht
  have hne : ¬(s.sl_size = 0) := by
    have := List.length_pos.mpr hmne
    omega
  have hsearch : search s k = .ok (true, t) := by
    rw [search_eq_specW W]
    exact searchSpec_eq_found W ht htk
  simp only [insert, if_neg hne, hsearch]

/-- The common tail of `insert` on an absent key: bottom splice at the
split position `j`, then the promotion loop; everything terminates and
the bottom layer gains exactly the key `k` at position `j`. -/
theorem insert_step {s : SkipState} {g : List AbsLayer} (W : WFacts s g)
    {k j : Nat} (v : Nat)
    (hj : j ≤ (layI g 0).mids.length)
    (hlt : ∀ q, q < j → midKey s (layI g 0) q < k)
    (hgt : ∀ q, j ≤ q → q < (layI g 0).mids.length → k < midKey s (layI g 0) q)
    (hkb : k ∉ bottomKeys s g) :
    ∃ s' g',
      insLoop k v (maxCap s.sl_size) s.nodes.length (maxCap s.sl_size + 2)
        (setNext
          (setPrev
            { s with nodes := s.nodes ++
                [{ dataNode k v with
                    height := 1,
                    next := some (cIdx (layI g 0) (j + 1)),
                    prev := some (cIdx (layI g 0) j) }] }
            (cIdx (layI g 0) (j + 1)) (some s.nodes.length))
          (cIdx (layI g 0) j) (some s.nodes.length))
        (cIdx (layI g 0) j) 0 = .ok s'
      ∧ WFacts s' g'
      ∧ s'.sl_size = s.sl_size
      ∧ keysOf s' (layI g' 0)
          = (keysOf s (layI g 0)).take j ++ k :: (keysOf s (layI g 0)).drop j
      ∧ (layI g' 0).mids.length = (layI g 0).mids.length + 1
      ∧ (∃ j0, j0 < (layI g' 0).mids.length ∧ midKey s' (layI g' 0) j0 = k
          ∧ (getN s' ((layI g' 0).mids.getD j0 0)).val = v) := by
  have hg2 := W.h2
  have h0len : 0 < g.length := by omega
  have habs1 : k ∉ keysOf s (layI g 1) :=
    not_mem_keys_up W (by omega) hkb
  obtain ⟨W3, hK3, hV3, hkv3⟩ := spliceBottom_wfacts W v hj hlt hgt habs1
  have hg3len : (gSplice g 0 j s.nodes.length).length = g.length :=
    gSplice_length h0len _ _
  have hlay30 : layI (gSplice g 0 j s.nodes.length) 0
      = insLayer (layI g 0) j s.nodes.length := layI_gSplice_self h0len _ _
  have hmemb : ∀ l, l < g.length → ∀ m, m ∈ (layI g l).mids →
      m < s.nodes.length :=
    fun l hl m hm => W.hidx m ((chainL_sublist hl).mem (mid_mem_chain hm))
  obtain ⟨s', g', hrun, W', hsz', hlay0', hkeys0', hval'⟩ :=
    @insLoop_ok k v (maxCap s.sl_size) s.nodes.length
      (maxCap s.sl_size + 2) 0 j (cIdx (layI g 0) j) _ _ W3
      (by omega) (by omega)
      (by rw [hg3len]; omega)
      (by rw [hlay30, insLayer_mids_length _ hj]; omega)
      (by rw [hlay30, midKey, insLayer_mids_getD_eq _ hj]
          exact hK3)
      (by rw [hlay30]
          exact (cIdx_insLayer_le hj le_rfl).symm)
      (by intro l hl1 hl2
          rw [hg3len] at hl2
          rw [layI_gSplice_gt h0len hl1,
            keysOf_congr (fun m hm => (hkv3 m (hmemb l hl2 m hm)).1)]
          exact not_mem_keys_up W hl2 hkb)
      (by simp [setNext, setPrev, updN])
      (by refine ⟨j, ?_, ?_, ?_⟩
          · rw [hlay30, insLayer_mids_length _ hj]
            omega
          · rw [hlay30, midKey, insLayer_mids_getD_eq _ hj]
            exact hK3
          · rw [hlay30, insLayer_mids_getD_eq _ hj]
            exact hV3)
  refine ⟨s', g', hrun, W', ?_, ?_, ?_, hval'⟩
  · rw [hsz']
    rfl
  · rw [hkeys0', hlay30]
    exact keysOf_insLayer_mixed hj
      (fun m hm => (hkv3 m (hmemb 0 h0len m hm)).1) hK3
  · rw [hlay0', hlay30, insLayer_mids_length _ hj]

/-- `insert` on an absent key: returns `(true, ·)`, the result is
well-formed, its size grows by one, and its bottom keys are the old
keys plus `k`. -/
theorem insert_ok {s : SkipState} {g : List AbsLayer} (W : WFacts s g)
    (hsz : s.sl_size = (bottomMids g).length) {k : Nat} (v : Nat)
    (hkb : k ∉ bottomKeys s g) :
    ∃ s' g', insert s k v = .ok (true, s')
      ∧ WFacts s' g'
      ∧ s'.sl_size = (bottomMids g').length
      ∧ s'.sl_size = s.sl_size + 1
      ∧ (bottomKeys s' g').Perm (k :: bottomKeys s g)
      ∧ (∃ j0, j0 < (layI g' 0).mids.length ∧ midKey s' (layI g' 0) j0 = k
          ∧ (getN s' ((layI g' 0).mids.getD j0 0)).val = v) := by
  have hg2 := W.h2
  have h0len : 0 < g.length := by omega
  by_cases hz0 : s.sl_size = 0
  · have hmids0 : (layI g 0).mids = [] := by
      have : (bottomMids g).length = 0 := by omega
      exact List.length_eq_zero.mp this
    have hposA : s.bottom_l = cIdx (layI g 0) 0 := by
      rw [cIdx_zero, W.hbh]
    have hnext0 : (getN s (cIdx (layI g 0) 0)).next
        = some (cIdx (layI g 0) (0 + 1)) :=
      W.hnext 0 h0len 0 (by rw [chainL_length]; omega)
    obtain ⟨s', g', hrun, W', hsz', hkeys', hmlen', hval'⟩ :=
      insert_step W v (Nat.zero_le _)
        (fun q hq => absurd hq (by omega))
        (fun q _ hq => absurd hq (by rw [hmids0] at hq ⊢; simp at hq))
        hkb
    refine ⟨{ s' with sl_size := s'.sl_size + 1 }, g', ?_,
      wfacts_set_size W' _, ?_, ?_, ?_, hval'⟩
    · rw [hposA] at hrun
      simp only [insert, if_pos hz0, hposA, hnext0, hrun]
    · show s'.sl_size + 1 = (bottomMids g').length
      rw [show (bottomMids g').length = (layI g' 0).mids.length from rfl, hmlen']
      have hm0 : (layI g 0).mids.length = 0 := by rw [hmids0]; rfl
      omega
    · show s'.sl_size + 1 = s.sl_size + 1
      omega
    · show (keysOf s' (layI g' 0)).Perm (k :: bottomKeys s g)
      rw [hkeys']
      exact take_cons_drop_perm _ _ _
  · have hmne : (layI g 0).mids ≠ [] := by
      intro he
      rw [show bottomMids g = (layI g 0).mids from rfl, he] at hsz
      simp at hsz
      omega
    obtain ⟨j, hj, hlt, hgt⟩ := sorted_split (W.hsorted 0 h0len) hkb
    have hsearch : search s k = .ok (false, cIdx (layI g 0) j) := by
      rw [search_eq_specW W]
      exact searchSpec_eq_pred W hj hmne hlt hgt
    have hnextB : (getN s (cIdx (layI g 0) j)).next
        = some (cIdx (layI g 0) (j + 1)) :=
      W.hnext 0 h0len j (by rw [chainL_length]; omega)
    obtain ⟨s', g', hrun, W', hsz', hkeys', hmlen', hval'⟩ :=
      insert_step W v hj hlt hgt hkb
    refine ⟨{ s' with sl_size := s'.sl_size + 1 }, g', ?_,
      wfacts_set_size W' _, ?_, ?_, ?_, hval'⟩
    · simp only [insert, if_neg hz0, hsearch, hnextB, hrun]
    · show s'.sl_size + 1 = (bottomMids g').length
      rw [show (bottomMids g').length = (layI g' 0).mids.length from rfl, hmlen']
      have : s.sl_size = (layI g 0).mids.length := hsz
      omega
    · show s'.sl_size + 1 = s.sl_size + 1
      omega
    · show (keysOf s' (layI g' 0)).Perm (k :: bottomKeys s g)
      rw [hkeys']
      exact take_cons_drop_perm _ _ _

/-- `find` returns the value stored at the bottom-layer node holding
its key. -/
theorem find_val {s : SkipState} {g : List AbsLayer} (W : WFacts s g)
    {k v j0 : Nat} (hj0 : j0 < (layI g 0).mids.length)
    (hk : midKey s (layI g 0) j0 = k)
    (hv : (getN s ((layI g 0).mids.getD j0 0)).val = v) :
    find s k = .ok v := by
  have hsearch : search s k = .ok (true, (layI g 0).mids.getD j0 0) := by
    rw [search_eq_specW W]
    exact searchSpec_eq_found W (mem_mids_getD hj0) hk
  simp only [find, hsearch, hv]

/-- The walk of `allKeysInOrder` from chain position `p` of the bottom
layer collects the remaining keys in order. -/
theorem allKeysLoop_walk {s : SkipState} {g : List AbsLayer} (W : WFacts s g) :
    ∀ fuel p, 1 ≤ p → p ≤ (layI g 0).mids.length + 1 →
      (layI g 0).mids.length + 2 - p ≤ fuel → ∀ acc,
      allKeysLoop s fuel (cIdx (layI g 0) p) acc
        = .ok (acc ++ (keysOf s (layI g 0)).drop (p - 1)) := by
  have hg0 : 0 < g.length := by have := W.h2; omega
  have hKlen : (keysOf s (layI g 0)).length = (layI g 0).mids.length := by
    simp [keysOf]
  intro fuel
  induction fuel with
  | zero =>
    intro p h1 h2 h3 acc
    omega
  | succ f ih =>
    intro p h1 h2 h3 acc
    by_cases hp : p = (layI g 0).mids.length + 1
    · have hc : cIdx (layI g 0) p = s.bottom_tail := by
        rw [hp, cIdx_tail, W.hbt]
      rw [allKeysLoop, if_pos hc]
      have hdrop : (keysOf s (layI g 0)).drop (p - 1) = [] :=
        List.drop_eq_nil_of_le (by omega)
      rw [hdrop, List.append_nil]
    · have hplt : p ≤ (layI g 0).mids.length := by omega
      have hne : ¬(cIdx (layI g 0) p = s.bottom_tail) := by
        rw [← W.hbt, ← cIdx_tail]
        exact cIdx_ne_same W hg0 (by rw [chainL_length]; omega)
          (by rw [chainL_length]; omega) (by omega)
      have hnx := W.hnext 0 hg0 p (by rw [chainL_length]; omega)
      rw [allKeysLoop, if_neg hne, hnx]
      obtain ⟨q, rfl⟩ : ∃ q, p = q + 1 := ⟨p - 1, by omega⟩
      have hqM : q < (layI g 0).mids.length := by omega
      have hkey : (getN s (cIdx (layI g 0) (q + 1))).key
          = midKey s (layI g 0) q := by
        rw [cIdx_mid _ hqM, midKey]
      rw [hkey]
      show allKeysLoop s f (cIdx (layI g 0) (q + 1 + 1))
          (acc ++ [midKey s (layI g 0) q])
        = .ok (acc ++ (keysOf s (layI g 0)).drop (q + 1 - 1))
      rw [ih (q + 1 + 1) (by omega) (by omega) (by omega)]
      congr 1
      rw [List.append_assoc]
      congr 1
      have hq' : q < (keysOf s (layI g 0)).length := by omega
      show [midKey s (layI g 0) q] ++ (keysOf s (layI g 0)).drop (q + 1)
          = (keysOf s (layI g 0)).drop q
      rw [List.drop_eq_getElem_cons hq', List.singleton_append]
      congr 1
      rw [midKey_eq hqM, getD_eq_get (by omega)]

/-- `allKeysInOrder` returns exactly the bottom layer's keys, in layer
order, on every well-formed state. -/
theorem allKeys_eq {s : SkipState} {g : List AbsLayer} (W : WFacts s g) :
    allKeysInOrder s = .ok (bottomKeys s g) := by
  have hg0 : 0 < g.length := by have := W.h2; omega
  have hnx0 := W.hnext 0 hg0 0 (by rw [chainL_length]; omega)
  rw [cIdx_zero, W.hbh] at hnx0
  have hnx : (getN s s.bottom_l).next = some (cIdx (layI g 0) 1) := hnx0
  have hfuel : (layI g 0).mids.length + 2 - 1 ≤ s.nodes.length + 1 := by
    have h1 := nodes_le W
    have h3 : (chainL (layI g 0)).length ≤ (allIdx g).length :=
      (chainL_sublist hg0).length_le
    rw [chainL_length] at h3
    omega
  have hwalk := allKeysLoop_walk W (s.nodes.length + 1) 1 le_rfl (by omega)
    hfuel []
  simp only [allKeysInOrder, hnx, hwalk]
  rw [List.nil_append, List.drop_zero]
  rfl

/-- Running a sequence of inserts with fresh distinct keys keeps the
state well-formed and adds exactly those keys to the bottom layer. -/
theorem buildFrom_keys : ∀ (ops : List (Nat × Nat)) (s : SkipState)
    (g : List AbsLayer), WFacts s g → s.sl_size = (bottomMids g).length →
    (ops.map Prod.fst).Nodup →
    (∀ x ∈ ops.map Prod.fst, x ∉ bottomKeys s g) →
    ∀ s', buildFrom s ops = .ok s' →
    ∃ g', WFacts s' g' ∧ s'.sl_size = (bottomMids g').length
      ∧ (bottomKeys s' g').Perm (ops.map Prod.fst ++ bottomKeys s g) := by
  intro ops
  induction ops with
  | nil =>
    intro s g W hsz _ _ s' hb
    simp only [buildFrom, Res.ok.injEq] at hb
    subst hb
    exact ⟨g, W, hsz, by simp⟩
  | cons hd rest ih =>
    intro s g W hsz hnd hfresh s' hb
    obtain ⟨k0, v0⟩ := hd
    simp only [List.map_cons] at hnd hfresh
    have hk0 : k0 ∉ bottomKeys s g := hfresh k0 (by simp)
    obtain ⟨s1, g1, hins, W1, hsz1, _, hperm1, _⟩ := insert_ok W hsz v0 hk0
    simp only [buildFrom, hins] at hb
    have hnd' : (rest.map Prod.fst).Nodup := (List.nodup_cons.mp hnd).2
    have hk0notin : k0 ∉ rest.map Prod.fst := (List.nodup_cons.mp hnd).1
    have hfresh' : ∀ x ∈ rest.map Prod.fst, x ∉ bottomKeys s1 g1 := by
      intro x hx hmem
      rcases List.mem_cons.mp (hperm1.mem_iff.mp hmem) with rfl | hold
      · exact hk0notin hx
      · exact hfresh x (List.mem_cons_of_mem _ hx) hold
    obtain ⟨g', W', hsz', hperm'⟩ := ih s1 g1 W1 hsz1 hnd' hfresh' s' hb
    refine ⟨g', W', hsz', ?_⟩
    exact hperm'.trans ((List.Perm.append_left _ hperm1).trans List.perm_middle)

/-- The grid of a freshly constructed `SkipList`. -/
def gFresh : List AbsLayer := [⟨2, [], 3⟩, ⟨0, [], 1⟩]

/-- Every sequence of inserts (duplicates allowed) keeps the state
well-formed. -/
theorem buildFrom_wf : ∀ (ops : List (Nat × Nat)) (s : SkipState)
    (g : List AbsLayer), WFacts s g → s.sl_size = (bottomMids g).length →
    ∀ s', buildFrom s ops = .ok s' →
    ∃ g', WFacts s' g' ∧ s'.sl_size = (bottomMids g').length := by
  intro ops
  induction ops with
  | nil =>
    intro s g W hsz s' hb
    simp only [buildFrom, Res.ok.injEq] at hb
    subst hb
    exact ⟨g, W, hsz⟩
  | cons hd rest ih =>
    intro s g W hsz s' hb
    obtain ⟨k0, v0⟩ := hd
    by_cases hk0 : k0 ∈ bottomKeys s g
    · have hdup := insert_dup W hsz hk0 v0
      simp only [buildFrom, hdup] at hb
      exact ih s g W hsz s' hb
    · obtain ⟨s1, g1, hins, W1, hsz1, _, _, _⟩ := insert_ok W hsz v0 hk0
      simp only [buildFrom, hins] at hb
      exact ih s1 g1 W1 hsz1 s' hb

/-!
## Claim theorems
-/

/-- C6: `flipCoin` is a pure deterministic function of its two
arguments (it is a Lean function, so determinism is inherent): for the
unsigned overload it is true iff bit `previousFlips % 8` of the XOR-fold
of the key's four bytes is set; the string overload tests the same bit
of the XOR of all character bytes; and the flip sequence of a key is
periodic with period dividing 8. -/
theorem c6_flipCoin_deterministic_xor_fold :
    ∀ (key pf : Nat),
      (flipCoin key pf = true ↔ (byteFold key).testBit (pf % 8) = true)
      ∧ (∀ chars : List Nat,
          flipCoinStr chars pf = true ↔ (strFold chars).testBit (pf % 8) = true)
      ∧ flipCoin key (pf + 8) = flipCoin key pf := by
  intro key pf
  refine ⟨?_, fun chars => ?_, ?_⟩
  · rw [flipCoin, and_one_shiftLeft_ne]
  · rw [flipCoinStr, and_one_shiftLeft_ne]
  · simp [flipCoin, Nat.add_mod_right]

/-- C7: inserting integer keys 0..9 in order into a fresh list yields
heights exactly [1,2,1,3,1,2,1,4,1,2], as reported by `height(k)`
immediately after each insert. -/
theorem c7_heights_0_to_9 :
    heightsTrace mkSkipList [0, 1, 2, 3, 4, 5, 6, 7, 8, 9]
      = .ok [1, 2, 1, 3, 1, 2, 1, 4, 1, 2] := by rfl

/-- C3: the promotion loop of `insert` halts as soon as the layer count
has reached the cap `max` (regardless of further heads), the cap is 13
for sizes below 16 and `3 * ceil(log2(n+1)) + 1` otherwise, and the two
concrete scenarios: key 255 (folded byte 0xFF) after keys 0..9 gets
height 12 with 13 layers, and after keys 0..15 gets height 15 with 16
layers. -/
theorem c3_height_cap :
    (∀ (s : SkipState) (k v maxL nn fuel pos cl : Nat),
        maxL ≤ s.sl_layers → insLoop k v maxL nn (fuel + 1) s pos cl = .ok s)
    ∧ (∀ n, maxCap n = if n < 16 then 13 else 3 * Nat.clog 2 (n + 1) + 1)
    ∧ byteFold 255 = 255
    ∧ insert255After (List.range 10) = .ok (.ok 12, 13)
    ∧ insert255After (List.range 16) = .ok (.ok 15, 16) := by
  refine ⟨?_, ?_, rfl, rfl, rfl⟩
  · intro s k v maxL nn fuel pos cl h
    rw [insLoop, if_neg]
    intro hc
    exact absurd hc.2 (Nat.not_lt.mpr h)
  · intro n
    rw [maxCap, clog2_eq_clog]

/-- C3 witness: the halting conjunct applied on the freshly constructed
list with the cap already reached. -/
theorem c3_height_cap_witness :
    insLoop 0 0 2 0 1 mkSkipList 0 0 = .ok mkSkipList :=
  c3_height_cap.1 mkSkipList 0 0 2 0 0 0 0 (by decide)

/-- C2 (code bug): on the list built by `insert(3,5)`, `height`, `find`
and `previousKey` on the absent key 7 do raise a `RuntimeException`, and
`nextKey`/`previousKey` on the extremal present key 3 raise one, but
`nextKey` on the absent key 7 raises nothing: control flows off the end
of the non-void function (undefined behaviour), contradicting both the
claim and the comment `// no key found, throw exception` in the source. -/
theorem c2_nextKey_absent_no_throw :
    runOn [(3, 5)] (fun s => nextKey s 7) = .ub
    ∧ runOn [(3, 5)] (fun s => height s 7) = .exn "No key."
    ∧ runOn [(3, 5)] (fun s => find s 7) = .exn "find failed."
    ∧ runOn [(3, 5)] (fun s => previousKey s 7) = .exn "No previous key"
    ∧ runOn [(3, 5)] (fun s => nextKey s 3) = .exn "failed to get next key."
    ∧ runOn [(3, 5)] (fun s => previousKey s 3) = .exn "No previous key" :=
  ⟨rfl, rfl, rfl, rfl, rfl, rfl⟩

/-- C1 counterexample: searching any key in the freshly constructed
(empty) skip list returns `(false, top_l)` — the *top*-layer head
sentinel (a node one layer above `bottom_l`), not the bottom-layer head
sentinel the claim requires. -/
theorem c1_counterexample_empty_list :
    search mkSkipList 0 = .ok (false, mkSkipList.top_l)
    ∧ mkSkipList.top_l ≠ mkSkipList.bottom_l
    ∧ (getN mkSkipList mkSkipList.top_l).down = some mkSkipList.bottom_l :=
  ⟨rfl, by decide, rfl⟩

/-- C8 counterexample: after `insert(0, 0)` (key 0 never promotes) the
list has `numLayers() == 2` yet `size() == 1`, so it is not freshly
constructed and empty — refuting "numLayers() == 2 exactly when the
list is freshly constructed and empty". -/
theorem c8_counterexample_insert0 :
    layersSizeOf [(0, 0)] = .ok (2, 1)
    ∧ numLayers mkSkipList = 2
    ∧ size mkSkipList = 0 :=
  ⟨rfl, rfl, rfl⟩

/-- C1 (amended): on every well-formed skip list, `search(k)` returns
`(true, p)` with `p` the bottom-layer node holding `k` when `k` is
present; when `k` is absent and the list is non-empty it returns
`(false, p)` with `p` the bottom-layer node immediately preceding where
`k` would be inserted (`predIdx`: the last bottom node with key `< k`,
or the bottom-layer head sentinel when `k` would be smallest); when the
list is empty it returns `(false, p)` with `p` the *top*-layer head
sentinel (not the bottom-layer one the original claim requires). -/
theorem c1_search_positions :
    ∀ (s : SkipState) (g : List AbsLayer), wfCheck s g = true → ∀ k : Nat,
      (∀ t, t ∈ bottomMids g → (getN s t).key = k → search s k = .ok (true, t))
      ∧ (k ∉ bottomKeys s g → bottomMids g ≠ [] →
          search s k = .ok (false, predIdx s g k))
      ∧ (bottomMids g = [] → search s k = .ok (false, s.top_l)) := by
  intro s g hwf k
  have hst := (wfCheck_parts hwf).1
  have W := wfStruct_facts hst
  refine ⟨?_, ?_, ?_⟩
  · intro t ht hk
    rw [search_eq_spec hst k, searchSpec_eq_found W ht hk]
  · intro hk hne
    rw [search_eq_spec hst k, searchSpec, foundIdx_eq_none hk, if_neg hne]
  · intro hbe
    rw [search_eq_spec hst k, searchSpec_eq_empty hbe]

/-- C1 witness: the amended theorem applied on the concrete two-node
state `sampleState` (key 1 present; keys 0 and 2 absent). -/
theorem c1_search_positions_witness :
    search sampleState 1 = .ok (true, 4)
    ∧ search sampleState 0 = .ok (false, predIdx sampleState sampleGrid 0)
    ∧ search sampleState 2 = .ok (false, predIdx sampleState sampleGrid 2) :=
  ⟨(c1_search_positions sampleState sampleGrid (by decide) 1).1 4
      (by decide) (by decide),
   (c1_search_positions sampleState sampleGrid (by decide) 0).2.1
      (by decide) (by decide),
   (c1_search_positions sampleState sampleGrid (by decide) 2).2.1
      (by decide) (by decide)⟩

/-- C9: on every well-formed non-empty skip list, `isSmallestKey` and
`isLargestKey` applied to an absent key return false without raising
anything: they just compare `k` with the first/last bottom-layer key. -/
theorem c9_absent_returns_false :
    ∀ (s : SkipState) (g : List AbsLayer), wfCheck s g = true → ∀ k : Nat,
      bottomMids g ≠ [] → k ∉ bottomKeys s g →
      isSmallestKey s k = .ok false ∧ isLargestKey s k = .ok false := by
  intro s g hwf k hne hk
  have hst := (wfCheck_parts hwf).1
  have W := wfStruct_facts hst
  have h0 : 0 < g.length := by have := W.h2; omega
  have hM : 0 < (layI g 0).mids.length := by
    rcases Nat.eq_zero_or_pos (layI g 0).mids.length with h | h
    · exact absurd (List.length_eq_zero.mp h) hne
    · exact h
  constructor
  · have hbl : s.bottom_l = cIdx (layI g 0) 0 := by rw [cIdx_zero, W.hbh]
    have hnx := W.hnext 0 h0 0 (by rw [chainL_length]; omega)
    have hkm : (getN s (cIdx (layI g 0) 1)).key = midKey s (layI g 0) 0 := by
      rw [cIdx_mid _ hM, midKey]
    have hnk : ¬(k = (getN s (cIdx (layI g 0) 1)).key) := by
      rw [hkm]
      intro he
      exact hk (by rw [bottomKeys, he]; exact midKey_mem_keys hM)
    rw [isSmallestKey, hbl, hnx]
    show Res.ok (decide (k = (getN s (cIdx (layI g 0) 1)).key)) = Res.ok false
    rw [decide_eq_false hnk]
  · have hpr := btail_prev_some W
    have hM1 : (layI g 0).mids.length - 1 < (layI g 0).mids.length := by omega
    have hci : cIdx (layI g 0) (layI g 0).mids.length
        = (layI g 0).mids.getD ((layI g 0).mids.length - 1) 0 := by
      have := cIdx_mid (layI g 0) hM1
      rw [show (layI g 0).mids.length - 1 + 1 = (layI g 0).mids.length by omega] at this
      exact this
    have hkm : (getN s (cIdx (layI g 0) (layI g 0).mids.length)).key
        = midKey s (layI g 0) ((layI g 0).mids.length - 1) := by
      rw [hci, midKey]
    have hnk : ¬(k = (getN s (cIdx (layI g 0) (layI g 0).mids.length)).key) := by
      rw [hkm]
      intro he
      exact hk (by rw [bottomKeys, he]; exact midKey_mem_keys hM1)
    rw [isLargestKey, hpr]
    show Res.ok (decide (k = (getN s (cIdx (layI g 0) (layI g 0).mids.length)).key))
        = Res.ok false
    rw [decide_eq_false hnk]

/-- C9 witness: the theorem applied on `sampleState` with absent keys. -/
theorem c9_absent_returns_false_witness :
    isSmallestKey sampleState 0 = .ok false
    ∧ isLargestKey sampleState 0 = .ok false :=
  c9_absent_returns_false sampleState sampleGrid (by decide) 0
    (by decide) (by decide)

/-- C4: on every well-formed skip list, inserting an absent key `k`
with value `v` returns true, an immediate `find(k)` returns `v`, and a
second `insert(k, v2)` returns false with the state object unchanged
(the duplicate path returns before any mutation). -/
theorem c4_insert_find_duplicate :
    ∀ (s : SkipState) (g : List AbsLayer), wfCheck s g = true →
      ∀ k v v2 : Nat, k ∉ bottomKeys s g →
      ∃ s', insert s k v = .ok (true, s')
        ∧ find s' k = .ok v
        ∧ insert s' k v2 = .ok (false, s') := by
  intro s g hwf k v v2 hk
  obtain ⟨hst, hsz⟩ := wfCheck_parts hwf
  have W := wfStruct_facts hst
  obtain ⟨s', g', hins, W', hsz', _, hperm, j0, hj0, hkj0, hvj0⟩ :=
    insert_ok W hsz v hk
  refine ⟨s', hins, find_val W' hj0 hkj0 hvj0, ?_⟩
  exact insert_dup W' hsz' (hperm.mem_iff.mpr (List.mem_cons_self _ _)) v2

/-- C4 witness: insert key 5 into `sampleState`, find it, and fail to
insert it again. -/
theorem c4_insert_find_duplicate_witness :
    ∃ s', insert sampleState 5 9 = .ok (true, s')
      ∧ find s' 5 = .ok 9
      ∧ insert s' 5 11 = .ok (false, s') :=
  c4_insert_find_duplicate sampleState sampleGrid (by decide) 5 9 11 (by decide)

/-- C10: `insert` terminates normally on every well-formed skip list
and every key and value; in particular the all-heads key 255 (whose
folded byte is 0xFF, so `flipCoin 255 p` is true for every promotion
index `p`) cannot make the promotion loop spin — the cap stops it. -/
theorem c10_insert_terminates :
    (∀ p : Nat, flipCoin 255 p = true)
    ∧ ∀ (s : SkipState) (g : List AbsLayer), wfCheck s g = true →
      ∀ k v : Nat, ∃ r, insert s k v = .ok r := by
  constructor
  · intro p
    show (byteFold 255 &&& (1 <<< (p % 8)) != 0) = true
    rw [show byteFold 255 = 255 from rfl, and_one_shiftLeft_ne,
      show (255 : Nat) = 2 ^ 8 - 1 from rfl, Nat.testBit_two_pow_sub_one]
    simp [Nat.mod_lt]
  · intro s g hwf k v
    obtain ⟨hst, hsz⟩ := wfCheck_parts hwf
    have W := wfStruct_facts hst
    by_cases hk : k ∈ bottomKeys s g
    · exact ⟨(false, s), insert_dup W hsz hk v⟩
    · obtain ⟨s', _, hins, _⟩ := insert_ok W hsz v hk
      exact ⟨(true, s'), hins⟩

/-- C10 witness: the all-heads key 255 inserts normally into
`sampleState`. -/
theorem c10_insert_terminates_witness :
    flipCoin 255 3 = true ∧ ∃ r, insert sampleState 255 0 = .ok r :=
  ⟨c10_insert_terminates.1 3,
   c10_insert_terminates.2 sampleState sampleGrid (by decide) 255 0⟩

/-- C5: building a list by inserting any sequence of pairwise distinct
keys, `allKeysInOrder` succeeds and returns a strictly increasing list
that is a permutation of (i.e. exactly) the inserted keys. -/
theorem c5_allKeysInOrder_sorted :
    ∀ (ops : List (Nat × Nat)), (ops.map Prod.fst).Nodup →
      ∀ s, build ops = .ok s →
      ∃ L, allKeysInOrder s = .ok L
        ∧ L.Pairwise (· < ·) ∧ L.Perm (ops.map Prod.fst) := by
  intro ops hnd s hb
  have W0 : WFacts mkSkipList gFresh :=
    wfStruct_facts (wfCheck_parts (by decide)).1
  have hsz0 : mkSkipList.sl_size = (bottomMids gFresh).length := rfl
  have hfresh : ∀ x ∈ ops.map Prod.fst, x ∉ bottomKeys mkSkipList gFresh := by
    intro x _ hmem
    rw [show bottomKeys mkSkipList gFresh = [] from rfl] at hmem
    exact (List.not_mem_nil x) hmem
  obtain ⟨g', W', _, hperm⟩ :=
    buildFrom_keys ops mkSkipList gFresh W0 hsz0 hnd hfresh s hb
  refine ⟨bottomKeys s g', allKeys_eq W',
    W'.hsorted 0 (by have := W'.h2; omega), ?_⟩
  rw [show bottomKeys mkSkipList gFresh = [] from rfl, List.append_nil]
    at hperm
  exact hperm

/-- C5 witness: inserting keys 3, 1, 2 yields `allKeysInOrder`
returning a sorted permutation of them. -/
theorem c5_allKeysInOrder_sorted_witness :
    ∃ L, allKeysInOrder tripleState = .ok L
      ∧ L.Pairwise (· < ·) ∧ L.Perm [3, 1, 2] :=
  c5_allKeysInOrder_sorted [(3, 1), (1, 2), (2, 3)] (by decide)
    tripleState rfl

/-- C8 (amended): a fresh list has exactly two layers and size 0; on
every state reachable by any sequence of inserts the layer count stays
at least 2 and the state carries a grid whose topmost layer holds no
data node (the empty lane).  The "exactly when empty" direction of the
original claim is refuted separately. -/
theorem c8_layers_ge_two_top_empty :
    numLayers mkSkipList = 2
    ∧ size mkSkipList = 0
    ∧ (∀ (ops : List (Nat × Nat)) (s : SkipState), build ops = .ok s →
        2 ≤ numLayers s
        ∧ ∃ g, WFacts s g ∧ g.length = numLayers s
            ∧ (layI g (g.length - 1)).mids = []) := by
  refine ⟨rfl, rfl, ?_⟩
  intro ops s hb
  have W0 : WFacts mkSkipList gFresh :=
    wfStruct_facts (wfCheck_parts (by decide)).1
  obtain ⟨g', W', _⟩ := buildFrom_wf ops mkSkipList gFresh W0 rfl s hb
  refine ⟨?_, g', W', W'.hlen, W'.htopEmpty⟩
  have h1 := W'.hlen
  have h2 := W'.h2
  show 2 ≤ s.sl_layers
  omega

/-- C8 witness: the theorem applied to the concrete run that builds
`sampleState`. -/
theorem c8_layers_ge_two_top_empty_witness :
    numLayers mkSkipList = 2
    ∧ (2 ≤ numLayers sampleState
        ∧ ∃ g, WFacts sampleState g ∧ g.length = numLayers sampleState
            ∧ (layI g (g.length - 1)).mids = []) :=
  ⟨c8_layers_ge_two_top_empty.1,
   c8_layers_ge_two_top_empty.2.2 [(1, 7)] sampleState rfl⟩

end SkipVerify
